import Mathlib

/-!
# libdaio: the slot engine of `libdaio.c`

A shallow embedding of the engine state machine of `src/libdaio.c`: the slot table
(`acquire_slot`, `release_slot`, `is_empty`), the batch step `process`, and the public
calls `daio_initialize`, `daio_get_available_slots`, `daio_submit_read`, `daio_read_slot`
and `daio_submit_write`.

Conventions.
* The C struct `io_engine` becomes the structure `io_engine`; the lock and the kernel
  context carry no data the calls inspect and are left out.  Every public call runs its
  critical sections to completion, so a call is one transition of the state.
* Pointers are natural numbers, `0` is `NULL`; the contents of allocated memory live in a
  `Heap`.  The arrays of the engine are lists.
* `int`/`long` values are integers.  Where the code stores a `long` value in an `int`
  (the table size `c` of `daio_initialize`, the scan bound `to` of `acquire_slot`, the
  result `num` of `daio_get_available_slots`) the value is reduced to 32 bits by `to_int`.
  An array access outside the array is undefined behaviour in C and makes the modelled
  call return `none`.
* What the operating system does (`io_submit`, `io_getevents`, `posix_memalign`) is a
  parameter of each call (`Kernel`), so theorems quantify over every behaviour of it.
  What the kernel was handed and what it did to the target file is part of the state
  (`World.submitted`, `World.file`); `process` is the only function that changes them.
  `Kernel.disk` is the behaviour of a kernel that runs each submitted batch against the
  file.
* `Reachable` and `ReachableBatchOk` are the states that sequences of public calls lead
  to, the second when no batch step fails; `Good` and `Idle` are the invariants of the
  second.
-/

namespace Daio

/-- A pointer: an address, `0` being the null pointer. -/
abbrev Ptr := Nat

/-- Contents of allocated memory: the bytes stored at each address. -/
abbrev Heap := List (Ptr × List Nat)

/-- The bytes stored at address `p`. -/
def Heap.read (h : Heap) (p : Ptr) : List Nat := (h.lookup p).getD []

/-- The C call `memset(p, v, n)`. -/
def memset (h : Heap) (p : Ptr) (v n : Nat) : Heap := (p, List.replicate n v) :: h

/-- The operation a request control block was prepared for; `zero` is a block that was
only cleared by `memset`. -/
inductive Cmd where
  | zero
  | pread
  | pwrite
  | fsync
  | fdsync
deriving DecidableEq, Repr

/-- The fields of libaio's `struct iocb` that the `io_prep_*` helpers fill in. -/
structure iocb where
  cmd : Cmd
  fd : Int
  buf : Ptr
  nbytes : Nat
  offset : Int
deriving DecidableEq, Repr

/-- A control block right after `memset(cb, 0, sizeof(struct iocb))`. -/
def iocb.cleared : iocb := ⟨Cmd.zero, 0, 0, 0, 0⟩

/-- The libaio helper `io_prep_pread(iocb, fd, buf, count, offset)`. -/
def io_prep_pread (fd : Int) (buf : Ptr) (count : Nat) (offset : Int) : iocb :=
  ⟨Cmd.pread, fd, buf, count, offset⟩

/-- The libaio helper `io_prep_pwrite(iocb, fd, buf, count, offset)`. -/
def io_prep_pwrite (fd : Int) (buf : Ptr) (count : Nat) (offset : Int) : iocb :=
  ⟨Cmd.pwrite, fd, buf, count, offset⟩

/-- The libaio helper `io_prep_fsync(iocb, fd)`. -/
def io_prep_fsync (fd : Int) : iocb := ⟨Cmd.fsync, fd, 0, 0, 0⟩

/-- The libaio helper `io_prep_fdsync(iocb, fd)`. -/
def io_prep_fdsync (fd : Int) : iocb := ⟨Cmd.fdsync, fd, 0, 0, 0⟩

/-- The C expression `(long long)page * engine->block_size` passed as a `long long`
offset: the product is taken in unsigned 64-bit arithmetic and read back as signed. -/
def page_offset (page : Int) (block_size : Nat) : Int :=
  let u := (page * (block_size : Int)) % (2 ^ 64 : Int)
  if u < 2 ^ 63 then u else u - 2 ^ 64

/-- The C struct `io_engine` (without the lock and the kernel context). `events` holds the
`res` field of each `io_event`. -/
structure io_engine where
  block_size : Nat
  channels : Int
  sync : Int
  in_use : Int
  slots : List Int
  iocbs : List iocb
  events : List Nat
  ready : Int
  data : List Ptr
deriving DecidableEq, Repr

/-- The target file: the byte stored at each offset, if there is one. -/
abbrev File := Int → Option Nat

/-- The empty file. -/
def File.empty : File := fun _ => none

/-- The file after `bytes` were written at `offset`. -/
def File.write (f : File) (offset : Int) (bytes : List Nat) : File :=
  fun o => if offset ≤ o ∧ o < offset + (bytes.length : Int) then bytes[(o - offset).toNat]?
    else f o

/-- What a read of at most `n` bytes at `offset` gets: the bytes stored from `offset` on, up
to the first offset that holds none. -/
def File.read (f : File) (offset : Int) : Nat → List Nat
  | 0 => []
  | n + 1 =>
    match f offset with
    | none => []
    | some b => b :: File.read f (offset + 1) n

/-- The engine together with what lies outside it: the memory its buffers live in, the
target file, and the batches `io_submit` accepted so far (oldest first). -/
structure World where
  engine : io_engine
  heap : Heap
  file : File
  submitted : List (List iocb)

/-- The value a C `int` holds after an integer was stored in it: the low 32 bits, read as
a signed number. -/
def to_int (x : Int) : Int := (x + 2147483648) % 4294967296 - 2147483648

/-- Array read `xs[i]`; `none` when `i` is outside the array. -/
def idx {α : Type} (xs : List α) (i : Int) : Option α :=
  if i < 0 then none else xs[i.toNat]?

/-- Array write `xs[i] = v`; `none` when `i` is outside the array. -/
def upd {α : Type} (xs : List α) (i : Int) (v : α) : Option (List α) :=
  if 0 ≤ i ∧ i.toNat < xs.length then some (xs.set i.toNat v) else none

/-- The loop of `is_empty`: `n` iterations are left, `i` is the loop index. -/
def is_empty_loop : Nat → Nat → List Int → Option Int
  | 0, _, _ => some 1
  | n + 1, i, slots =>
    match slots[i]? with
    | none => none
    | some v => if v = 1 then some 0 else is_empty_loop n (i + 1) slots

/-- The C function `is_empty`: 1 if no slot below `channels` is marked, otherwise 0. -/
def is_empty (e : io_engine) : Option Int :=
  is_empty_loop e.channels.toNat 0 e.slots

/-- The loop of `acquire_slot`: `n` iterations are left, `i` is the loop index; the loop
stops at the first slot that holds 0, marks it and yields its index, and yields -1 when
the range is exhausted. -/
def acquire_loop : Nat → Nat → List Int → Option (List Int × Int)
  | 0, _, slots => some (slots, -1)
  | n + 1, i, slots =>
    match slots[i]? with
    | none => none
    | some v => if v = 0 then some (slots.set i 1, (i : Int)) else acquire_loop n (i + 1) slots

/-- The C function `acquire_slot(extra)`: scans the slots `0 .. to - 1`, where the `int`
variable `to` holds `channels + extra`. -/
def acquire_slot (e : io_engine) (extra : Int) : Option (io_engine × Int) :=
  let upto := to_int (e.channels + extra)
  match acquire_loop upto.toNat 0 e.slots with
  | none => none
  | some (slots, slot) =>
    let e1 := { e with slots := slots }
    if slot ≠ -1 ∧ extra = 0 then some ({ e1 with in_use := e1.in_use + 1 }, slot)
    else some (e1, slot)

/-- The C function `release_slot(slot, extra)`; the second component is its return value. -/
def release_slot (e : io_engine) (slot : Int) (extra : Int) : Option (io_engine × Int) :=
  match upd e.slots slot 0 with
  | none => none
  | some slots =>
    let e1 := { e with slots := slots }
    let e2 := if extra = 0 then { e1 with in_use := e1.in_use - 1 } else e1
    some (e2, e2.in_use)

/-- What the operating system does during one call of the library.
* `io_submit nr iocbs` is the return value of `io_submit(ctx, nr, iocbs)`;
* `io_getevents min_nr nr` is the return value of `io_getevents(ctx, min_nr, nr, events, NULL)`;
* `io_run batch heap file` is what running the submitted requests leads to: the file and
  the memory afterwards, and the `res` fields the kernel stores at the front of the
  events array;
* `posix_memalign old size` is the return value of `posix_memalign(&p, pagesize, size)` and
  the value of `p` afterwards, `old` being the value of `p` before. -/
structure Kernel where
  io_submit : Int → List iocb → Int
  io_getevents : Int → Int → Int
  io_run : List iocb → Heap → File → File × Heap × List Nat
  posix_memalign : Ptr → Nat → Int × Ptr

/-- The requests `io_submit(ctx, nr, iocbs)` hands to the kernel: the first `nr` entries. -/
def io_batch (nr : Int) (iocbs : List iocb) : List iocb := iocbs.take nr.toNat

/-- The events array after the kernel stored `new` at its front. -/
def store_events (new old : List Nat) : List Nat := new.take old.length ++ old.drop new.length

/-- The C function `process`: one `io_submit` of the first `in_use` control blocks and one
`io_getevents`; the second component is its return value. A batch `io_submit` accepted is
recorded in `submitted`, and the kernel runs it against the memory and the file. -/
def process (w : World) (k : Kernel) : World × Int :=
  let e := w.engine
  let res := k.io_submit e.in_use e.iocbs
  if res < 0 then (w, res)
  else
    let ran := k.io_run (io_batch e.in_use e.iocbs) w.heap w.file
    let w1 : World :=
      { w with heap := ran.2.1, file := ran.1,
               submitted := w.submitted ++ [io_batch e.in_use e.iocbs] }
    let res2 := k.io_getevents res e.channels
    if res2 < 0 then (w1, res2)
    else ({ w1 with engine := { e with events := store_events ran.2.2 e.events } }, 0)

/-- The C function `daio_get_available_slots`: the `int` variable `num` holds
`channels - in_use`. -/
def daio_get_available_slots (w : World) : Int :=
  to_int (w.engine.channels - w.engine.in_use)

/-- The C function `daio_submit_read(fd, page, &slot)`: the new state, the return value,
and the value stored in `*slot` (if any). -/
def daio_submit_read (w : World) (fd page : Int) : Option (World × Int × Option Int) :=
  let e := w.engine
  match (if e.ready = 0 then acquire_slot e 0 else some (e, -1)) with
  | none => none
  | some (e1, sl) =>
    if sl ≠ -1 then
      match idx e1.data sl with
      | none => none
      | some d =>
        match upd e1.iocbs sl (io_prep_pread fd d e1.block_size (page_offset page e1.block_size)) with
        | none => none
        | some cbs => some ({ w with engine := { e1 with iocbs := cbs } }, 0, some sl)
    else some ({ w with engine := e1 }, -1, none)

/-- The first critical section of `daio_read_slot`: submits the batch if it was not yet
submitted and the table is not empty. Yields the state and `some r` when the function
returns `r` right there. -/
def read_slot_gate (w : World) (k : Kernel) : Option (World × Option Int) :=
  if w.engine.ready = 0 then
    match is_empty w.engine with
    | none => none
    | some emp =>
      if emp = 0 then
        let (w1, res) := process w k
        if res < 0 then some (w1, some (-1))
        else some ({ w1 with engine := { w1.engine with ready := 1 } }, none)
      else some (w, none)
  else some (w, none)

/-- The lines `if (release_slot(slot, 0) == 0) engine->ready = 0;`. -/
def release_and_clear (e : io_engine) (slot : Int) : Option io_engine :=
  match release_slot e slot 0 with
  | none => none
  | some (e1, n) => if n = 0 then some { e1 with ready := 0 } else some e1

/-- The C function `daio_read_slot(slot, &data, &count)`: the new state, the return value,
and the values stored in `*data` and `*count` (if any). -/
def daio_read_slot (w : World) (k : Kernel) (slot : Int) :
    Option (World × Int × Option (Ptr × Nat)) :=
  match read_slot_gate w k with
  | none => none
  | some (w1, some r) => some (w1, r, none)
  | some (w1, none) =>
    let e := w1.engine
    if e.ready ≠ 1 then some (w1, -1, none)
    else
      match idx e.slots slot with
      | none => none
      | some s =>
        if s = 1 then
          match idx e.data slot, idx e.events slot with
          | some d, some c =>
            let (i, p) := k.posix_memalign d e.block_size
            match upd e.data slot p with
            | none => none
            | some data =>
              let e1 := { e with data := data }
              if i < 0 ∨ p = 0 then
                match release_and_clear e1 slot with
                | none => none
                | some e2 => some ({ w1 with engine := e2 }, -1, none)
              else
                let heap := memset w1.heap p 0 e.block_size
                match release_and_clear e1 slot with
                | none => none
                | some e2 =>
                  if d ≠ 0 then some ({ w1 with engine := e2, heap := heap }, 0, some (d, c))
                  else some ({ w1 with engine := e2, heap := heap }, -1, none)
          | _, _ => none
        else some (w1, -1, none)

/-- The part of `daio_submit_write` from the acquisition of the write slot up to the call
of `process`, for an engine whose ready flag is not 1: the state handed to `process`, the
write slot and the sync slot. The write slot is -1 when no slot was free (then nothing
else happened). -/
def submit_write_prepare (e : io_engine) (fd : Int) (buffer : Ptr) (count : Nat) (page : Int) :
    Option (io_engine × Int × Int) :=
  match acquire_slot e 0 with
  | none => none
  | some (e1, write_slot) =>
    if write_slot ≠ -1 then
      match upd e1.iocbs write_slot
          (io_prep_pwrite fd buffer count (page_offset page e1.block_size)) with
      | none => none
      | some cbs =>
        let e2 := { e1 with iocbs := cbs }
        if e2.sync ≠ 0 then
          match acquire_slot e2 1 with
          | none => none
          | some (e3, sync_slot) =>
            if e3.sync = 1 then
              match upd e3.iocbs sync_slot (io_prep_fsync fd) with
              | none => none
              | some cbs3 => some ({ e3 with iocbs := cbs3 }, write_slot, sync_slot)
            else if e3.sync = 2 then
              match upd e3.iocbs sync_slot (io_prep_fdsync fd) with
              | none => none
              | some cbs3 => some ({ e3 with iocbs := cbs3 }, write_slot, sync_slot)
            else some (e3, write_slot, sync_slot)
        else some (e2, write_slot, -1)
    else some (e1, write_slot, -1)

/-- The success branch of `daio_submit_write` after `process`: releases the sync slot (if
one was acquired) and the write slot, and sets the ready flag when slots are still in use. -/
def submit_write_finish (e : io_engine) (write_slot sync_slot : Int) : Option io_engine :=
  match (if sync_slot ≠ -1 then (release_slot e sync_slot 1).map Prod.fst else some e) with
  | none => none
  | some e1 =>
    match release_slot e1 write_slot 0 with
    | none => none
    | some (e2, n) => if n ≠ 0 then some { e2 with ready := 1 } else some e2

/-- The C function `daio_submit_write(fd, buffer, count, page)`: the new state and the
return value. -/
def daio_submit_write (w : World) (k : Kernel) (fd : Int) (buffer : Ptr) (count : Nat)
    (page : Int) : Option (World × Int) :=
  if w.engine.ready = 1 then some (w, -1)
  else
    match submit_write_prepare w.engine fd buffer count page with
    | none => none
    | some (e1, write_slot, sync_slot) =>
      if write_slot ≠ -1 then
        let (w2, res) := process { w with engine := e1 } k
        if res ≥ 0 then
          match submit_write_finish w2.engine write_slot sync_slot with
          | none => none
          | some e3 => some ({ w2 with engine := e3 }, 0)
        else some (w2, -1)
      else some ({ w with engine := e1 }, -1)

/-- What the operating system does during `daio_initialize`: the return values of
`pthread_mutex_init` and `io_setup(c, &ctx)`, whether each `malloc` succeeds (the slot
array, the array of control blocks, each control block, the events array, the data array),
and the result of the `i`-th `posix_memalign` (return value and pointer stored). -/
structure InitOS where
  mutex_init : Int
  io_setup : Int → Int
  malloc_slots : Bool
  malloc_iocbs : Bool
  malloc_iocb : Nat → Bool
  malloc_events : Bool
  malloc_data : Bool
  posix_memalign : Nat → Nat → Int × Ptr

/-- The loop of `daio_initialize` that allocates the control blocks: `true` when every
`malloc` of the `n` iterations from index `i` on succeeds. -/
def init_iocbs (os : InitOS) : Nat → Nat → Bool
  | 0, _ => true
  | n + 1, i => if os.malloc_iocb i then init_iocbs os n (i + 1) else false

/-- The loop of `daio_initialize` that allocates and clears the buffers: the pointers and
the memory, or the value `daio_initialize` returns when an allocation fails. -/
def init_data (os : InitOS) (bs : Nat) : Nat → Nat → List Ptr → Heap → Except Int (List Ptr × Heap)
  | 0, _, ds, h => Except.ok (ds, h)
  | n + 1, i, ds, h =>
    let (res, p) := os.posix_memalign i bs
    if res < 0 ∨ p = 0 then Except.error res
    else init_data os bs n (i + 1) (ds.set i p) (memset h p 0 bs)

/-- The C function `daio_initialize(bs, chns, sc)`: its return value, and the engine it
built (`none` when it returned before building one). The table size `c` is an `int`; when
it is not positive no loop of the function runs and the arrays have no entry. A new engine
has submitted nothing, and the file starts empty. -/
def daio_initialize (os : InitOS) (heap : Heap) (bs : Nat) (chns sc : Int) : Int × Option World :=
  if bs < 512 ∨ bs % 512 ≠ 0 then (-1, none)
  else if chns < 1 then (-1, none)
  else if sc < 0 ∨ sc > 2 then (-1, none)
  else
    let c : Int := to_int (if sc = 0 then chns else chns + 1)
    if os.mutex_init < 0 then (os.mutex_init, none)
    else if os.io_setup c < 0 then (os.io_setup c, none)
    else if !os.malloc_slots then (-1, none)
    else if !os.malloc_iocbs then (-1, none)
    else if !init_iocbs os c.toNat 0 then (-1, none)
    else if !os.malloc_events then (-1, none)
    else if !os.malloc_data then (-1, none)
    else
      match init_data os bs c.toNat 0 (List.replicate c.toNat 0) heap with
      | Except.error res => (res, none)
      | Except.ok (ds, h) =>
        (0, some
          { engine :=
              { block_size := bs, channels := chns, sync := sc, in_use := 0,
                slots := List.replicate c.toNat 0,
                iocbs := List.replicate c.toNat iocb.cleared,
                events := List.replicate c.toNat 0,
                ready := 0, data := ds },
            heap := h, file := File.empty, submitted := [] })

/-- An operating system under which every step of `daio_initialize` succeeds; the `i`-th
buffer is placed at address `i + 1`. -/
def InitOS.good : InitOS :=
  { mutex_init := 0, io_setup := fun _ => 0, malloc_slots := true, malloc_iocbs := true,
    malloc_iocb := fun _ => true, malloc_events := true, malloc_data := true,
    posix_memalign := fun i _ => (0, i + 1) }

/-- A kernel whose batch step fails at `io_submit` with `res`. -/
def Kernel.failing (res : Int) : Kernel :=
  { io_submit := fun _ _ => res, io_getevents := fun _ _ => 0,
    io_run := fun _ h f => (f, h, []),
    posix_memalign := fun old _ => (12, old) }

/-- A kernel that accepts every request, reports `n` bytes for each completion and places
a new buffer at address `p`. -/
def Kernel.good (n : Nat) (p : Ptr) : Kernel :=
  { io_submit := fun nr _ => nr, io_getevents := fun m _ => m,
    io_run := fun _ h f => (f, h, List.replicate 8 n),
    posix_memalign := fun _ _ => (0, p) }

end Daio

namespace Daio

/-- Three cleared control blocks. -/
def cleared3 : List iocb := [iocb.cleared, iocb.cleared, iocb.cleared]

/-- The engine `daio_initialize(512, 2, 1)` builds (two channels and the extra slot, the
buffers at addresses 1, 2, 3). -/
def engine_2_1 : io_engine :=
  { block_size := 512, channels := 2, sync := 1, in_use := 0, slots := [0, 0, 0],
    iocbs := cleared3, events := [0, 0, 0], ready := 0, data := [1, 2, 3] }

/-- The engine `daio_initialize(512, 1, 1)` builds (one channel and the extra slot). -/
def engine_1_1 : io_engine :=
  { block_size := 512, channels := 1, sync := 1, in_use := 0, slots := [0, 0],
    iocbs := [iocb.cleared, iocb.cleared], events := [0, 0], ready := 0, data := [1, 2] }

/-- The memory after `daio_initialize(512, 2, 1)` cleared its three buffers. -/
def heap_2_1 : Heap := memset (memset (memset [] 1 0 512) 2 0 512) 3 0 512

/-- The state `daio_initialize(512, 2, 1)` leaves. -/
def world_2_1 : World := World.mk engine_2_1 heap_2_1 File.empty []

/-- The state `daio_initialize(512, 1, 1)` leaves. -/
def world_1_1 : World :=
  World.mk engine_1_1 (memset (memset [] 1 0 512) 2 0 512) File.empty []

/-- The engine of `world_2_1` when `daio_submit_write(3, 100, 512, 0)` calls `process`: the
write request in slot 0, the sync request in slot 1. -/
def prepared_2_1 : io_engine :=
  { engine_2_1 with
    in_use := 1, slots := [1, 1, 0],
    iocbs := [io_prep_pwrite 3 100 512 0, io_prep_fsync 3, iocb.cleared] }

/-- The state after `daio_submit_write(3, 100, 512, 0)` succeeded on `world_2_1`. -/
def written_2_1 : World :=
  World.mk { engine_2_1 with
    iocbs := [io_prep_pwrite 3 100 512 0, io_prep_fsync 3, iocb.cleared],
    events := [512, 512, 512] } heap_2_1 File.empty [[io_prep_pwrite 3 100 512 0]]

/-- The state after `daio_submit_read(3, 0, &s)` and `daio_submit_read(3, 1, &s)` on
`world_2_1`. -/
def queued_2_1 : World :=
  World.mk { engine_2_1 with
    in_use := 2, slots := [1, 1, 0],
    iocbs := [io_prep_pread 3 1 512 0, io_prep_pread 3 2 512 512, iocb.cleared] } heap_2_1
    File.empty []

/-- The state of `queued_2_1` after the batch was submitted and slot 1 was read. -/
def half_drained_2_1 : World :=
  World.mk { engine_2_1 with
    in_use := 1, slots := [1, 0, 0], ready := 1,
    iocbs := [io_prep_pread 3 1 512 0, io_prep_pread 3 2 512 512, iocb.cleared],
    events := [512, 512, 512], data := [1, 9, 3] } (memset heap_2_1 9 0 512)
    File.empty [[io_prep_pread 3 1 512 0, io_prep_pread 3 2 512 512]]

/-- The state of `half_drained_2_1` after slot 0 was read as well. -/
def drained_2_1 : World :=
  World.mk { engine_2_1 with
    iocbs := [io_prep_pread 3 1 512 0, io_prep_pread 3 2 512 512, iocb.cleared],
    events := [512, 512, 512], data := [10, 9, 3] }
    (memset (memset heap_2_1 9 0 512) 10 0 512)
    File.empty [[io_prep_pread 3 1 512 0, io_prep_pread 3 2 512 512]]

/-- The number of indices below `channels` whose slot is marked occupied. -/
def occupied_normal (e : io_engine) : Nat :=
  ((e.slots.take e.channels.toNat).filter (fun s => s = 1)).length

/-- The call `daio_submit_read(fd, page, &slot)` made once for each page of the list, in
order: the final state and, for each call, its return value and the slot it stored. -/
def submit_reads (w : World) (fd : Int) : List Int → Option (World × List (Int × Option Int))
  | [] => some (w, [])
  | page :: pages =>
    match daio_submit_read w fd page with
    | none => none
    | some (w1, r, s) =>
      match submit_reads w1 fd pages with
      | none => none
      | some (w2, rs) => some (w2, (r, s) :: rs)

/-- The call `daio_read_slot(slot, &data, &count)` made once for each entry of the list, in
order, each with its own behaviour of the operating system: the final state and the return
value of each call. -/
def read_slots (w : World) : List (Kernel × Int) → Option (World × List Int)
  | [] => some (w, [])
  | (k, slot) :: calls =>
    match daio_read_slot w k slot with
    | none => none
    | some (w1, r, _) =>
      match read_slots w1 calls with
      | none => none
      | some (w2, rs) => some (w2, r :: rs)

/-- The slot table as the scans see it: `acquire_slot(0)` scans the `C` normal slots (`C`
is the channel count as the `int` scan bound holds it, and not more than the channel
count), `acquire_slot(1)` scans one slot more when `sync` is not 0, the arrays have `L`
entries, exactly the slots listed in `S` are marked (all of them normal slots), and
`in_use` is their number. -/
def Slots (C L : Nat) (S : List Nat) (e : io_engine) : Prop :=
  (to_int e.channels = (C : Int) ∧ (C : Int) ≤ e.channels ∧
    (e.sync ≠ 0 → to_int (e.channels + 1) = (C : Int) + 1)) ∧
  e.slots.length = L ∧ e.data.length = L ∧ e.events.length = L ∧
  e.iocbs.length = L ∧ 1 ≤ C ∧ C ≤ L ∧ (e.sync = 0 ∨ e.sync = 1 ∨ e.sync = 2) ∧
  (e.sync ≠ 0 → C < L) ∧ e.in_use = (S.length : Int) ∧ S.Nodup ∧ (∀ j ∈ S, j < C) ∧
  ∀ j, j < L → e.slots[j]? = some (if j ∈ S then 1 else 0)

/-- A well-formed table: `C` channels, arrays of `L` entries (a number a C `int` holds, as
the table size of `daio_initialize` is one), exactly the slots listed in `S` marked (all
of them normal slots), and `in_use` equal to their number. -/
def Table (C L : Nat) (S : List Nat) (e : io_engine) : Prop :=
  e.channels = (C : Int) ∧ e.slots.length = L ∧ e.data.length = L ∧ e.events.length = L ∧
  e.iocbs.length = L ∧ 1 ≤ C ∧ C ≤ L ∧ L < 2147483648 ∧
  (e.sync = 0 ∨ e.sync = 1 ∨ e.sync = 2) ∧
  (e.sync ≠ 0 → C < L) ∧ e.in_use = (S.length : Int) ∧ S.Nodup ∧ (∀ j ∈ S, j < C) ∧
  ∀ j, j < L → e.slots[j]? = some (if j ∈ S then 1 else 0)

/-- An engine no call gets a slot from: the ready flag is clear, no slot is marked, and
either the scan of `acquire_slot(0)` covers no slot or the table has no entry. -/
def Idle (e : io_engine) : Prop :=
  e.ready = 0 ∧ (∀ (j : Nat) (v : Int), e.slots[j]? = some v → v = 0) ∧
  (to_int e.channels ≤ 0 ∨ e.slots = [])

/-- Every system call and allocation `daio_initialize` makes succeeds: the lock and the
kernel context are set up (return value 0), every `malloc` returns memory, and every
`posix_memalign` returns 0 and stores a non-null pointer. -/
def InitOS.succeeds (os : InitOS) (bs : Nat) : Prop :=
  os.mutex_init = 0 ∧ (∀ c, os.io_setup c = 0) ∧ os.malloc_slots = true ∧
  os.malloc_iocbs = true ∧ (∀ i, os.malloc_iocb i = true) ∧ os.malloc_events = true ∧
  os.malloc_data = true ∧
  ∀ i, (os.posix_memalign i bs).1 = 0 ∧ (os.posix_memalign i bs).2 ≠ 0

/-- The arguments `daio_initialize` rejects. -/
def invalid_arguments (bs : Nat) (chns sc : Int) : Prop :=
  bs < 512 ∨ bs % 512 ≠ 0 ∨ chns < 1 ∨ ¬ (sc = 0 ∨ sc = 1 ∨ sc = 2)

/-- A call of the public interface together with what the operating system does while
it runs. -/
inductive Call where
  | submit_read (fd page : Int)
  | read_slot (k : Kernel) (slot : Int)
  | submit_write (k : Kernel) (fd : Int) (buffer : Ptr) (count : Nat) (page : Int)

/-- The state a call leaves; `none` when the call has undefined behaviour. -/
def Call.run (w : World) : Call → Option World
  | Call.submit_read fd page => (daio_submit_read w fd page).map Prod.fst
  | Call.read_slot k slot => (daio_read_slot w k slot).map Prod.fst
  | Call.submit_write k fd buffer count page =>
    (daio_submit_write w k fd buffer count page).map Prod.fst

/-- The slot argument of the call, if it has one, is an index inside the slot table. -/
def Call.in_range (w : World) : Call → Prop
  | Call.read_slot _ slot => 0 ≤ slot ∧ slot < (w.engine.slots.length : Int)
  | _ => True

/-- The state in which the call invokes `process`, and the kernel behaviour it meets
there; `none` when the call does not invoke `process`. -/
def Call.process_state (w : World) : Call → Option (World × Kernel)
  | Call.submit_read _ _ => none
  | Call.read_slot k _ =>
    if w.engine.ready = 0 ∧ is_empty w.engine = some 0 then some (w, k) else none
  | Call.submit_write k fd buffer count page =>
    if w.engine.ready = 1 then none
    else
      match submit_write_prepare w.engine fd buffer count page with
      | some (e1, ws, _) => if ws ≠ -1 then some ({ w with engine := e1 }, k) else none
      | none => none

/-- The batch step of the call fails: the call invokes `process` and `process` returns a
negative value. -/
def Call.batch_failed (w : World) (c : Call) : Prop :=
  match c.process_state w with
  | some (wp, k) => (process wp k).2 < 0
  | none => False

/-- The states some sequence of public calls with in-range slot arguments leads to from
`w0`, whatever the operating system does. -/
inductive Reachable (w0 : World) : World → Prop where
  | start : Reachable w0 w0
  | step (w w' : World) (c : Call) :
    Reachable w0 w → c.in_range w → c.run w = some w' → Reachable w0 w'

/-- The states some sequence of public calls with in-range slot arguments leads to from
`w0` when no batch step fails (allocations may fail). -/
inductive ReachableBatchOk (w0 : World) : World → Prop where
  | start : ReachableBatchOk w0 w0
  | step (w w' : World) (c : Call) :
    ReachableBatchOk w0 w → c.in_range w → ¬ c.batch_failed w → c.run w = some w' →
    ReachableBatchOk w0 w'

/-- The engine invariant of runs without a failed batch step: the marked slots are the
normal slots listed in some `S`, `in_use` is their number, and either the ready flag is
clear and `S` is `0 .. in_use - 1`, or the ready flag is 1 and `S` is not empty. -/
def Good (C L : Nat) (e : io_engine) : Prop :=
  ∃ S, Slots C L S e ∧ ((e.ready = 0 ∧ S = List.range S.length) ∨ (e.ready = 1 ∧ S ≠ []))

/-- The state of `world_1_1` after a `daio_submit_write(3, 100, 512, 0)` whose batch step
failed: the write slot 0 and the reserved slot 1 stay marked. -/
def leaked_1_1 : World :=
  World.mk { engine_1_1 with
    in_use := 1, slots := [1, 1],
    iocbs := [io_prep_pwrite 3 100 512 0, io_prep_fsync 3] } world_1_1.heap File.empty []

/-- The state of `leaked_1_1` after `daio_read_slot(0, ..)` succeeded: slot 0 is free, the
reserved slot 1 is still marked. -/
def stuck_1_1 : World :=
  World.mk { engine_1_1 with
    slots := [0, 1], iocbs := [io_prep_pwrite 3 100 512 0, io_prep_fsync 3],
    events := [512, 512], data := [9, 2] } (memset world_1_1.heap 9 0 512)
    File.empty [[io_prep_pwrite 3 100 512 0]]

/-- The state of `world_2_1` after a failed `daio_submit_write` and a `daio_read_slot` on
slot 0: slot 1, which held the sync request, is still marked while `in_use` is 0. -/
def miscounted_2_1 : World :=
  World.mk { prepared_2_1 with
    in_use := 0, slots := [0, 1, 0], events := [512, 512, 512], data := [9, 2, 3] }
    (memset heap_2_1 9 0 512) File.empty [[io_prep_pwrite 3 100 512 0]]

/-- The state of `miscounted_2_1` after a `daio_read_slot` on slot 1. -/
def negative_2_1 : World :=
  World.mk { prepared_2_1 with
    in_use := -1, slots := [0, 0, 0], ready := 1, events := [512, 512, 512],
    data := [9, 10, 3] } (memset (memset heap_2_1 9 0 512) 10 0 512)
    File.empty [[io_prep_pwrite 3 100 512 0], []]

/-- Whether the call is a `daio_submit_write`. -/
def Call.is_write : Call → Bool
  | Call.submit_write _ _ _ _ _ => true
  | _ => false

/-- The kernel running one request: a write copies the first `nbytes` bytes of its buffer
into the file, a read copies what the file holds into the front of its buffer, a sync
request touches neither. The last component is the `res` field of the completion. -/
def run_request (f : File) (h : Heap) (cb : iocb) : File × Heap × Nat :=
  match cb.cmd with
  | Cmd.pwrite =>
    let bytes := (Heap.read h cb.buf).take cb.nbytes
    (f.write cb.offset bytes, h, bytes.length)
  | Cmd.pread =>
    let bytes := f.read cb.offset cb.nbytes
    (f, (cb.buf, bytes ++ (Heap.read h cb.buf).drop bytes.length) :: h, bytes.length)
  | _ => (f, h, 0)

/-- The kernel running a batch, request after request. -/
def run_batch (f : File) (h : Heap) : List iocb → File × Heap × List Nat
  | [] => (f, h, [])
  | cb :: cbs =>
    let r1 := run_request f h cb
    let r2 := run_batch r1.1 r1.2.1 cbs
    (r2.1, r2.2.1, r1.2.2 :: r2.2.2)

/-- A kernel that runs every submitted batch against the file and places a newly
allocated buffer at address `p`. -/
def Kernel.disk (p : Ptr) : Kernel :=
  { io_submit := fun nr _ => if nr < 0 then -22 else nr,
    io_getevents := fun m _ => m,
    io_run := fun batch h f => run_batch f h batch,
    posix_memalign := fun _ _ => (0, p) }

/-- The state after `daio_submit_read(3, 0, &s)` on `world_2_1`. -/
def one_read_2_1 : World :=
  World.mk { engine_2_1 with
    in_use := 1, slots := [1, 0, 0],
    iocbs := [io_prep_pread 3 1 512 0, iocb.cleared, iocb.cleared] } heap_2_1 File.empty []

/-- The state `world_2_1` with a caller's buffer of 512 bytes 7 at address 100. -/
def world_with_buffer : World :=
  World.mk engine_2_1 (memset heap_2_1 100 7 512) File.empty []

/-- Four cleared control blocks. -/
def cleared4 : List iocb := [iocb.cleared, iocb.cleared, iocb.cleared, iocb.cleared]

/-- The memory after `daio_initialize` cleared four buffers, at addresses 1 to 4. -/
def heap_4 : Heap := memset (memset (memset (memset [] 1 0 512) 2 0 512) 3 0 512) 4 0 512

/-- The state `daio_initialize(512, 4294967300, 0)` leaves: the channel count is
`2^32 + 4`, the arrays have the 4 entries the `int` table size comes to. -/
def world_wrapped : World :=
  World.mk { block_size := 512, channels := 4294967300, sync := 0, in_use := 0,
             slots := [0, 0, 0, 0], iocbs := cleared4, events := [0, 0, 0, 0], ready := 0,
             data := [1, 2, 3, 4] } heap_4 File.empty []

/-- The state of `world_wrapped` after four `daio_submit_read` calls for the pages 0 to 3. -/
def world_wrapped_full : World :=
  World.mk { block_size := 512, channels := 4294967300, sync := 0, in_use := 4,
             slots := [1, 1, 1, 1],
             iocbs := [io_prep_pread 3 1 512 0, io_prep_pread 3 2 512 512,
               io_prep_pread 3 3 512 1024, io_prep_pread 3 4 512 1536],
             events := [0, 0, 0, 0], ready := 0, data := [1, 2, 3, 4] } heap_4 File.empty []

/-- The state `daio_initialize(512, 4294967300, 1)` leaves: the channel count is
`2^32 + 4`, the arrays have the 5 entries the `int` table size comes to. -/
def world_wrapped_sync : World :=
  World.mk { block_size := 512, channels := 4294967300, sync := 1, in_use := 0,
             slots := [0, 0, 0, 0, 0], iocbs := iocb.cleared :: cleared4,
             events := [0, 0, 0, 0, 0], ready := 0, data := [1, 2, 3, 4, 5] }
    (memset heap_4 5 0 512) File.empty []

/-! ## The slot scan -/

theorem to_int_fits (x : Int) (h1 : -2147483648 ≤ x) (h2 : x < 2147483648) : to_int x = x := by
  unfold to_int
  omega

theorem to_int_range (x : Int) : -2147483648 ≤ to_int x ∧ to_int x < 2147483648 := by
  unfold to_int
  omega

theorem to_int_succ_le (x : Int) : to_int (x + 1) ≤ to_int x + 1 := by
  unfold to_int
  omega

theorem to_int_le_self (x : Int) (h : 0 ≤ x) : to_int x ≤ x := by
  unfold to_int
  omega

theorem table_slots (C L : Nat) (S : List Nat) (e : io_engine) (ht : Table C L S e) :
    Slots C L S e := by
  obtain ⟨hch, hls, hld, hle, hlc, hC1, hCL, hL, hsy, hsyL, hin, hnd, hmem, hpt⟩ := ht
  refine ⟨⟨?_, ?_, ?_⟩, hls, hld, hle, hlc, hC1, hCL, hsy, hsyL, hin, hnd, hmem, hpt⟩
  · rw [hch]
    exact to_int_fits _ (by omega) (by omega)
  · rw [hch]
  · intro hs
    have := hsyL hs
    rw [hch]
    exact to_int_fits _ (by omega) (by omega)

theorem slots_scan (C L : Nat) (S : List Nat) (e : io_engine) (ht : Slots C L S e) :
    (to_int (e.channels + 0)).toNat = C ∧ (to_int e.channels).toNat = C ∧
    C ≤ e.channels.toNat ∧ (e.sync ≠ 0 → (to_int (e.channels + 1)).toNat = C + 1) := by
  obtain ⟨⟨h1, h2, h3⟩, -⟩ := ht
  refine ⟨?_, ?_, ?_, ?_⟩
  · rw [add_zero, h1]
    simp
  · rw [h1]
    simp
  · omega
  · intro hs
    rw [h3 hs]
    omega


theorem acquire_loop_spec : ∀ (n i : Nat) (slots slots' : List Int) (r : Int),
    acquire_loop n i slots = some (slots', r) →
    (r = -1 ∧ slots' = slots ∧ ∀ j, i ≤ j → j < i + n → slots[j]? ≠ some 0) ∨
    (∃ j : Nat, r = (j : Int) ∧ i ≤ j ∧ j < i + n ∧ slots[j]? = some 0 ∧
      slots' = slots.set j 1 ∧ ∀ j', i ≤ j' → j' < j → slots[j']? ≠ some 0) := by
  intro n
  induction n with
  | zero =>
    intro i slots slots' r h
    simp only [acquire_loop, Option.some.injEq, Prod.mk.injEq] at h
    left
    refine ⟨h.2.symm, h.1.symm, ?_⟩
    intro j h1 h2
    omega
  | succ n ih =>
    intro i slots slots' r h
    unfold acquire_loop at h
    cases hv : slots[i]? with
    | none => simp [hv] at h
    | some v =>
      simp only [hv] at h
      by_cases hz : v = 0
      · subst hz
        simp only [if_true, Option.some.injEq, Prod.mk.injEq] at h
        right
        refine ⟨i, h.2.symm, le_refl i, by omega, hv, h.1.symm, ?_⟩
        intro j' h1 h2
        omega
      · simp only [hz, if_false] at h
        have hi : slots[i]? ≠ some 0 := by
          rw [hv]
          intro hc
          exact hz (Option.some.inj hc)
        rcases ih (i + 1) slots slots' r h with ⟨h1, h2, h3⟩ | ⟨j, h1, h2, h3, h4, h5, h6⟩
        · left
          refine ⟨h1, h2, ?_⟩
          intro j hj1 hj2
          by_cases hji : j = i
          · subst hji
            exact hi
          · exact h3 j (by omega) (by omega)
        · right
          refine ⟨j, h1, by omega, by omega, h4, h5, ?_⟩
          intro j' hj1 hj2
          by_cases hji : j' = i
          · subst hji
            exact hi
          · exact h6 j' (by omega) hj2

theorem acquire_loop_first : ∀ (n i j : Nat) (slots : List Int),
    i ≤ j → j < i + n → slots[j]? = some 0 →
    (∀ j', i ≤ j' → j' < j → ∃ v, v ≠ 0 ∧ slots[j']? = some v) →
    acquire_loop n i slots = some (slots.set j 1, (j : Int)) := by
  intro n
  induction n with
  | zero =>
    intro i j slots h1 h2
    omega
  | succ n ih =>
    intro i j slots h1 h2 h3 h4
    unfold acquire_loop
    by_cases hji : j = i
    · subst hji
      simp [h3]
    · obtain ⟨v, hv, hs⟩ := h4 i (le_refl i) (by omega)
      simp only [hs, hv, if_false]
      exact ih (i + 1) j slots (by omega) (by omega) h3
        (fun j' a b => h4 j' (by omega) b)

theorem acquire_loop_full : ∀ (n i : Nat) (slots : List Int),
    (∀ j, i ≤ j → j < i + n → ∃ v, v ≠ 0 ∧ slots[j]? = some v) →
    acquire_loop n i slots = some (slots, -1) := by
  intro n
  induction n with
  | zero =>
    intro i slots _
    rfl
  | succ n ih =>
    intro i slots h
    unfold acquire_loop
    obtain ⟨v, hv, hs⟩ := h i (le_refl i) (by omega)
    simp only [hs, hv, if_false]
    exact ih (i + 1) slots (fun j a b => h j (by omega) (by omega))

theorem is_empty_loop_occupied : ∀ (n i j : Nat) (slots : List Int),
    i ≤ j → j < i + n → slots[j]? = some 1 → is_empty_loop n i slots = some 0 := by
  intro n
  induction n with
  | zero =>
    intro i j slots h1 h2
    omega
  | succ n ih =>
    intro i j slots h1 h2 h3
    unfold is_empty_loop
    have hlen : j < slots.length := by
      by_contra hc
      rw [List.getElem?_eq_none (by omega)] at h3
      exact Option.noConfusion h3
    have hi : i < slots.length := by omega
    rw [List.getElem?_eq_getElem hi]
    by_cases hv : slots[i] = 1
    · simp [hv]
    · simp only [hv, if_false]
      have hji : j ≠ i := by
        intro hc
        subst hc
        rw [List.getElem?_eq_getElem hi] at h3
        exact hv (Option.some.inj h3)
      exact ih (i + 1) j slots (by omega) (by omega) h3

/-! ## Fields the slot operations leave alone -/

theorem acquire_slot_fields (e e' : io_engine) (extra s : Int)
    (h : acquire_slot e extra = some (e', s)) :
    acquire_loop (to_int (e.channels + extra)).toNat 0 e.slots = some (e'.slots, s) ∧
    e'.in_use = (if s ≠ -1 ∧ extra = 0 then e.in_use + 1 else e.in_use) ∧
    e'.block_size = e.block_size ∧ e'.channels = e.channels ∧ e'.sync = e.sync ∧
    e'.iocbs = e.iocbs ∧ e'.events = e.events ∧ e'.ready = e.ready ∧ e'.data = e.data := by
  unfold acquire_slot at h
  cases hl : acquire_loop (to_int (e.channels + extra)).toNat 0 e.slots with
  | none => simp [hl] at h
  | some r =>
    obtain ⟨sl, x⟩ := r
    simp only [hl] at h
    by_cases hc : x ≠ -1 ∧ extra = 0
    · simp only [hc, and_self, if_true, Option.some.injEq, Prod.mk.injEq, ne_eq,
        not_false_eq_true] at h
      obtain ⟨h1, h2⟩ := h
      subst h1
      subst h2
      simp [hc]
    · simp only [hc, if_false, Option.some.injEq, Prod.mk.injEq] at h
      obtain ⟨h1, h2⟩ := h
      subst h1
      subst h2
      simp [hc]

theorem release_slot_fields (e e' : io_engine) (slot extra n : Int)
    (h : release_slot e slot extra = some (e', n)) :
    upd e.slots slot 0 = some e'.slots ∧
    e'.in_use = (if extra = 0 then e.in_use - 1 else e.in_use) ∧ n = e'.in_use ∧
    e'.block_size = e.block_size ∧ e'.channels = e.channels ∧ e'.sync = e.sync ∧
    e'.iocbs = e.iocbs ∧ e'.events = e.events ∧ e'.ready = e.ready ∧ e'.data = e.data := by
  unfold release_slot at h
  cases hu : upd e.slots slot 0 with
  | none => simp [hu] at h
  | some sl =>
    simp only [hu, Option.some.injEq, Prod.mk.injEq] at h
    obtain ⟨h1, h2⟩ := h
    subst h1
    subst h2
    by_cases hx : extra = 0 <;> simp [hx]

theorem process_fields (w : World) (k : Kernel) :
    (process w k).1.engine.in_use = w.engine.in_use ∧
    (process w k).1.engine.slots = w.engine.slots ∧
    (process w k).1.engine.ready = w.engine.ready ∧
    (process w k).1.engine.data = w.engine.data ∧
    (process w k).1.engine.iocbs = w.engine.iocbs ∧
    (process w k).1.engine.channels = w.engine.channels ∧
    (process w k).1.engine.sync = w.engine.sync ∧
    (process w k).1.engine.block_size = w.engine.block_size ∧
    (process w k).1.engine.events.length = w.engine.events.length := by
  unfold process
  by_cases h1 : k.io_submit w.engine.in_use w.engine.iocbs < 0
  · simp [h1]
  · by_cases h2 : k.io_getevents (k.io_submit w.engine.in_use w.engine.iocbs)
        w.engine.channels < 0
    · simp [h1, h2]
    · simp only [h1, h2, if_false, store_events, List.length_append, List.length_take,
        List.length_drop, true_and]
      omega

theorem process_failed (w : World) (k : Kernel) (h : (process w k).2 < 0) :
    (process w k).1.engine = w.engine := by
  unfold process at h ⊢
  by_cases h1 : k.io_submit w.engine.in_use w.engine.iocbs < 0
  · simp [h1]
  · by_cases h2 : k.io_getevents (k.io_submit w.engine.in_use w.engine.iocbs)
        w.engine.channels < 0
    · simp [h1, h2]
    · simp [h1, h2] at h

theorem idx_upd_same {α : Type} (xs ys : List α) (i : Int) (v : α) (h : upd xs i v = some ys) :
    idx ys i = some v := by
  unfold upd at h
  by_cases hc : 0 ≤ i ∧ i.toNat < xs.length
  · simp only [hc, and_self, if_true, Option.some.injEq] at h
    subst h
    unfold idx
    have : ¬ i < 0 := by omega
    simp [this, hc.2]
  · simp [hc] at h

theorem idx_upd_other {α : Type} (xs ys : List α) (i j : Int) (v : α) (h : upd xs i v = some ys)
    (hij : j ≠ i) : idx ys j = idx xs j := by
  unfold upd at h
  by_cases hc : 0 ≤ i ∧ i.toNat < xs.length
  · simp only [hc, and_self, if_true, Option.some.injEq] at h
    subst h
    unfold idx
    by_cases hj : j < 0
    · simp [hj]
    · simp only [hj, if_false]
      have : i.toNat ≠ j.toNat := by omega
      exact List.getElem?_set_ne this
  · simp [hc] at h

theorem upd_length {α : Type} (xs ys : List α) (i : Int) (v : α) (h : upd xs i v = some ys) :
    ys.length = xs.length := by
  unfold upd at h
  by_cases hc : 0 ≤ i ∧ i.toNat < xs.length
  · simp only [hc, and_self, if_true, Option.some.injEq] at h
    subst h
    simp
  · simp [hc] at h

/-! ## The ready gate -/

/-- C3. When the ready flag is set, `daio_submit_read` and `daio_submit_write` both return
-1 and leave the whole state (slot flags, `in_use`, ready flag and everything else) as it
was. -/
theorem submit_rejected_while_ready (w : World) (k : Kernel) (fd page : Int) (buffer : Ptr)
    (count : Nat) (hready : w.engine.ready = 1) :
    daio_submit_read w fd page = some (w, -1, none) ∧
    daio_submit_write w k fd buffer count page = some (w, -1) := by
  constructor
  · simp [daio_submit_read, hready]
  · simp [daio_submit_write, hready]

/-! ## The write path -/

theorem submit_write_prepare_inv (e e' : io_engine) (fd : Int) (buffer : Ptr) (count : Nat)
    (page ws ss : Int) (h : submit_write_prepare e fd buffer count page = some (e', ws, ss))
    (hws : ws ≠ -1) :
    ∃ e1 cbs, acquire_slot e 0 = some (e1, ws) ∧
      upd e1.iocbs ws (io_prep_pwrite fd buffer count (page_offset page e1.block_size))
        = some cbs ∧
      ((e.sync = 0 ∧ ss = -1 ∧ e' = { e1 with iocbs := cbs }) ∨
       (e.sync ≠ 0 ∧ ∃ e3, acquire_slot { e1 with iocbs := cbs } 1 = some (e3, ss) ∧
          ((e.sync = 1 ∧ ∃ cbs3, upd e3.iocbs ss (io_prep_fsync fd) = some cbs3 ∧
              e' = { e3 with iocbs := cbs3 }) ∨
           (e.sync = 2 ∧ ∃ cbs3, upd e3.iocbs ss (io_prep_fdsync fd) = some cbs3 ∧
              e' = { e3 with iocbs := cbs3 }) ∨
           (e.sync ≠ 1 ∧ e.sync ≠ 2 ∧ e' = e3)))) := by
  unfold submit_write_prepare at h
  cases ha : acquire_slot e 0 with
  | none => simp [ha] at h
  | some r =>
    obtain ⟨e1, x⟩ := r
    simp only [ha] at h
    have hf := acquire_slot_fields e e1 0 x ha
    by_cases hx : x ≠ -1
    · simp only [hx, if_true, ne_eq, not_false_eq_true] at h
      cases hu : upd e1.iocbs x
          (io_prep_pwrite fd buffer count (page_offset page e1.block_size)) with
      | none => simp [hu] at h
      | some cbs =>
        simp only [hu] at h
        have hsync1 : e1.sync = e.sync := hf.2.2.2.2.1
        by_cases hs : e1.sync = 0
        · simp only [hs, ne_eq, not_true_eq_false, if_false, Option.some.injEq,
            Prod.mk.injEq] at h
          obtain ⟨h1, h2, h3⟩ := h
          subst h2
          refine ⟨e1, cbs, rfl, hu, Or.inl ⟨?_, h3.symm, by rw [← h1, hs]⟩⟩
          rw [← hsync1]
          exact hs
        · simp only [hs, ne_eq, not_false_eq_true, if_true] at h
          cases hb : acquire_slot { e1 with iocbs := cbs } 1 with
          | none => simp [hb] at h
          | some r3 =>
            obtain ⟨e3, y⟩ := r3
            simp only [hb] at h
            have hf3 := acquire_slot_fields _ e3 1 y hb
            have hsync3 : e3.sync = e.sync := by
              rw [hf3.2.2.2.2.1]
              exact hsync1
            by_cases hs1 : e3.sync = 1
            · simp only [hs1, if_true] at h
              cases hu3 : upd e3.iocbs y (io_prep_fsync fd) with
              | none => simp [hu3] at h
              | some cbs3 =>
                simp only [hu3, Option.some.injEq, Prod.mk.injEq] at h
                obtain ⟨h1, h2, h3⟩ := h
                subst h2
                subst h3
                refine ⟨e1, cbs, rfl, hu, Or.inr ⟨?_, e3, hb, Or.inl ⟨?_, cbs3, hu3, by rw [← h1, hs1]⟩⟩⟩
                · rw [← hsync1]
                  exact hs
                · rw [← hsync3]
                  exact hs1
            · simp only [hs1, if_false] at h
              by_cases hs2 : e3.sync = 2
              · simp only [hs2, if_true] at h
                cases hu3 : upd e3.iocbs y (io_prep_fdsync fd) with
                | none => simp [hu3] at h
                | some cbs3 =>
                  simp only [hu3, Option.some.injEq, Prod.mk.injEq] at h
                  obtain ⟨h1, h2, h3⟩ := h
                  subst h2
                  subst h3
                  refine ⟨e1, cbs, rfl, hu,
                    Or.inr ⟨?_, e3, hb, Or.inr (Or.inl ⟨?_, cbs3, hu3, by rw [← h1, hs2]⟩)⟩⟩
                  · rw [← hsync1]
                    exact hs
                  · rw [← hsync3]
                    exact hs2
              · simp only [hs2, if_false, Option.some.injEq, Prod.mk.injEq] at h
                obtain ⟨h1, h2, h3⟩ := h
                subst h2
                subst h3
                refine ⟨e1, cbs, rfl, hu,
                  Or.inr ⟨?_, e3, hb, Or.inr (Or.inr ⟨?_, ?_, h1.symm⟩)⟩⟩
                · rw [← hsync1]
                  exact hs
                · rw [← hsync3]
                  exact hs1
                · rw [← hsync3]
                  exact hs2
    · simp only [hx, if_false, Option.some.injEq, Prod.mk.injEq] at h
      exact absurd h.2.1.symm (fun hc => hws (by rw [hc]; exact not_not.mp hx))

theorem submit_write_prepare_fields (e e' : io_engine) (fd : Int) (buffer : Ptr) (count : Nat)
    (page ws ss : Int) (h : submit_write_prepare e fd buffer count page = some (e', ws, ss))
    (hws : ws ≠ -1) :
    e'.in_use = e.in_use + 1 ∧ e'.channels = e.channels ∧ e'.ready = e.ready ∧
    e'.sync = e.sync ∧ e'.data = e.data ∧ e'.events = e.events ∧
    e'.block_size = e.block_size := by
  obtain ⟨e1, cbs, ha, _, hrest⟩ := submit_write_prepare_inv e e' fd buffer count page ws ss h hws
  have hf := acquire_slot_fields e e1 0 ws ha
  simp only [hws, ne_eq, not_false_eq_true, and_self, if_true] at hf
  obtain ⟨-, hin, hbs, hch, hsy, -, hev, hrd, hda⟩ := hf
  rcases hrest with ⟨-, -, he⟩ | ⟨-, e3, hb, hcase⟩
  · subst he
    exact ⟨hin, hch, hrd, hsy, hda, hev, hbs⟩
  · have hf3 := acquire_slot_fields _ e3 1 ss hb
    simp only [one_ne_zero, and_false, if_false] at hf3
    obtain ⟨-, hin3, hbs3, hch3, hsy3, -, hev3, hrd3, hda3⟩ := hf3
    rcases hcase with ⟨-, cbs3, -, he⟩ | ⟨-, cbs3, -, he⟩ | ⟨-, -, he⟩ <;> subst he <;>
      exact ⟨hin3.trans hin, hch3.trans hch, hrd3.trans hrd, hsy3.trans hsy, hda3.trans hda,
        hev3.trans hev, hbs3.trans hbs⟩

theorem submit_write_finish_fields (e e' : io_engine) (ws ss : Int)
    (h : submit_write_finish e ws ss = some e') :
    e'.in_use = e.in_use - 1 ∧ e'.channels = e.channels ∧
    e'.ready = (if e.in_use - 1 ≠ 0 then 1 else e.ready) := by
  unfold submit_write_finish at h
  have key : ∀ e1 : io_engine, e1.in_use = e.in_use → e1.channels = e.channels →
      e1.ready = e.ready →
      (match release_slot e1 ws 0 with
        | none => none
        | some (e2, n) => if n ≠ 0 then some { e2 with ready := 1 } else some e2) = some e' →
      e'.in_use = e.in_use - 1 ∧ e'.channels = e.channels ∧
        e'.ready = (if e.in_use - 1 ≠ 0 then 1 else e.ready) := by
    intro e1 h1 h2 h3 hm
    cases hr : release_slot e1 ws 0 with
    | none => simp [hr] at hm
    | some r =>
      obtain ⟨e2, n⟩ := r
      simp only [hr] at hm
      have hf := release_slot_fields e1 e2 ws 0 n hr
      simp only [if_true] at hf
      obtain ⟨-, hin, hn, -, hch, -, -, -, hrd, -⟩ := hf
      have hn2 : n = e.in_use - 1 := by rw [hn, hin, h1]
      by_cases hz : n ≠ 0
      · simp only [hz, ne_eq, not_false_eq_true, if_true, Option.some.injEq] at hm
        subst hm
        have hz2 : e.in_use - 1 ≠ 0 := by rw [← hn2]; exact hz
        simp only [hz2, ne_eq, not_false_eq_true, if_true, and_true]
        exact ⟨by rw [hin, h1], by rw [hch, h2]⟩
      · simp only [hz, if_false, Option.some.injEq] at hm
        subst hm
        have hz2 : ¬ (e.in_use - 1 ≠ 0) := by rw [← hn2]; exact hz
        simp only [hz2, if_false]
        exact ⟨by rw [hin, h1], by rw [hch, h2], by rw [hrd, h3]⟩
  by_cases hss : ss ≠ -1
  · simp only [hss, ne_eq, not_false_eq_true, if_true] at h
    cases hr : release_slot e ss 1 with
    | none => simp [hr] at h
    | some r =>
      obtain ⟨e1, n⟩ := r
      simp only [hr, Option.map_some'] at h
      have hf := release_slot_fields e e1 ss 1 n hr
      simp only [one_ne_zero, if_false] at hf
      exact key e1 hf.2.1 hf.2.2.2.2.1 hf.2.2.2.2.2.2.2.2.1 h
  · simp only [hss, if_false] at h
    exact key e rfl rfl rfl h

/-- C5. With `sync` 1 or 2, when `daio_submit_write` returns 0 the number of available
slots (`channels - in_use`) is the same after the call as before it. -/
theorem submit_write_keeps_available (w w' : World) (k : Kernel) (fd : Int) (buffer : Ptr)
    (count : Nat) (page : Int) (_hsync : w.engine.sync = 1 ∨ w.engine.sync = 2)
    (h : daio_submit_write w k fd buffer count page = some (w', 0)) :
    daio_get_available_slots w' = daio_get_available_slots w := by
  unfold daio_submit_write at h
  by_cases hr : w.engine.ready = 1
  · simp [hr] at h
  · simp only [hr, if_false] at h
    cases hp : submit_write_prepare w.engine fd buffer count page with
    | none => simp [hp] at h
    | some r =>
      obtain ⟨e1, ws, ss⟩ := r
      simp only [hp] at h
      by_cases hws : ws ≠ -1
      · simp only [hws, ne_eq, not_false_eq_true, if_true] at h
        have hpf := submit_write_prepare_fields w.engine e1 fd buffer count page ws ss hp hws
        have hproc := process_fields { w with engine := e1 } k
        by_cases hres : (process { w with engine := e1 } k).2 ≥ 0
        · simp only [hres, if_true] at h
          cases hfin : submit_write_finish (process { w with engine := e1 } k).1.engine ws ss with
          | none => simp [hfin] at h
          | some e3 =>
            simp only [hfin, Option.some.injEq, Prod.mk.injEq, and_true] at h
            subst h
            have hff := submit_write_finish_fields _ e3 ws ss hfin
            unfold daio_get_available_slots
            simp only
            rw [hff.1, hff.2.1, hproc.1, hproc.2.2.2.2.2.1, hpf.1, hpf.2.1]
            congr 1
            ring
        · simp only [hres, if_false, Option.some.injEq, Prod.mk.injEq] at h
          omega
      · simp only [hws, if_false, Option.some.injEq, Prod.mk.injEq] at h
        omega

theorem acquire_slot_found (e e' : io_engine) (extra s : Int)
    (h : acquire_slot e extra = some (e', s)) (hs : s ≠ -1) :
    ∃ j : Nat, s = (j : Int) ∧ j < (to_int (e.channels + extra)).toNat ∧ e.slots[j]? = some 0 ∧
      e'.slots = e.slots.set j 1 ∧ ∀ j', j' < j → e.slots[j']? ≠ some 0 := by
  have hf := acquire_slot_fields e e' extra s h
  rcases acquire_loop_spec _ 0 e.slots e'.slots s hf.1 with ⟨h1, -, -⟩ | ⟨j, h1, -, h3, h4, h5, h6⟩
  · exact absurd h1 hs
  · exact ⟨j, h1, by omega, h4, h5, fun j' hj => h6 j' (Nat.zero_le j') hj⟩

theorem acquire_slot_none_free (e e' : io_engine) (extra : Int)
    (h : acquire_slot e extra = some (e', -1)) (j : Nat) (hj : j < (to_int (e.channels + extra)).toNat) :
    e.slots[j]? ≠ some 0 := by
  have hf := acquire_slot_fields e e' extra (-1) h
  rcases acquire_loop_spec _ 0 e.slots e'.slots (-1) hf.1 with ⟨-, -, h3⟩ | ⟨i, h1, -⟩
  · exact h3 j (Nat.zero_le j) (by omega)
  · omega

theorem submit_write_prepare_acquire (e e' : io_engine) (fd : Int) (buffer : Ptr) (count : Nat)
    (page ws ss : Int) (h : submit_write_prepare e fd buffer count page = some (e', ws, ss)) :
    ∃ e1, acquire_slot e 0 = some (e1, ws) := by
  by_cases hws : ws ≠ -1
  · obtain ⟨e1, _, ha, _⟩ := submit_write_prepare_inv e e' fd buffer count page ws ss h hws
    exact ⟨e1, ha⟩
  · have hws2 : ws = -1 := not_not.mp hws
    subst hws2
    unfold submit_write_prepare at h
    cases ha : acquire_slot e 0 with
    | none => simp [ha] at h
    | some r =>
      obtain ⟨e1, x⟩ := r
      by_cases hx : x ≠ -1
      · exfalso
        simp only [ha, hx, ne_eq, not_false_eq_true, if_true] at h
        repeat' split at h
        all_goals simp_all
      · exact ⟨e1, by rw [not_not.mp hx]⟩

theorem getElem?_idx {α : Type} (xs : List α) (j : Nat) : idx xs (j : Int) = xs[j]? := by
  unfold idx
  have : ¬ ((j : Int) < 0) := by omega
  simp [this]

/-- C9. With the ready flag clear and a normal slot occupied, a failing batch step makes
`daio_read_slot` return -1, and the engine (every slot flag, every buffer pointer, `in_use`,
the ready flag) is the same as before the call. -/
theorem read_slot_batch_failure (w : World) (k : Kernel) (slot : Int) (j : Nat)
    (hready : w.engine.ready = 0) (hj : (j : Int) < w.engine.channels)
    (hocc : w.engine.slots[j]? = some 1) (hfail : (process w k).2 < 0) :
    ∃ w', daio_read_slot w k slot = some (w', -1, none) ∧ w'.engine = w.engine := by
  have hemp : is_empty w.engine = some 0 :=
    is_empty_loop_occupied _ 0 j w.engine.slots (Nat.zero_le j) (by omega) hocc
  refine ⟨(process w k).1, ?_, process_failed w k hfail⟩
  simp [daio_read_slot, read_slot_gate, hready, hemp, hfail]

/-- C10. With the ready flag clear and a free normal slot (a free slot among those the scan
of `acquire_slot(0)` covers, whose bound is the channel count held in an `int`), when
`daio_submit_write` reaches the batch step and the batch step fails, the call returns -1,
the write slot it acquired is still marked (and so is the sync slot when `sync` is not 0),
`in_use` is one more than before and the ready flag is unchanged. -/
theorem submit_write_batch_failure (w : World) (k : Kernel) (fd : Int) (buffer : Ptr)
    (count : Nat) (page : Int) (e1 : io_engine) (ws ss : Int) (j : Nat)
    (hready : w.engine.ready = 0)
    (hsync : w.engine.sync = 0 ∨ w.engine.sync = 1 ∨ w.engine.sync = 2)
    (hj : (j : Int) < to_int w.engine.channels) (hfree : w.engine.slots[j]? = some 0)
    (hprep : submit_write_prepare w.engine fd buffer count page = some (e1, ws, ss))
    (hfail : (process { w with engine := e1 } k).2 < 0) :
    ∃ w', daio_submit_write w k fd buffer count page = some (w', -1) ∧
      ws ≠ -1 ∧ idx w'.engine.slots ws = some 1 ∧
      (w.engine.sync ≠ 0 → ss ≠ -1 ∧ ss ≠ ws ∧ idx w'.engine.slots ss = some 1) ∧
      w'.engine.in_use = w.engine.in_use + 1 ∧ w'.engine.ready = w.engine.ready := by
  have hws : ws ≠ -1 := by
    intro hc
    subst hc
    obtain ⟨ea, ha⟩ := submit_write_prepare_acquire _ _ _ _ _ _ _ _ hprep
    exact acquire_slot_none_free _ _ _ ha j (by simp only [add_zero]; omega) hfree
  have hnr : ¬ w.engine.ready = 1 := by rw [hready]; decide
  have hnf : ¬ (process { w with engine := e1 } k).2 ≥ 0 := by omega
  have heng := process_failed { w with engine := e1 } k hfail
  have hpf := submit_write_prepare_fields _ _ _ _ _ _ _ _ hprep hws
  refine ⟨(process { w with engine := e1 } k).1, ?_, hws, ?_, ?_, ?_, ?_⟩
  · simp [daio_submit_write, hnr, hprep, hws, hnf]
  · rw [heng]
    simp only
    obtain ⟨ea, cbs, ha, -, hrest⟩ := submit_write_prepare_inv _ _ _ _ _ _ _ _ hprep hws
    obtain ⟨jw, hjw, -, hw0, hsl, -⟩ := acquire_slot_found _ _ _ _ ha hws
    have hlen : jw < w.engine.slots.length := by
      by_contra hc
      rw [List.getElem?_eq_none (by omega)] at hw0
      exact Option.noConfusion hw0
    rcases hrest with ⟨-, -, he⟩ | ⟨hsn, e3, hb, hcase⟩
    · subst he
      subst hjw
      simp only [getElem?_idx, hsl]
      simp [hlen]
    · have hss : ss ≠ -1 := by
        intro hc
        subst hc
        rcases hcase with ⟨-, cbs3, hu, -⟩ | ⟨-, cbs3, hu, -⟩ | ⟨h1, h2, -⟩
        · simp [upd] at hu
        · simp [upd] at hu
        · omega
      obtain ⟨js, hjs, -, hs0, hsl3, -⟩ := acquire_slot_found _ _ _ _ hb hss
      simp only at hs0 hsl3
      have he1 : e1.slots = e3.slots := by
        rcases hcase with ⟨-, cbs3, -, he⟩ | ⟨-, cbs3, -, he⟩ | ⟨-, -, he⟩ <;> subst he <;> rfl
      rw [he1, hsl3, hsl]
      subst hjw
      rw [getElem?_idx]
      by_cases hjj : js = jw
      · subst hjj
        simp [hlen]
      · rw [List.getElem?_set_ne hjj]
        simp [hlen]
  · intro hs0
    rw [heng]
    simp only
    obtain ⟨ea, cbs, ha, -, hrest⟩ := submit_write_prepare_inv _ _ _ _ _ _ _ _ hprep hws
    obtain ⟨jw, hjw, -, hw0, hsl, -⟩ := acquire_slot_found _ _ _ _ ha hws
    have hlen : jw < w.engine.slots.length := by
      by_contra hc
      rw [List.getElem?_eq_none (by omega)] at hw0
      exact Option.noConfusion hw0
    rcases hrest with ⟨h0, -, -⟩ | ⟨-, e3, hb, hcase⟩
    · exact absurd h0 hs0
    · have hss : ss ≠ -1 := by
        intro hc
        subst hc
        rcases hcase with ⟨-, cbs3, hu, -⟩ | ⟨-, cbs3, hu, -⟩ | ⟨h1, h2, -⟩
        · simp [upd] at hu
        · simp [upd] at hu
        · omega
      obtain ⟨js, hjs, -, hs0, hsl3, -⟩ := acquire_slot_found _ _ _ _ hb hss
      simp only at hs0 hsl3
      have he1 : e1.slots = e3.slots := by
        rcases hcase with ⟨-, cbs3, -, he⟩ | ⟨-, cbs3, -, he⟩ | ⟨-, -, he⟩ <;> subst he <;> rfl
      have hne : js ≠ jw := by
        intro hc
        subst hc
        rw [hsl] at hs0
        simp [hlen] at hs0
      have hlen3 : js < (ea.slots).length := by
        by_contra hc
        rw [List.getElem?_eq_none (by omega)] at hs0
        exact Option.noConfusion hs0
      refine ⟨hss, ?_, ?_⟩
      · rw [hjs, hjw]
        omega
      · rw [he1, hsl3, hjs, getElem?_idx]
        simp [hlen3]
  · rw [heng]
    exact hpf.1
  · rw [heng]
    exact hpf.2.2.1

/-! ## The read path -/

theorem release_and_clear_spec (e e' : io_engine) (slot : Int)
    (h : release_and_clear e slot = some e') :
    upd e.slots slot 0 = some e'.slots ∧ e'.in_use = e.in_use - 1 ∧
    e'.ready = (if e.in_use - 1 = 0 then 0 else e.ready) ∧ e'.data = e.data ∧
    e'.channels = e.channels ∧ e'.sync = e.sync ∧ e'.iocbs = e.iocbs ∧
    e'.events = e.events ∧ e'.block_size = e.block_size := by
  unfold release_and_clear at h
  cases hr : release_slot e slot 0 with
  | none => simp [hr] at h
  | some r =>
    obtain ⟨e1, n⟩ := r
    simp only [hr] at h
    have hf := release_slot_fields e e1 slot 0 n hr
    simp only [if_true] at hf
    obtain ⟨hsl, hin, hn, hbs, hch, hsy, hcb, hev, hrd, hda⟩ := hf
    have hn2 : n = e.in_use - 1 := by rw [hn, hin]
    by_cases hz : n = 0
    · simp only [hz, if_true, Option.some.injEq] at h
      subst h
      have hz2 : e.in_use - 1 = 0 := by rw [← hn2]; exact hz
      simp only [hz2, if_true]
      exact ⟨hsl, by rw [hin, hz2], trivial, hda, hch, hsy, hcb, hev, hbs⟩
    · simp only [hz, if_false, Option.some.injEq] at h
      subst h
      have hz2 : ¬ e.in_use - 1 = 0 := by rw [← hn2]; exact hz
      simp only [hz2, if_false]
      exact ⟨hsl, hin, hrd, hda, hch, hsy, hcb, hev, hbs⟩

theorem upd_of_idx {α : Type} (xs : List α) (i : Int) (a v : α) (h : idx xs i = some a) :
    ∃ ys, upd xs i v = some ys := by
  unfold idx at h
  by_cases hi : i < 0
  · simp [hi] at h
  · simp only [hi, if_false] at h
    have hlen : i.toNat < xs.length := by
      by_contra hc
      rw [List.getElem?_eq_none (by omega)] at h
      exact Option.noConfusion h
    refine ⟨xs.set i.toNat v, ?_⟩
    unfold upd
    have : 0 ≤ i ∧ i.toNat < xs.length := ⟨by omega, hlen⟩
    simp [this]

theorem release_and_clear_total (e : io_engine) (slot : Int) (a : Int)
    (h : idx e.slots slot = some a) : ∃ e', release_and_clear e slot = some e' := by
  obtain ⟨ys, hy⟩ := upd_of_idx e.slots slot a 0 h
  unfold release_and_clear release_slot
  simp only [hy, if_true]
  by_cases hz : e.in_use - 1 = 0
  · simp only [hz, if_true]
    exact ⟨_, rfl⟩
  · simp only [hz, if_false]
    exact ⟨_, rfl⟩

/-- C8. With the ready flag set, for a slot inside the table that is marked and holds a
buffer, when the replacement allocation succeeds `daio_read_slot` returns 0 and hands out
the buffer the slot held and the completion result stored at the slot's index. Afterwards
the slot is free, its buffer is the newly allocated one and holds `block_size` zero bytes,
`in_use` is one less, the ready flag is clear exactly when the new `in_use` is 0, and
every other slot keeps its flag and its buffer. -/
theorem read_slot_hands_over (w : World) (k : Kernel) (slot : Int) (d : Ptr) (c : Nat)
    (hready : w.engine.ready = 1) (hocc : idx w.engine.slots slot = some 1)
    (hd : idx w.engine.data slot = some d) (hdn : d ≠ 0)
    (hc : idx w.engine.events slot = some c)
    (hres : (k.posix_memalign d w.engine.block_size).1 = 0)
    (hptr : (k.posix_memalign d w.engine.block_size).2 ≠ 0) :
    ∃ w', daio_read_slot w k slot = some (w', 0, some (d, c)) ∧
      idx w'.engine.slots slot = some 0 ∧
      idx w'.engine.data slot = some (k.posix_memalign d w.engine.block_size).2 ∧
      Heap.read w'.heap (k.posix_memalign d w.engine.block_size).2
        = List.replicate w.engine.block_size 0 ∧
      w'.engine.in_use = w.engine.in_use - 1 ∧
      (w'.engine.ready = 0 ↔ w'.engine.in_use = 0) ∧
      (∀ j : Int, j ≠ slot → idx w'.engine.slots j = idx w.engine.slots j ∧
        idx w'.engine.data j = idx w.engine.data j) := by
  obtain ⟨data, hdata⟩ := upd_of_idx w.engine.data slot d
    (k.posix_memalign d w.engine.block_size).2 hd
  obtain ⟨e2, he2⟩ := release_and_clear_total { w.engine with data := data } slot 1 hocc
  have hsp := release_and_clear_spec _ e2 slot he2
  simp only at hsp
  obtain ⟨hsl, hin, hrd, hda, -⟩ := hsp
  simp only [hready] at he2
  have hgate : read_slot_gate w k = some (w, none) := by
    simp [read_slot_gate, hready]
  have hcond : ¬ ((k.posix_memalign d w.engine.block_size).1 < 0 ∨
      (k.posix_memalign d w.engine.block_size).2 = 0) := by
    rw [hres]
    simp [hptr]
  refine ⟨World.mk e2 (memset w.heap (k.posix_memalign d w.engine.block_size).2 0
      w.engine.block_size) w.file w.submitted, ?_, ?_, ?_, ?_, ?_, ?_, ?_⟩
  · unfold daio_read_slot
    simp only [hgate, hready, ne_eq, not_true_eq_false, if_false, hocc, if_true, hd, hc, hdata,
      hcond, he2, hdn, not_false_eq_true]
  · exact idx_upd_same _ _ _ _ hsl
  · simp only
    rw [hda]
    exact idx_upd_same _ _ _ _ hdata
  · simp [Heap.read, memset, List.lookup]
  · exact hin
  · simp only
    rw [hrd, hin, hready]
    by_cases hz : w.engine.in_use - 1 = 0
    · simp [hz]
    · simp [hz]
  · intro j hj
    simp only
    rw [hda]
    exact ⟨idx_upd_other _ _ _ _ _ hsl hj, idx_upd_other _ _ _ _ _ hdata hj⟩


/-! ## Where the sync request goes -/

theorem submit_write_finish_slots (e e' : io_engine) (ws ss : Int)
    (h : submit_write_finish e ws ss = some e') (j : Int) (hw : j ≠ ws) (hs : j ≠ ss) :
    idx e'.slots j = idx e.slots j := by
  unfold submit_write_finish at h
  have key : ∀ e1 : io_engine, idx e1.slots j = idx e.slots j →
      (match release_slot e1 ws 0 with
        | none => none
        | some (e2, n) => if n ≠ 0 then some { e2 with ready := 1 } else some e2) = some e' →
      idx e'.slots j = idx e.slots j := by
    intro e1 h1 hm
    cases hr : release_slot e1 ws 0 with
    | none => simp [hr] at hm
    | some r =>
      obtain ⟨e2, n⟩ := r
      simp only [hr] at hm
      have hf := release_slot_fields e1 e2 ws 0 n hr
      have h2 : idx e2.slots j = idx e1.slots j := idx_upd_other _ _ _ _ _ hf.1 hw
      by_cases hz : n ≠ 0
      · simp only [hz, ne_eq, not_false_eq_true, if_true, Option.some.injEq] at hm
        subst hm
        exact h2.trans h1
      · simp only [hz, if_false, Option.some.injEq] at hm
        subst hm
        exact h2.trans h1
  by_cases hss : ss ≠ -1
  · simp only [hss, ne_eq, not_false_eq_true, if_true] at h
    cases hr : release_slot e ss 1 with
    | none => simp [hr] at h
    | some r =>
      obtain ⟨e1, n⟩ := r
      simp only [hr, Option.map_some'] at h
      have hf := release_slot_fields e e1 ss 1 n hr
      exact key e1 (idx_upd_other _ _ _ _ _ hf.1 hs) h
  · simp only [hss, if_false] at h
    exact key e rfl h

theorem getElem?_some_lt {α : Type} (xs : List α) (j : Nat) (a : α) (h : xs[j]? = some a) :
    j < xs.length := by
  by_contra hc
  rw [List.getElem?_eq_none (by omega)] at h
  exact Option.noConfusion h

/-- C7 (amended). With `sync` 1 or 2, when `daio_submit_write` has acquired its write slot
and reaches the batch step, the sync request sits at the lowest index in `0 .. channels`
that was free besides the write slot: an index above the write slot, equal to the
reserved index `channels` exactly when no other normal slot was free (`channels` being the
channel count as the `int` scan bound of `acquire_slot` holds it). Both slots are
marked, and a slot other than these two has the flag it had before the call, at the
batch step and after the slots are released. -/
theorem sync_slot_is_first_free (e e' : io_engine) (fd : Int) (buffer : Ptr) (count : Nat)
    (page ws ss : Int) (hsync : e.sync = 1 ∨ e.sync = 2)
    (hprep : submit_write_prepare e fd buffer count page = some (e', ws, ss))
    (hws : ws ≠ -1) :
    ∃ jw js : Nat, ws = (jw : Int) ∧ ss = (js : Int) ∧ jw < js ∧
      (jw : Int) < to_int e.channels ∧ (js : Int) ≤ to_int e.channels ∧
      e.slots[jw]? = some 0 ∧ e.slots[js]? = some 0 ∧
      (∀ j, j < js → j ≠ jw → e.slots[j]? ≠ some 0) ∧
      ((js : Int) = to_int e.channels ↔
        ∀ j : Nat, (j : Int) < to_int e.channels → j ≠ jw → e.slots[j]? ≠ some 0) ∧
      idx e'.iocbs ss = some (if e.sync = 1 then io_prep_fsync fd else io_prep_fdsync fd) ∧
      e'.slots = (e.slots.set jw 1).set js 1 ∧
      (∀ j : Int, j ≠ ws → j ≠ ss → idx e'.slots j = idx e.slots j ∧
        ∀ e2 e3, e2.slots = e'.slots → submit_write_finish e2 ws ss = some e3 →
          idx e3.slots j = idx e.slots j) := by
  obtain ⟨ea, cbs, ha, -, hrest⟩ := submit_write_prepare_inv _ _ _ _ _ _ _ _ hprep hws
  obtain ⟨jw, hjw, hjwc, hw0, hsl, hwfirst⟩ := acquire_slot_found _ _ _ _ ha hws
  have hfa := acquire_slot_fields _ _ _ _ ha
  have hlen : jw < e.slots.length := getElem?_some_lt _ _ _ hw0
  rcases hrest with ⟨h0, -, -⟩ | ⟨-, e3, hb, hcase⟩
  · omega
  · have hcb : ∃ cbs3, upd e3.iocbs ss
          (if e.sync = 1 then io_prep_fsync fd else io_prep_fdsync fd) = some cbs3 ∧
          e' = { e3 with iocbs := cbs3 } := by
      rcases hcase with ⟨h1, cbs3, hu, he⟩ | ⟨h2, cbs3, hu, he⟩ | ⟨h1, h2, -⟩
      · exact ⟨cbs3, by simp only [h1, if_true]; exact hu, he⟩
      · have h1 : ¬ e.sync = 1 := by omega
        exact ⟨cbs3, by simp only [h1, if_false]; exact hu, he⟩
      · omega
    obtain ⟨cbs3, hu3, he'⟩ := hcb
    have hss : ss ≠ -1 := by
      intro hc
      subst hc
      simp [upd] at hu3
    obtain ⟨js, hjs, hjsc, hs0, hsl3, hsfirst⟩ := acquire_slot_found _ _ _ _ hb hss
    simp only at hjsc hs0 hsl3 hsfirst
    rw [hsl] at hs0 hsl3 hsfirst
    have hne : js ≠ jw := by
      intro hc
      subst hc
      simp [hlen] at hs0
    rw [List.getElem?_set_ne (Ne.symm hne)] at hs0
    have hlt : jw < js := by
      by_contra hc
      exact hwfirst js (by omega) hs0
    have hother : ∀ j, j < js → j ≠ jw → e.slots[j]? ≠ some 0 := by
      intro j h1 h2
      have := hsfirst j h1
      rwa [List.getElem?_set_ne (Ne.symm h2)] at this
    have hch : ea.channels = e.channels := hfa.2.2.2.1
    have hslots : e'.slots = (e.slots.set jw 1).set js 1 := by
      rw [he']
      exact hsl3
    have hsucc := to_int_succ_le e.channels
    rw [hch] at hjsc
    simp only [add_zero] at hjwc
    refine ⟨jw, js, hjw, hjs, hlt, by omega, by omega, hw0, hs0, hother, ?_, ?_, hslots, ?_⟩
    · constructor
      · intro heq j hj hne2
        exact hother j (by omega) hne2
      · intro hall
        by_contra hc
        exact hall js (by omega) hne hs0
    · rw [he']
      exact idx_upd_same _ _ _ _ hu3
    · intro j hjw2 hjs2
      have h1 : idx e'.slots j = idx e.slots j := by
        rw [hslots]
        unfold idx
        by_cases hneg : j < 0
        · simp [hneg]
        · simp only [hneg, if_false]
          have a1 : js ≠ j.toNat := by omega
          have a2 : jw ≠ j.toNat := by omega
          rw [List.getElem?_set_ne a1, List.getElem?_set_ne a2]
      refine ⟨h1, ?_⟩
      intro e2 e4 h2 hfin
      rw [submit_write_finish_slots e2 e4 ws ss hfin j hjw2 hjs2, h2]
      exact h1

/-! ## Queueing reads -/

theorem acquire_slot_eval (e : io_engine) (n : Nat) (slots : List Int)
    (h : acquire_loop (to_int (e.channels + 0)).toNat 0 e.slots = some (slots, (n : Int))) :
    acquire_slot e 0 = some ({ e with slots := slots, in_use := e.in_use + 1 }, (n : Int)) := by
  unfold acquire_slot
  have hn : ¬ ((n : Int) = -1) := by omega
  simp only [add_zero] at h
  simp [h, hn]

theorem submit_read_step (C L n : Nat) (w : World) (fd page : Int)
    (ht : Slots C L (List.range n) w.engine) (hready : w.engine.ready = 0) (hn : n < C) :
    ∃ w', daio_submit_read w fd page = some (w', 0, some (n : Int)) ∧
      Slots C L (List.range (n + 1)) w'.engine ∧ w'.engine.ready = 0 ∧
      w'.heap = w.heap ∧ w'.file = w.file ∧ w'.submitted = w.submitted ∧
      w'.engine.channels = w.engine.channels := by
  have hscan := slots_scan C L _ w.engine ht
  obtain ⟨hch, hls, hld, hle, hlc, hC1, hCL, hsy, hsyL, hin, -, -, hpt⟩ := ht
  have hloop : acquire_loop (to_int (w.engine.channels + 0)).toNat 0 w.engine.slots
      = some (w.engine.slots.set n 1, (n : Int)) := by
    rw [hscan.1]
    apply acquire_loop_first C 0 n _ (Nat.zero_le n) (by omega)
    · rw [hpt n (by omega)]
      simp
    · intro j' _ hj
      refine ⟨1, one_ne_zero, ?_⟩
      rw [hpt j' (by omega)]
      simp [hj]
  have hacq := acquire_slot_eval w.engine n _ hloop
  have hnL : n < L := by omega
  have hd : idx w.engine.data (n : Int) = some (w.engine.data[n]) := by
    rw [getElem?_idx]
    exact List.getElem?_eq_getElem (by omega)
  have hnn : ¬ ((n : Int) = -1) := by omega
  have hlt : n < w.engine.iocbs.length := by omega
  refine ⟨World.mk { w.engine with
      slots := w.engine.slots.set n 1, in_use := w.engine.in_use + 1,
      iocbs := w.engine.iocbs.set n (io_prep_pread fd (w.engine.data[n]) w.engine.block_size
        (page_offset page w.engine.block_size)) } w.heap w.file w.submitted, ?_, ?_, ?_, rfl,
      rfl, rfl, rfl⟩
  · unfold daio_submit_read
    simp only [hready, if_true, hacq, ne_eq, hnn, not_false_eq_true, hd, upd, Int.toNat_ofNat,
      Nat.cast_nonneg, hlt, and_self]
  · refine ⟨hch, ?_, hld, hle, ?_, hC1, hCL, hsy, hsyL, ?_, List.nodup_range (n + 1), ?_, ?_⟩
    · simp only [List.length_set]
      exact hls
    · simp only [List.length_set]
      exact hlc
    · simp only [List.length_range, hin]
      push_cast
      ring
    · intro j hj
      rw [List.mem_range] at hj
      omega
    · intro j hj
      simp only [List.mem_range]
      by_cases hjn : j = n
      · subst hjn
        simp [hls, hj]
      · rw [List.getElem?_set_ne (Ne.symm hjn), hpt j hj]
        simp only [List.mem_range]
        by_cases hlt2 : j < n
        · have : j < n + 1 := by omega
          simp [hlt2, this]
        · have : ¬ j < n + 1 := by omega
          simp [hlt2, this]
  · exact hready

theorem submit_read_full (C L : Nat) (w : World) (fd page : Int)
    (ht : Slots C L (List.range C) w.engine) (hready : w.engine.ready = 0) :
    daio_submit_read w fd page = some (w, -1, none) := by
  have hscan := slots_scan C L _ w.engine ht
  obtain ⟨⟨bs, ch, sy, iu, sl, cb, ev, rd, da⟩, hp, fl, sb⟩ := w
  simp only at hready hscan
  subst hready
  obtain ⟨hch, hls, hld, hle, hlc, hC1, hCL, hsy, hsyL, hin, -, -, hpt⟩ := ht
  simp only at hch hpt
  have hloop : acquire_loop (to_int ch).toNat 0 sl = some (sl, -1) := by
    rw [hscan.2.1]
    apply acquire_loop_full
    intro j _ hj
    refine ⟨1, one_ne_zero, ?_⟩
    rw [hpt j (by omega)]
    simp only [List.mem_range]
    have : j < C := by omega
    simp [this]
  simp [daio_submit_read, acquire_slot, hloop]

theorem submit_reads_run (C L : Nat) (fd : Int) : ∀ (pages : List Int) (n : Nat) (w : World),
    Slots C L (List.range n) w.engine → w.engine.ready = 0 → n + pages.length ≤ C →
    ∃ w', submit_reads w fd pages
        = some (w', (List.range' n pages.length).map (fun (i : Nat) => ((0 : Int), some (i : Int)))) ∧
      Slots C L (List.range (n + pages.length)) w'.engine ∧ w'.engine.ready = 0 ∧
      w'.engine.channels = w.engine.channels := by
  intro pages
  induction pages with
  | nil =>
    intro n w ht hr _
    exact ⟨w, rfl, ht, hr, rfl⟩
  | cons page pages ih =>
    intro n w ht hr hlen
    simp only [List.length_cons] at hlen
    obtain ⟨w1, h1, ht1, hr1, -, -, -, hc1⟩ := submit_read_step C L n w fd page ht hr (by omega)
    obtain ⟨w2, h2, ht2, hr2, hc2⟩ := ih (n + 1) w1 ht1 hr1 (by omega)
    refine ⟨w2, ?_, ?_, hr2, hc2.trans hc1⟩
    · simp only [submit_reads, h1, h2, List.length_cons, List.range'_succ, List.map_cons]
    · have : n + (page :: pages).length = n + 1 + pages.length := by
        simp only [List.length_cons]
        omega
      rw [this]
      exact ht2

theorem init_data_length (os : InitOS) (bs : Nat) : ∀ (n i : Nat) (ds ds' : List Ptr)
    (h h' : Heap), init_data os bs n i ds h = Except.ok (ds', h') → ds'.length = ds.length := by
  intro n
  induction n with
  | zero =>
    intro i ds ds' h h' heq
    simp only [init_data, Except.ok.injEq, Prod.mk.injEq] at heq
    rw [← heq.1]
  | succ n ih =>
    intro i ds ds' h h' heq
    unfold init_data at heq
    by_cases hc : (os.posix_memalign i bs).1 < 0 ∨ (os.posix_memalign i bs).2 = 0
    · simp [hc] at heq
    · simp only [hc, if_false] at heq
      rw [ih _ _ _ _ _ heq]
      simp

theorem daio_initialize_shape (os : InitOS) (heap : Heap) (bs : Nat) (chns sc : Int) (w0 : World)
    (h : daio_initialize os heap bs chns sc = (0, some w0)) :
    1 ≤ chns ∧ (sc = 0 ∨ sc = 1 ∨ sc = 2) ∧ w0.engine.channels = chns ∧ w0.engine.sync = sc ∧
    w0.engine.in_use = 0 ∧ w0.engine.ready = 0 ∧ w0.engine.block_size = bs ∧
    w0.engine.slots = List.replicate (to_int (if sc = 0 then chns else chns + 1)).toNat 0 ∧
    w0.engine.iocbs.length = (to_int (if sc = 0 then chns else chns + 1)).toNat ∧
    w0.engine.events.length = (to_int (if sc = 0 then chns else chns + 1)).toNat ∧
    w0.engine.data.length = (to_int (if sc = 0 then chns else chns + 1)).toNat ∧
    w0.file = File.empty ∧ w0.submitted = [] := by
  unfold daio_initialize at h
  by_cases h1 : bs < 512 ∨ bs % 512 ≠ 0
  · simp [h1] at h
  by_cases h2 : chns < 1
  · simp [h1, h2] at h
  by_cases h3 : sc < 0 ∨ sc > 2
  · simp [h1, h2, h3] at h
  simp only [h1, h2, h3, if_false] at h
  generalize hc : to_int (if sc = 0 then chns else chns + 1) = c at h
  repeat' split at h
  all_goals try (simp only [Prod.mk.injEq, reduceCtorEq, and_false] at h)
  rename_i ds hp hd
  simp only [Prod.mk.injEq, Option.some.injEq, true_and] at h
  subst h
  have hlen := init_data_length _ _ _ _ _ _ _ _ hd
  simp only [List.length_replicate] at hlen
  exact ⟨by omega, by omega, rfl, rfl, rfl, rfl, rfl, rfl, by simp, by simp, hlen, rfl, rfl⟩

theorem empty_slots (C L : Nat) (e : io_engine)
    (hscan : to_int e.channels = (C : Int) ∧ (C : Int) ≤ e.channels ∧
      (e.sync ≠ 0 → to_int (e.channels + 1) = (C : Int) + 1))
    (hsl : e.slots = List.replicate L 0) (hld : e.data.length = L)
    (hle : e.events.length = L) (hlc : e.iocbs.length = L) (hC1 : 1 ≤ C) (hCL : C ≤ L)
    (hsy : e.sync = 0 ∨ e.sync = 1 ∨ e.sync = 2) (hsyL : e.sync ≠ 0 → C < L)
    (hin : e.in_use = 0) : Slots C L [] e := by
  refine ⟨hscan, by rw [hsl]; simp, hld, hle, hlc, hC1, hCL, hsy, hsyL, by rw [hin]; rfl,
    List.nodup_nil, ?_, ?_⟩
  · intro j hj
    simp at hj
  · intro j hj
    simp only [List.not_mem_nil, if_false]
    rw [hsl, List.getElem?_eq_getElem (by simpa using hj)]
    simp

theorem daio_initialize_slots (os : InitOS) (heap : Heap) (bs : Nat) (chns sc : Int) (w0 : World)
    (h : daio_initialize os heap bs chns sc = (0, some w0))
    (hfit : (if sc = 0 then chns else chns + 1) < 2147483648) :
    ∃ C L : Nat, chns = (C : Int) ∧ Slots C L [] w0.engine ∧ w0.engine.ready = 0 := by
  obtain ⟨hch, hsc, e1, e2, e3, e4, -, e6, e7, e8, e9, -, -⟩ :=
    daio_initialize_shape os heap bs chns sc w0 h
  have hc : to_int (if sc = 0 then chns else chns + 1) = (if sc = 0 then chns else chns + 1) := by
    apply to_int_fits
    · split <;> omega
    · exact hfit
  rw [hc] at e6 e7 e8 e9
  have hcc : chns ≤ (if sc = 0 then chns else chns + 1) ∧
      (sc ≠ 0 → chns < (if sc = 0 then chns else chns + 1)) := by
    by_cases hz : sc = 0
    · simp only [hz, if_true]
      exact ⟨le_refl _, fun hn => absurd rfl hn⟩
    · simp only [hz, if_false]
      exact ⟨by omega, fun _ => by omega⟩
  refine ⟨chns.toNat, (if sc = 0 then chns else chns + 1).toNat, by omega, ?_, e4⟩
  apply empty_slots _ _ _ _ e6 e9 e8 e7 (by omega) (by omega) (by rw [e2]; exact hsc) _ e3
  · rw [e1]
    refine ⟨?_, by omega, ?_⟩
    · rw [to_int_fits _ (by omega) (by omega)]
      omega
    · intro hs
      rw [e2] at hs
      have := hcc.2 hs
      rw [to_int_fits _ (by omega) (by omega)]
      omega
  · intro hs
    rw [e2] at hs
    have := hcc.2 hs
    omega

theorem initialize_slots_or_idle (os : InitOS) (heap : Heap) (bs : Nat) (chns sc : Int)
    (w0 : World) (h : daio_initialize os heap bs chns sc = (0, some w0)) :
    (∃ C L : Nat, Slots C L [] w0.engine ∧ w0.engine.ready = 0) ∨ Idle w0.engine := by
  obtain ⟨hch, hsc, e1, e2, e3, e4, -, e6, e7, e8, e9, -, -⟩ :=
    daio_initialize_shape os heap bs chns sc w0 h
  have hzero : ∀ (j : Nat) (v : Int), w0.engine.slots[j]? = some v → v = 0 := by
    intro j v hv
    rw [e6] at hv
    have hlt := getElem?_some_lt _ _ _ hv
    rw [List.getElem?_eq_getElem hlt] at hv
    simpa using hv.symm
  have hle := to_int_le_self chns (by omega)
  by_cases ha : 1 ≤ to_int chns
  · by_cases hz : sc = 0
    · left
      simp only [hz, if_true] at e6 e7 e8 e9
      refine ⟨(to_int chns).toNat, (to_int chns).toNat, ?_, e4⟩
      apply empty_slots _ _ _ _ e6 e9 e8 e7 (by omega) (le_refl _) (by rw [e2]; exact hsc) _ e3
      · rw [e1]
        exact ⟨by omega, by omega, fun hs => absurd (e2.trans hz) hs⟩
      · intro hs
        exact absurd (e2.trans hz) hs
    · simp only [hz, if_false] at e6 e7 e8 e9
      by_cases hb : to_int (chns + 1) = to_int chns + 1
      · left
        refine ⟨(to_int chns).toNat, (to_int (chns + 1)).toNat, ?_, e4⟩
        apply empty_slots _ _ _ _ e6 e9 e8 e7 (by omega) (by omega) (by rw [e2]; exact hsc) _ e3
        · rw [e1]
          exact ⟨by omega, by omega, fun _ => by omega⟩
        · intro _
          omega
      · right
        have hneg : (to_int (chns + 1)).toNat = 0 := by
          unfold to_int at hb ha ⊢
          omega
        rw [hneg] at e6
        exact ⟨e4, hzero, Or.inr (by rw [e6]; rfl)⟩
  · right
    exact ⟨e4, hzero, Or.inl (by rw [e1]; omega)⟩

/-- C2 (amended). On an engine `daio_initialize` just built with `channels = C`, when the
table size (`C`, plus one when `sync` is not 0) fits the C `int` it is held in, any `N ≤ C`
`daio_submit_read` calls in a row all return 0 (and hand out the slots `0 .. N-1`), after
which `daio_get_available_slots` is `C - N`; once `C` calls have succeeded, a further
`daio_submit_read` returns -1 and changes nothing. -/
theorem submit_read_until_full (os : InitOS) (heap : Heap) (bs : Nat) (chns sc : Int)
    (w0 : World) (fd : Int) (pages : List Int)
    (hinit : daio_initialize os heap bs chns sc = (0, some w0))
    (hfit : (if sc = 0 then chns else chns + 1) < 2147483648)
    (hN : (pages.length : Int) ≤ chns) :
    ∃ w, submit_reads w0 fd pages
        = some (w, (List.range pages.length).map (fun (i : Nat) => ((0 : Int), some (i : Int)))) ∧
      daio_get_available_slots w = chns - (pages.length : Int) ∧
      ((pages.length : Int) = chns →
        ∀ page, daio_submit_read w fd page = some (w, -1, none)) := by
  obtain ⟨C, L, hC, ht, hr⟩ := daio_initialize_slots os heap bs chns sc w0 hinit hfit
  have hch0 := (daio_initialize_shape os heap bs chns sc w0 hinit).2.2.1
  subst hC
  obtain ⟨w, hrun, htw, hrw, hcw⟩ := submit_reads_run C L fd pages 0 w0 ht hr (by omega)
  simp only [zero_add] at htw
  have hchw : w.engine.channels = (C : Int) := hcw.trans hch0
  refine ⟨w, ?_, ?_, ?_⟩
  · rw [hrun, List.range_eq_range']
  · unfold daio_get_available_slots
    rw [hchw, htw.2.2.2.2.2.2.2.2.2.1]
    simp only [List.length_range]
    apply to_int_fits <;> split at hfit <;> omega
  · intro hfull page
    have : pages.length = C := by omega
    rw [this] at htw
    exact submit_read_full C L w fd page htw hrw

/-! ## Draining a batch -/

theorem read_slot_gate_cases (w : World) (k : Kernel)
    (hemp : w.engine.ready = 0 → is_empty w.engine = some 0) :
    (∃ w1, read_slot_gate w k = some (w1, some (-1))) ∨
    (∃ w1, read_slot_gate w k = some (w1, none) ∧
      (w.engine.ready = 0 → w1.engine.ready = 1) ∧ (w.engine.ready ≠ 0 → w1 = w) ∧
      w1.engine.slots = w.engine.slots ∧ w1.engine.in_use = w.engine.in_use ∧
      w1.engine.data = w.engine.data ∧ w1.engine.channels = w.engine.channels ∧
      w1.engine.sync = w.engine.sync ∧ w1.engine.iocbs = w.engine.iocbs ∧
      w1.engine.events.length = w.engine.events.length) := by
  unfold read_slot_gate
  by_cases hr : w.engine.ready = 0
  · simp only [hr, if_true, hemp hr]
    have hp := process_fields w k
    by_cases hres : (process w k).2 < 0
    · left
      exact ⟨(process w k).1, by simp [hres]⟩
    · right
      refine ⟨{ (process w k).1 with engine := { (process w k).1.engine with ready := 1 } },
        by simp [hres], fun _ => rfl, fun hc => absurd rfl hc, hp.2.1, hp.1, hp.2.2.2.1,
        hp.2.2.2.2.2.1, hp.2.2.2.2.2.2.1, hp.2.2.2.2.1, hp.2.2.2.2.2.2.2.2⟩
  · right
    refine ⟨w, by simp [hr], fun hc => absurd hc hr, fun _ => rfl, rfl, rfl, rfl, rfl, rfl, rfl,
      rfl⟩

theorem read_slot_ready_eval (w : World) (k : Kernel) (slot : Int) (d : Ptr) (c : Nat)
    (hgate : read_slot_gate w k = some (w, none))
    (hready : w.engine.ready = 1) (hocc : idx w.engine.slots slot = some 1)
    (hd : idx w.engine.data slot = some d) (hc : idx w.engine.events slot = some c) :
    ∃ data e2, upd w.engine.data slot (k.posix_memalign d w.engine.block_size).2 = some data ∧
      release_and_clear { w.engine with data := data } slot = some e2 ∧
      ((∃ hp, daio_read_slot w k slot = some (World.mk e2 hp w.file w.submitted, -1, none)) ∨
       (∃ hp, daio_read_slot w k slot
          = some (World.mk e2 hp w.file w.submitted, 0, some (d, c)))) := by
  obtain ⟨data, hdata⟩ := upd_of_idx w.engine.data slot d
    (k.posix_memalign d w.engine.block_size).2 hd
  obtain ⟨e2, he2⟩ := release_and_clear_total { w.engine with data := data } slot 1 hocc
  refine ⟨data, e2, hdata, he2, ?_⟩
  simp only [hready] at he2
  by_cases hcond : (k.posix_memalign d w.engine.block_size).1 < 0 ∨
      (k.posix_memalign d w.engine.block_size).2 = 0
  · left
    refine ⟨w.heap, ?_⟩
    unfold daio_read_slot
    simp only [hgate, hready, ne_eq, not_true_eq_false, if_false, hocc, if_true, hd, hc, hdata,
      hcond, he2]
  · by_cases hdn : d ≠ 0
    · right
      refine ⟨memset w.heap (k.posix_memalign d w.engine.block_size).2 0 w.engine.block_size, ?_⟩
      unfold daio_read_slot
      simp only [hgate, hready, ne_eq, not_true_eq_false, if_false, hocc, if_true, hd, hc, hdata,
        hcond, he2, hdn, not_false_eq_true]
    · left
      refine ⟨memset w.heap (k.posix_memalign d w.engine.block_size).2 0 w.engine.block_size, ?_⟩
      unfold daio_read_slot
      simp only [hgate, hready, ne_eq, not_true_eq_false, if_false, hocc, if_true, hd, hc, hdata,
        hcond, he2, hdn]

theorem idx_of_lt {α : Type} (xs : List α) (j : Nat) (h : j < xs.length) :
    idx xs (j : Int) = some (xs[j]) := by
  rw [getElem?_idx]
  exact List.getElem?_eq_getElem h

theorem read_slot_step (C L : Nat) (S : List Nat) (w w' : World) (k : Kernel) (s : Nat)
    (out : Option (Ptr × Nat)) (ht : Slots C L S w.engine)
    (hrd : w.engine.ready = 0 ∨ w.engine.ready = 1) (hs : s ∈ S)
    (h : daio_read_slot w k (s : Int) = some (w', 0, out)) :
    Slots C L (S.erase s) w'.engine ∧
      w'.engine.ready = (if (S.erase s).length = 0 then 0 else 1) := by
  obtain ⟨hch, hls, hld, hle, hlc, hC1, hCL, hsy, hsyL, hin, hnd, hmem, hpt⟩ := ht
  have hsC : s < C := hmem s hs
  have hsL : s < L := by omega
  have hocc0 : w.engine.slots[s]? = some 1 := by
    rw [hpt s hsL]
    simp [hs]
  have hemp : w.engine.ready = 0 → is_empty w.engine = some 0 := by
    intro _
    unfold is_empty
    exact is_empty_loop_occupied _ 0 s _ (Nat.zero_le s) (by have := hch.2.1; omega) hocc0
  rcases read_slot_gate_cases w k hemp with ⟨w1, hg⟩ | ⟨w1, hg, hr1, hr2, hsl1, hin1, hda1, hch1,
      hsy1, hcb1, hev1⟩
  · exfalso
    unfold daio_read_slot at h
    simp [hg] at h
  · have hready1 : w1.engine.ready = 1 := by
      rcases hrd with h0 | h1
      · exact hr1 h0
      · have : w1 = w := hr2 (by rw [h1]; decide)
        rw [this]
        exact h1
    have hg1 : read_slot_gate w1 k = some (w1, none) := by
      simp [read_slot_gate, hready1]
    have hsame : daio_read_slot w k (s : Int) = daio_read_slot w1 k (s : Int) := by
      unfold daio_read_slot
      simp only [hg, hg1]
    rw [hsame] at h
    have hocc : idx w1.engine.slots (s : Int) = some 1 := by
      rw [getElem?_idx, hsl1]
      exact hocc0
    have hd := idx_of_lt w1.engine.data s (by rw [hda1]; omega)
    have hc := idx_of_lt w1.engine.events s (by rw [hev1]; omega)
    obtain ⟨data, e2, hdata, he2, hres⟩ := read_slot_ready_eval w1 k s _ _ hg1 hready1 hocc hd hc
    have hw' : w'.engine = e2 := by
      rcases hres with ⟨hp, hx⟩ | ⟨hp, hx⟩
      · rw [hx] at h
        simp at h
      · rw [hx] at h
        simp only [Option.some.injEq, Prod.mk.injEq, true_and] at h
        rw [← h.1]
    obtain ⟨hsl2, hin2, hrd2, hda2, hch2, hsy2, hcb2, hev2, -⟩ := release_and_clear_spec _ e2 s he2
    simp only at hsl2 hin2 hrd2 hda2 hch2 hsy2 hcb2 hev2
    have hlen1 : (S.erase s).length = S.length - 1 := List.length_erase_of_mem hs
    have hpos : 1 ≤ S.length := List.length_pos_of_mem hs
    have hslots : e2.slots = w.engine.slots.set s 0 := by
      unfold upd at hsl2
      rw [hsl1] at hsl2
      have hlt : (s : Int).toNat < w.engine.slots.length := by
        simp only [Int.toNat_ofNat]
        omega
      rw [if_pos ⟨by omega, hlt⟩] at hsl2
      simpa using hsl2.symm
    rw [hw']
    constructor
    · refine ⟨by rw [hch2, hch1, hsy2, hsy1]; exact hch, ?_, ?_, by rw [hev2, hev1, hle],
        by rw [hcb2, hcb1, hlc],
        hC1, hCL, by rw [hsy2, hsy1]; exact hsy, by rw [hsy2, hsy1]; exact hsyL, ?_,
        hnd.erase s, fun j hj => hmem j (List.mem_of_mem_erase hj), ?_⟩
      · rw [hslots, List.length_set]
        exact hls
      · rw [hda2, upd_length _ _ _ _ hdata, hda1]
        exact hld
      · rw [hin2, hin1, hin, hlen1]
        omega
      · intro j hj
        rw [hslots]
        by_cases hjs : j = s
        · subst hjs
          have : j ∉ S.erase j := fun hc => (hnd.mem_erase_iff.mp hc).1 rfl
          simp [hls, hj, this]
        · rw [List.getElem?_set_ne (Ne.symm hjs), hpt j hj]
          by_cases hjS : j ∈ S
          · have : j ∈ S.erase s := hnd.mem_erase_iff.mpr ⟨hjs, hjS⟩
            simp [hjS, this]
          · have : j ∉ S.erase s := fun hc => hjS (List.mem_of_mem_erase hc)
            simp [hjS, this]
    · rw [hrd2, hin1, hin, hready1, hlen1]
      by_cases hz : S.length - 1 = 0
      · have : (S.length : Int) - 1 = 0 := by omega
        simp [hz, this]
      · have : ¬ (S.length : Int) - 1 = 0 := by omega
        simp [hz, this]

theorem read_slots_drain (C L : Nat) : ∀ (calls : List (Kernel × Int)) (S : List Nat)
    (w w' : World) (rets : List Int), Slots C L S w.engine →
    (w.engine.ready = 0 ∨ w.engine.ready = 1) → (S = [] → w.engine.ready = 0) →
    (calls.map Prod.snd).Perm (S.map (fun (j : Nat) => (j : Int))) →
    read_slots w calls = some (w', rets) → (∀ r ∈ rets, r = 0) →
    Slots C L [] w'.engine ∧ w'.engine.ready = 0 := by
  intro calls
  induction calls with
  | nil =>
    intro S w w' rets ht _ hS hperm hrun _
    simp only [List.map_nil, List.nil_perm, List.map_eq_nil_iff] at hperm
    subst hperm
    simp only [read_slots, Option.some.injEq, Prod.mk.injEq] at hrun
    rw [← hrun.1]
    exact ⟨ht, hS rfl⟩
  | cons call calls ih =>
    intro S w w' rets ht hrd _ hperm hrun hok
    obtain ⟨k, slot⟩ := call
    simp only [List.map_cons] at hperm
    have hmem : slot ∈ S.map (fun (j : Nat) => (j : Int)) := hperm.subset (List.mem_cons_self _ _)
    obtain ⟨s, hs, hslot⟩ := List.mem_map.mp hmem
    subst hslot
    unfold read_slots at hrun
    cases h1 : daio_read_slot w k (s : Int) with
    | none => simp [h1] at hrun
    | some r1 =>
      obtain ⟨w1, r, out⟩ := r1
      simp only [h1] at hrun
      cases h2 : read_slots w1 calls with
      | none => simp [h2] at hrun
      | some r2 =>
        obtain ⟨w2, rs⟩ := r2
        simp only [h2, Option.some.injEq, Prod.mk.injEq] at hrun
        obtain ⟨hw, hrets⟩ := hrun
        subst hw
        subst hrets
        have hr0 : r = 0 := hok r (List.mem_cons_self _ _)
        subst hr0
        obtain ⟨ht1, hrd1⟩ := read_slot_step C L S w w1 k s out ht hrd hs h1
        have hperm1 : (calls.map Prod.snd).Perm ((S.erase s).map (fun (j : Nat) => (j : Int))) := by
          have hS : (S.map (fun (j : Nat) => (j : Int))).Perm (Int.ofNat s :: (S.erase s).map Int.ofNat) :=
            (List.perm_cons_erase hs).map Int.ofNat
          exact (hperm.trans hS).cons_inv
        refine ih (S.erase s) w1 w2 rs ht1 ?_ ?_ hperm1 h2
          (fun r hr => hok r (List.mem_cons_of_mem _ hr))
        · rw [hrd1]
          by_cases hz : (S.erase s).length = 0 <;> simp [hz]
        · intro hnil
          rw [hrd1, hnil]
          simp

/-! ## An empty table accepts new work -/

theorem acquire_slot_extra_eval (e : io_engine) (n : Nat) (slots : List Int)
    (h : acquire_loop (to_int (e.channels + 1)).toNat 0 e.slots = some (slots, (n : Int))) :
    acquire_slot e 1 = some ({ e with slots := slots }, (n : Int)) := by
  unfold acquire_slot
  simp [h]

theorem submit_write_prepare_marks (e e' : io_engine) (fd : Int) (buffer : Ptr) (count : Nat)
    (page ws ss : Int) (hsync : e.sync = 0 ∨ e.sync = 1 ∨ e.sync = 2)
    (hprep : submit_write_prepare e fd buffer count page = some (e', ws, ss)) (hws : ws ≠ -1) :
    idx e'.slots ws = some 1 ∧ (ss ≠ -1 → idx e'.slots ss = some 1) := by
  obtain ⟨ea, cbs, ha, -, hrest⟩ := submit_write_prepare_inv _ _ _ _ _ _ _ _ hprep hws
  obtain ⟨jw, hjw, -, hw0, hsl, -⟩ := acquire_slot_found _ _ _ _ ha hws
  have hlen : jw < e.slots.length := getElem?_some_lt _ _ _ hw0
  rcases hrest with ⟨-, hss, he⟩ | ⟨hsn, e3, hb, hcase⟩
  · subst he
    subst hjw
    refine ⟨?_, fun hc => absurd hss hc⟩
    simp only [getElem?_idx, hsl]
    simp [hlen]
  · have hss : ss ≠ -1 := by
      intro hc
      subst hc
      rcases hcase with ⟨-, cbs3, hu, -⟩ | ⟨-, cbs3, hu, -⟩ | ⟨h1, h2, -⟩
      · simp [upd] at hu
      · simp [upd] at hu
      · omega
    obtain ⟨js, hjs, -, hs0, hsl3, -⟩ := acquire_slot_found _ _ _ _ hb hss
    simp only at hs0 hsl3
    have he1 : e'.slots = e3.slots := by
      rcases hcase with ⟨-, cbs3, -, he⟩ | ⟨-, cbs3, -, he⟩ | ⟨-, -, he⟩ <;> subst he <;> rfl
    have hlen3 : js < ea.slots.length := getElem?_some_lt _ _ _ hs0
    rw [he1, hsl3, hsl]
    subst hjw
    subst hjs
    constructor
    · rw [getElem?_idx]
      by_cases hjj : js = jw
      · subst hjj
        simp [hlen]
      · rw [List.getElem?_set_ne hjj]
        simp [hlen]
    · intro _
      rw [getElem?_idx]
      rw [hsl] at hlen3
      simp only [List.length_set] at hlen3
      simp [hlen3]

theorem submit_write_finish_total (e : io_engine) (ws ss a b : Int)
    (hw : idx e.slots ws = some a) (hs : ss ≠ -1 → idx e.slots ss = some b) :
    ∃ e', submit_write_finish e ws ss = some e' := by
  have key : ∀ e1 : io_engine, (∃ c, idx e1.slots ws = some c) →
      ∃ e', (match release_slot e1 ws 0 with
        | none => none
        | some (e2, n) => if n ≠ 0 then some { e2 with ready := 1 } else some e2) = some e' := by
    intro e1 ⟨c, hc⟩
    obtain ⟨ys, hy⟩ := upd_of_idx e1.slots ws c 0 hc
    unfold release_slot
    simp only [hy, if_true]
    by_cases hz : e1.in_use - 1 ≠ 0
    · simp only [hz, ne_eq, not_false_eq_true, if_true]
      exact ⟨_, rfl⟩
    · simp only [hz, if_false]
      exact ⟨_, rfl⟩
  unfold submit_write_finish
  by_cases hss : ss ≠ -1
  · obtain ⟨ys, hy⟩ := upd_of_idx e.slots ss b 0 (hs hss)
    have hr1 : release_slot e ss 1 = some ({ e with slots := ys }, e.in_use) := by
      unfold release_slot
      simp [hy]
    rw [if_pos hss, hr1]
    simp only [Option.map_some']
    apply key
    simp only
    by_cases hsw : ws = ss
    · subst hsw
      exact ⟨0, idx_upd_same _ _ _ _ hy⟩
    · exact ⟨a, by rw [idx_upd_other _ _ _ _ _ hy hsw]; exact hw⟩
  · simp only [hss, if_false]
    exact key e ⟨a, hw⟩

theorem submit_write_accepted (C L : Nat) (w : World) (k : Kernel) (fd : Int) (buffer : Ptr)
    (count : Nat) (page : Int) (ht : Slots C L [] w.engine) (hready : w.engine.ready = 0) :
    ∃ e1 ws ss, submit_write_prepare w.engine fd buffer count page = some (e1, ws, ss) ∧
      ws ≠ -1 ∧ (0 ≤ (process { w with engine := e1 } k).2 →
        ∃ w3, daio_submit_write w k fd buffer count page = some (w3, 0)) := by
  have hscan := slots_scan C L _ w.engine ht
  obtain ⟨hch, hls, hld, hle, hlc, hC1, hCL, hsy, hsyL, hin, -, -, hpt⟩ := ht
  have h0 : w.engine.slots[0]? = some 0 := by
    rw [hpt 0 (by omega)]
    simp
  have hloop : acquire_loop (to_int (w.engine.channels + 0)).toNat 0 w.engine.slots
      = some (w.engine.slots.set 0 1, ((0 : Nat) : Int)) := by
    rw [hscan.1]
    exact acquire_loop_first C 0 0 _ (le_refl 0) (by omega) h0
      (fun j' _ hj => absurd hj (Nat.not_lt_zero j'))
  have hacq := acquire_slot_eval w.engine 0 _ hloop
  simp only [Nat.cast_zero] at hacq
  have hcb0 : 0 < w.engine.iocbs.length := by omega
  have hprep : ∃ e1 ss, submit_write_prepare w.engine fd buffer count page
      = some (e1, 0, ss) := by
    unfold submit_write_prepare
    simp only [hacq, ne_eq, upd, le_refl, Int.toNat_zero, hcb0, and_self, if_true]
    by_cases hs0 : w.engine.sync = 0
    · simp only [hs0, not_true_eq_false, if_false]
      simp
    · have hL2 : 1 < L := by
        have := hsyL hs0
        omega
      have hloop1 : acquire_loop (to_int (w.engine.channels + 1)).toNat 0
          (w.engine.slots.set 0 1)
          = some ((w.engine.slots.set 0 1).set 1 1, ((1 : Nat) : Int)) := by
        rw [hscan.2.2.2 hs0]
        apply acquire_loop_first (C + 1) 0 1 _ (Nat.zero_le 1) (by omega)
        · rw [List.getElem?_set_ne (by decide), hpt 1 hL2]
          simp
        · intro j' _ hj
          have : j' = 0 := by omega
          subst this
          have h0L : 0 < L := by omega
          exact ⟨1, one_ne_zero, by simp [hls, h0L]⟩
      have hacq1 := acquire_slot_extra_eval
        (io_engine.mk w.engine.block_size w.engine.channels w.engine.sync (w.engine.in_use + 1)
          (w.engine.slots.set 0 1)
          (w.engine.iocbs.set 0
            (io_prep_pwrite fd buffer count (page_offset page w.engine.block_size)))
          w.engine.events w.engine.ready w.engine.data) 1 _ hloop1
      push_cast at hacq1
      have hcb1 : (1 : Int).toNat < w.engine.iocbs.length := by
        simp only [Int.toNat_one]
        omega
      simp only [hs0, not_false_eq_true, if_true, Int.reduceNeg, Int.reduceEq, hacq1,
        List.length_set, hcb1, zero_le_one, and_self]
      rcases hsy with h | h | h
      · exact absurd h hs0
      · simp [h]
      · simp [h]
  obtain ⟨e1, ss, hp⟩ := hprep
  have hws : (0 : Int) ≠ -1 := by decide
  refine ⟨e1, 0, ss, hp, hws, ?_⟩
  intro hres
  have hmarks := submit_write_prepare_marks _ _ _ _ _ _ _ _ hsy hp hws
  have hpf := process_fields { w with engine := e1 } k
  obtain ⟨e3, he3⟩ := submit_write_finish_total (process { w with engine := e1 } k).1.engine 0 ss 1 1
    (by rw [hpf.2.1]; exact hmarks.1) (fun h => by rw [hpf.2.1]; exact hmarks.2 h)
  have hnr : ¬ w.engine.ready = 1 := by rw [hready]; decide
  refine ⟨{ (process { w with engine := e1 } k).1 with engine := e3 }, ?_⟩
  unfold daio_submit_write
  simp only [hnr, if_false, hp, ne_eq, hws, not_false_eq_true, if_true, ge_iff_le, hres, he3]

theorem handed_slots (n k : Nat) :
    List.filterMap (Prod.snd ∘ fun (i : Nat) => ((0 : Int), some (i : Int))) (List.range' n k)
      = List.map (fun (j : Nat) => (j : Int)) (List.range' n k) := by
  induction k generalizing n with
  | zero => rfl
  | succ k ih => simp [List.range'_succ, ih]

/-- C4. From an engine with no slot marked and the ready flag clear, after `N` (at least 1,
at most `channels`) `daio_submit_read` calls and one `daio_read_slot` returning 0 on each
of the slots they handed out, in any order: `in_use` is 0, the ready flag is clear,
`daio_get_available_slots` is `channels`, a `daio_submit_read` returns 0, and a
`daio_submit_write` gets its write slot and returns 0 when its batch step succeeds. -/
theorem drained_engine_accepts_work (C L : Nat) (w0 w1 w2 : World) (fd : Int)
    (pages : List Int) (handed : List (Int × Option Int)) (calls : List (Kernel × Int))
    (rets : List Int) (ht : Table C L [] w0.engine) (hready : w0.engine.ready = 0)
    (hN1 : 1 ≤ pages.length) (hN : pages.length ≤ C)
    (hreads : submit_reads w0 fd pages = some (w1, handed))
    (hperm : (calls.map Prod.snd).Perm (handed.filterMap Prod.snd))
    (hdrain : read_slots w1 calls = some (w2, rets)) (hok : ∀ r ∈ rets, r = 0) :
    w2.engine.in_use = 0 ∧ w2.engine.ready = 0 ∧ daio_get_available_slots w2 = (C : Int) ∧
    (∀ fd' page, ∃ w3, daio_submit_read w2 fd' page = some (w3, 0, some 0)) ∧
    (∀ (k : Kernel) (fd' : Int) (buffer : Ptr) (count : Nat) (page : Int),
      ∃ e1 ws ss, submit_write_prepare w2.engine fd' buffer count page = some (e1, ws, ss) ∧
        ws ≠ -1 ∧ (0 ≤ (process { w2 with engine := e1 } k).2 →
          ∃ w3, daio_submit_write w2 k fd' buffer count page = some (w3, 0))) := by
  obtain ⟨w1', hrun, ht1, hr1, -⟩ :=
    submit_reads_run C L fd pages 0 w0 (table_slots C L [] w0.engine ht) hready (by omega)
  rw [hreads] at hrun
  simp only [Option.some.injEq, Prod.mk.injEq] at hrun
  obtain ⟨hw1, hhanded⟩ := hrun
  subst hw1
  simp only [zero_add] at ht1
  have hslots : handed.filterMap Prod.snd
      = (List.range pages.length).map (fun (j : Nat) => (j : Int)) := by
    rw [hhanded, List.range_eq_range', List.filterMap_map]
    exact handed_slots 0 pages.length
  rw [hslots] at hperm
  obtain ⟨ht2, hr2⟩ := read_slots_drain C L calls (List.range pages.length) w1 w2 rets ht1
    (Or.inl hr1) (fun _ => hr1) hperm hdrain hok
  have hin : w2.engine.in_use = 0 := by
    rw [ht2.2.2.2.2.2.2.2.2.2.1]
    simp
  refine ⟨hin, hr2, ?_, ?_, ?_⟩
  · unfold daio_get_available_slots
    rw [hin, sub_zero, ht2.1.1]
  · intro fd' page
    obtain ⟨w3, h3, -⟩ := submit_read_step C L 0 w2 fd' page ht2 hr2 (by omega)
    exact ⟨w3, by simpa using h3⟩
  · intro k fd' buffer count page
    exact submit_write_accepted C L w2 k fd' buffer count page ht2 hr2

/-! ## Concrete runs -/

/-- The ready gate on `half_drained_2_1`, whose ready flag is set. -/
theorem submit_rejected_while_ready_witness :
    half_drained_2_1.engine.ready = 1 ∧
    (daio_submit_read half_drained_2_1 3 0 = some (half_drained_2_1, -1, none) ∧
     daio_submit_write half_drained_2_1 (Kernel.good 512 9) 3 100 512 0
       = some (half_drained_2_1, -1)) :=
  ⟨rfl, submit_rejected_while_ready half_drained_2_1 (Kernel.good 512 9) 3 0 100 512 rfl⟩

/-- A successful write on the engine `daio_initialize(512, 2, 1)` builds. -/
theorem submit_write_keeps_available_witness :
    daio_submit_write world_2_1 (Kernel.good 512 9) 3 100 512 0 = some (written_2_1, 0) ∧
    daio_get_available_slots written_2_1 = daio_get_available_slots world_2_1 :=
  ⟨rfl, submit_write_keeps_available world_2_1 written_2_1 (Kernel.good 512 9) 3 100 512 0
    (Or.inl rfl) rfl⟩

/-- Reading slot 0 of `half_drained_2_1` with a successful allocation at address 10. -/
theorem read_slot_hands_over_witness :
    ∃ w', daio_read_slot half_drained_2_1 (Kernel.good 512 10) 0 = some (w', 0, some (1, 512)) ∧
      idx w'.engine.slots 0 = some 0 ∧ idx w'.engine.data 0 = some 10 :=
  (read_slot_hands_over half_drained_2_1 (Kernel.good 512 10) 0 1 512 rfl rfl rfl (by decide) rfl
    rfl (by decide)).imp (fun _ h => ⟨h.1, h.2.1, h.2.2.1⟩)

/-- Reading from `queued_2_1` while `io_submit` fails. -/
theorem read_slot_batch_failure_witness :
    ∃ w', daio_read_slot queued_2_1 (Kernel.failing (-5)) 0 = some (w', -1, none) ∧
      w'.engine = queued_2_1.engine :=
  read_slot_batch_failure queued_2_1 (Kernel.failing (-5)) 0 1 rfl (by decide) rfl (by decide)

/-- Writing on `world_2_1` while `io_submit` fails. -/
theorem submit_write_batch_failure_witness :
    ∃ w', daio_submit_write world_2_1 (Kernel.failing (-5)) 3 100 512 0 = some (w', -1) ∧
      (0 : Int) ≠ -1 ∧ idx w'.engine.slots 0 = some 1 ∧
      (world_2_1.engine.sync ≠ 0 →
        (1 : Int) ≠ -1 ∧ (1 : Int) ≠ 0 ∧ idx w'.engine.slots 1 = some 1) ∧
      w'.engine.in_use = world_2_1.engine.in_use + 1 ∧
      w'.engine.ready = world_2_1.engine.ready :=
  submit_write_batch_failure world_2_1 (Kernel.failing (-5)) 3 100 512 0 prepared_2_1 0 1 0 rfl
    (Or.inr (Or.inl rfl)) (by decide) rfl rfl (by decide)

/-- C7 (counterexample). On the engine `daio_initialize(512, 2, 1)` builds,
`daio_submit_write` prepares the sync request in slot 1, which is a normal slot and not
the reserved slot 2, and marks that normal slot although it is not the write slot. -/
theorem sync_slot_not_reserved :
    submit_write_prepare world_2_1.engine 3 100 512 0 = some (prepared_2_1, 0, 1) ∧
    (1 : Int) ≠ world_2_1.engine.channels ∧ (1 : Int) < world_2_1.engine.channels ∧
    idx prepared_2_1.iocbs 1 = some (io_prep_fsync 3) ∧
    idx world_2_1.engine.slots 1 = some 0 ∧ idx prepared_2_1.slots 1 = some 1 := by
  decide

/-- The write and sync slots `daio_submit_write` takes on `world_2_1`. -/
theorem sync_slot_is_first_free_witness :
    ∃ jw js : Nat, (0 : Int) = (jw : Int) ∧ (1 : Int) = (js : Int) ∧ jw < js :=
  (sync_slot_is_first_free world_2_1.engine prepared_2_1 3 100 512 0 0 1 (Or.inl rfl) rfl
    (by decide)).imp (fun _ h => h.imp (fun _ h2 => ⟨h2.1, h2.2.1, h2.2.2.1⟩))

/-- C1 (failing run). After `daio_initialize(512, 2, 1)`, a `daio_submit_write` whose batch
step fails returns -1 and leaves slots 0 and 1 marked with `in_use = 1`: two normal slots
are occupied while `in_use` says one. -/
theorem in_use_differs_after_failed_write :
    daio_initialize InitOS.good [] 512 2 1 = (0, some world_2_1) ∧
    daio_submit_write world_2_1 (Kernel.failing (-5)) 3 100 512 0
      = some (World.mk prepared_2_1 heap_2_1 File.empty [], -1) ∧
    prepared_2_1.in_use = 1 ∧ occupied_normal prepared_2_1 = 2 := by
  refine ⟨rfl, rfl, rfl, rfl⟩

/-- C6 (failing run). After `daio_initialize(512, 1, 1)`, `daio_submit_write` reaches the
batch step with the write request in slot 0, the sync request in slot 1 and `in_use = 1`:
the batch `io_submit` receives is the write request alone. -/
theorem sync_request_not_submitted :
    daio_initialize InitOS.good [] 512 1 1 = (0, some world_1_1) ∧
    (∃ e1, submit_write_prepare world_1_1.engine 3 100 512 0 = some (e1, 0, 1) ∧
      idx e1.iocbs 1 = some (io_prep_fsync 3) ∧ e1.in_use = 1 ∧
      io_batch e1.in_use e1.iocbs = [io_prep_pwrite 3 100 512 0] ∧
      io_prep_fsync 3 ∉ io_batch e1.in_use e1.iocbs) := by
  refine ⟨rfl, _, rfl, rfl, rfl, rfl, ?_⟩
  decide

/-- Two reads fill the two channels of `world_2_1`. -/
theorem submit_read_until_full_witness :
    ∃ w, submit_reads world_2_1 3 [0, 1]
        = some (w, (List.range 2).map (fun (i : Nat) => ((0 : Int), some (i : Int)))) ∧
      daio_get_available_slots w = 2 - ((2 : Nat) : Int) ∧
      ((((2 : Nat) : Int)) = 2 → ∀ page, daio_submit_read w 3 page = some (w, -1, none)) :=
  submit_read_until_full InitOS.good [] 512 2 1 world_2_1 3 [0, 1] rfl (by decide) (by decide)

/-- Two reads on `world_2_1`, drained in the order slot 1, slot 0. -/
theorem drained_engine_accepts_work_witness :
    drained_2_1.engine.in_use = 0 ∧ drained_2_1.engine.ready = 0 ∧
    daio_get_available_slots drained_2_1 = 2 :=
  have h := drained_engine_accepts_work 2 3 world_2_1 queued_2_1 drained_2_1 3 [0, 1]
    [(0, some 0), (0, some 1)] [(Kernel.good 512 9, 1), (Kernel.good 512 10, 0)] [0, 0]
    (by unfold Table; decide) rfl (by decide) (by decide) rfl (by decide) rfl (by decide)
  ⟨h.1, h.2.1, h.2.2.1⟩

/-! ## Initialization -/

theorem init_iocbs_ok (os : InitOS) (h : ∀ i, os.malloc_iocb i = true) :
    ∀ n i, init_iocbs os n i = true := by
  intro n
  induction n with
  | zero =>
    intro i
    rfl
  | succ n ih =>
    intro i
    unfold init_iocbs
    simp [h i, ih (i + 1)]

theorem init_data_ok (os : InitOS) (bs : Nat)
    (h : ∀ i, (os.posix_memalign i bs).1 = 0 ∧ (os.posix_memalign i bs).2 ≠ 0) :
    ∀ (n i : Nat) (ds : List Ptr) (hp : Heap),
      ∃ ds' hp', init_data os bs n i ds hp = Except.ok (ds', hp') := by
  intro n
  induction n with
  | zero =>
    intro i ds hp
    exact ⟨ds, hp, rfl⟩
  | succ n ih =>
    intro i ds hp
    unfold init_data
    have hc : ¬ ((os.posix_memalign i bs).1 < 0 ∨ (os.posix_memalign i bs).2 = 0) := by
      rw [(h i).1]
      simp [(h i).2]
    simp only [hc, if_false]
    exact ih _ _ _

theorem daio_initialize_ok (os : InitOS) (heap : Heap) (bs : Nat) (chns sc : Int)
    (hos : os.succeeds bs) (hvalid : ¬ invalid_arguments bs chns sc) :
    ∃ ds hp, daio_initialize os heap bs chns sc = (0, some (World.mk
      (io_engine.mk bs chns sc 0
        (List.replicate (to_int (if sc = 0 then chns else chns + 1)).toNat 0)
        (List.replicate (to_int (if sc = 0 then chns else chns + 1)).toNat iocb.cleared)
        (List.replicate (to_int (if sc = 0 then chns else chns + 1)).toNat 0) 0 ds) hp
      File.empty [])) := by
  obtain ⟨hm, hs, h1, h2, h3, h4, h5, h6⟩ := hos
  unfold invalid_arguments at hvalid
  have hv1 : ¬ (bs < 512 ∨ bs % 512 ≠ 0) := fun hc =>
    hvalid (hc.elim Or.inl (fun h => Or.inr (Or.inl h)))
  have hv2 : ¬ chns < 1 := fun hc => hvalid (Or.inr (Or.inr (Or.inl hc)))
  have hv3 : ¬ (sc < 0 ∨ sc > 2) := by
    intro hc
    apply hvalid
    right
    right
    right
    omega
  obtain ⟨ds, hp, hd⟩ := init_data_ok os bs h6
    (to_int (if sc = 0 then chns else chns + 1)).toNat 0
    (List.replicate (to_int (if sc = 0 then chns else chns + 1)).toNat 0) heap
  refine ⟨ds, hp, ?_⟩
  unfold daio_initialize
  simp only [hv1, hv2, hv3, if_false, hm, hs, lt_self_iff_false, h1, h2, h4, h5,
    init_iocbs_ok os h3, Bool.not_true, Bool.false_eq_true, hd]

/-- C11. When the lock, the kernel context and every allocation succeed, `daio_initialize`
returns a value other than 0 exactly when `block_size < 512`, or `block_size` is not a
multiple of 512, or `channels < 1`, or `sync` is not 0, 1 or 2; in that case it returns -1
and builds no engine. -/
theorem initialize_fails_iff_invalid (os : InitOS) (heap : Heap) (bs : Nat) (chns sc : Int)
    (hos : os.succeeds bs) :
    (( daio_initialize os heap bs chns sc).1 ≠ 0 ↔ invalid_arguments bs chns sc) ∧
    (invalid_arguments bs chns sc → daio_initialize os heap bs chns sc = (-1, none)) := by
  have hbad : invalid_arguments bs chns sc → daio_initialize os heap bs chns sc = (-1, none) := by
    intro hinv
    unfold daio_initialize
    by_cases h1 : bs < 512 ∨ bs % 512 ≠ 0
    · simp only [h1, if_true]
    · by_cases h2 : chns < 1
      · simp only [h1, h2, if_true, if_false]
      · have h3 : sc < 0 ∨ sc > 2 := by
          rcases hinv with h | h | h | h
          · exact absurd (Or.inl h) h1
          · exact absurd (Or.inr h) h1
          · exact absurd h h2
          · omega
        simp only [h1, h2, h3, if_true, if_false]
  refine ⟨⟨?_, ?_⟩, hbad⟩
  · intro hne
    by_contra hvalid
    obtain ⟨ds, hp, h⟩ := daio_initialize_ok os heap bs chns sc hos hvalid
    rw [h] at hne
    exact hne rfl
  · intro hinv
    rw [hbad hinv]
    decide

/-- C12 (amended). For `block_size ≥ 512` a multiple of 512, `channels ≥ 1` and `sync` in
{0, 1, 2}, when the table size (`channels`, plus one when `sync` is not 0) fits the C `int`
it is held in and the lock, the kernel context and every allocation succeed,
`daio_initialize` returns 0 and builds an engine whose slots (one per channel, plus one
when `sync` is not 0) are all free, with `in_use = 0` and the ready flag clear, and
`daio_get_available_slots` then returns `channels`. -/
theorem initialize_builds_empty_engine (os : InitOS) (heap : Heap) (bs : Nat) (chns sc : Int)
    (hos : os.succeeds bs) (hbs : 512 ≤ bs) (hmul : bs % 512 = 0) (hch : 1 ≤ chns)
    (hsc : sc = 0 ∨ sc = 1 ∨ sc = 2)
    (hfit : (if sc = 0 then chns else chns + 1) < 2147483648) :
    ∃ w0, daio_initialize os heap bs chns sc = (0, some w0) ∧
      w0.engine.slots = List.replicate (if sc = 0 then chns else chns + 1).toNat 0 ∧
      (∀ s ∈ w0.engine.slots, s = 0) ∧ w0.engine.in_use = 0 ∧ w0.engine.ready = 0 ∧
      w0.engine.channels = chns ∧ w0.engine.sync = sc ∧ w0.engine.block_size = bs ∧
      daio_get_available_slots w0 = chns := by
  have hvalid : ¬ invalid_arguments bs chns sc := by
    unfold invalid_arguments
    intro hc
    rcases hc with h | h | h | h
    · omega
    · exact h hmul
    · omega
    · exact h hsc
  have hc : to_int (if sc = 0 then chns else chns + 1) = (if sc = 0 then chns else chns + 1) := by
    apply to_int_fits
    · split <;> omega
    · exact hfit
  obtain ⟨ds, hp, h⟩ := daio_initialize_ok os heap bs chns sc hos hvalid
  rw [hc] at h
  refine ⟨_, h, rfl, ?_, rfl, rfl, rfl, rfl, rfl, ?_⟩
  · intro s hs
    exact List.eq_of_mem_replicate hs
  · simp only [daio_get_available_slots, sub_zero]
    apply to_int_fits <;> split at hfit <;> omega

/-! ## The prepared requests -/

theorem page_offset_spec (page : Int) (bs : Nat) :
    page_offset page bs % 2 ^ 64 = (page * (bs : Int)) % 2 ^ 64 ∧
    -(2 ^ 63) ≤ page_offset page bs ∧ page_offset page bs < 2 ^ 63 ∧
    (-(2 ^ 63) ≤ page * (bs : Int) → page * (bs : Int) < 2 ^ 63 →
      page_offset page bs = page * (bs : Int)) := by
  unfold page_offset
  simp only
  by_cases h : (page * (bs : Int)) % 2 ^ 64 < 2 ^ 63
  · rw [if_pos h]
    refine ⟨by omega, by omega, h, ?_⟩
    intro h1 h2
    omega
  · rw [if_neg h]
    refine ⟨by omega, by omega, by omega, ?_⟩
    intro h1 h2
    omega

theorem submit_read_request (w w' : World) (fd page sl : Int)
    (h : daio_submit_read w fd page = some (w', 0, some sl)) :
    ∃ d, idx w.engine.data sl = some d ∧ idx w'.engine.data sl = some d ∧
      idx w'.engine.iocbs sl
        = some (io_prep_pread fd d w.engine.block_size
            (page_offset page w.engine.block_size)) := by
  unfold daio_submit_read at h
  simp only at h
  cases ha : (if w.engine.ready = 0 then acquire_slot w.engine 0
      else some (w.engine, -1)) with
  | none => simp [ha] at h
  | some r =>
    obtain ⟨e1, x⟩ := r
    simp only [ha] at h
    have hf : e1.data = w.engine.data ∧ e1.block_size = w.engine.block_size := by
      by_cases hr : w.engine.ready = 0
      · simp only [hr, if_true] at ha
        have := acquire_slot_fields _ _ _ _ ha
        exact ⟨this.2.2.2.2.2.2.2.2, this.2.2.1⟩
      · simp only [hr, if_false, Option.some.injEq, Prod.mk.injEq] at ha
        rw [← ha.1]
        exact ⟨rfl, rfl⟩
    by_cases hx : x ≠ -1
    · simp only [hx, ne_eq, not_false_eq_true, if_true] at h
      cases hd : idx e1.data x with
      | none => simp [hd] at h
      | some d =>
        simp only [hd] at h
        cases hu : upd e1.iocbs x
            (io_prep_pread fd d e1.block_size (page_offset page e1.block_size)) with
        | none => simp [hu] at h
        | some cbs =>
          simp only [hu, Option.some.injEq, Prod.mk.injEq, true_and] at h
          obtain ⟨hw, hsl⟩ := h
          subst hsl
          subst hw
          refine ⟨d, by rw [← hf.1]; exact hd, by rw [← hd], ?_⟩
          rw [← hf.2]
          exact idx_upd_same _ _ _ _ hu
    · simp only [hx, if_false, Option.some.injEq, Prod.mk.injEq] at h
      omega

theorem submit_write_request (e e' : io_engine) (fd : Int) (buffer : Ptr) (count : Nat)
    (page ws ss : Int) (h : submit_write_prepare e fd buffer count page = some (e', ws, ss))
    (hws : ws ≠ -1) :
    idx e'.iocbs ws
      = some (io_prep_pwrite fd buffer count (page_offset page e.block_size)) := by
  obtain ⟨ea, cbs, ha, hu, hrest⟩ := submit_write_prepare_inv _ _ _ _ _ _ _ _ h hws
  have hfa := acquire_slot_fields _ _ _ _ ha
  rw [hfa.2.2.1] at hu
  have hbase := idx_upd_same _ _ _ _ hu
  obtain ⟨jw, hjw, -, hw0, hsl, -⟩ := acquire_slot_found _ _ _ _ ha hws
  have hlen : jw < e.slots.length := getElem?_some_lt _ _ _ hw0
  rcases hrest with ⟨-, -, he⟩ | ⟨-, e3, hb, hcase⟩
  · subst he
    exact hbase
  · have hf3 := acquire_slot_fields _ _ _ _ hb
    have hcb3 : e3.iocbs = cbs := hf3.2.2.2.2.2.1
    have hne : ss ≠ -1 → ws ≠ ss := by
      intro hss hc
      obtain ⟨js, hjs, -, hs0, -, -⟩ := acquire_slot_found _ _ _ _ hb hss
      simp only at hs0
      rw [hsl] at hs0
      have : js = jw := by omega
      subst this
      simp [hlen] at hs0
    rcases hcase with ⟨-, cbs3, hu3, he⟩ | ⟨-, cbs3, hu3, he⟩ | ⟨-, -, he⟩
    · subst he
      have hss : ss ≠ -1 := by
        intro hc
        subst hc
        simp [upd] at hu3
      simp only
      rw [idx_upd_other _ _ _ _ _ hu3 (hne hss), hcb3]
      exact hbase
    · subst he
      have hss : ss ≠ -1 := by
        intro hc
        subst hc
        simp [upd] at hu3
      simp only
      rw [idx_upd_other _ _ _ _ _ hu3 (hne hss), hcb3]
      exact hbase
    · subst he
      rw [hcb3]
      exact hbase

/-- C19. The request a successful `daio_submit_read` prepares in the slot it hands out is a
read of `block_size` bytes into that slot's current buffer, and the request
`daio_submit_write` prepares in its write slot is a write of `count` bytes from the caller's
buffer; both carry the offset `page_offset page block_size`, which is the product
`page * block_size` reduced to a signed 64-bit value (so equal to the product whenever
the product fits). -/
theorem prepared_request_fields (w w' : World) (fd page sl : Int) (e1 : io_engine)
    (buffer : Ptr) (count : Nat) (ws ss : Int) :
    (daio_submit_read w fd page = some (w', 0, some sl) →
      ∃ d, idx w.engine.data sl = some d ∧
        idx w'.engine.iocbs sl = some (iocb.mk Cmd.pread fd d w.engine.block_size
          (page_offset page w.engine.block_size))) ∧
    (submit_write_prepare w.engine fd buffer count page = some (e1, ws, ss) → ws ≠ -1 →
      idx e1.iocbs ws = some (iocb.mk Cmd.pwrite fd buffer count
        (page_offset page w.engine.block_size))) ∧
    page_offset page w.engine.block_size % 2 ^ 64
      = (page * (w.engine.block_size : Int)) % 2 ^ 64 ∧
    -(2 ^ 63) ≤ page_offset page w.engine.block_size ∧
    page_offset page w.engine.block_size < 2 ^ 63 ∧
    (-(2 ^ 63) ≤ page * (w.engine.block_size : Int) →
      page * (w.engine.block_size : Int) < 2 ^ 63 →
      page_offset page w.engine.block_size = page * (w.engine.block_size : Int)) := by
  refine ⟨?_, ?_, page_offset_spec page w.engine.block_size⟩
  · intro h
    obtain ⟨d, h1, -, h3⟩ := submit_read_request w w' fd page sl h
    exact ⟨d, h1, h3⟩
  · intro h hws
    exact submit_write_request _ _ _ _ _ _ _ _ h hws

/-! ## Runs with a failed batch step -/

theorem run_submit_write (w w' : World) (k : Kernel) (fd : Int) (buffer : Ptr) (count : Nat)
    (page r : Int) (h : daio_submit_write w k fd buffer count page = some (w', r)) :
    Call.run w (Call.submit_write k fd buffer count page) = some w' := by
  simp [Call.run, h]

/-- C14 (failing run). After `daio_initialize(512, 1, 1)`, a `daio_submit_write` whose
batch step fails and a successful `daio_read_slot` on slot 0 lead to a state in which the
next `daio_submit_write` acquires write slot 0 and then gets -1 from `acquire_slot(1)`;
the sync request is prepared through `iocbs[-1]`, outside the table. -/
theorem sync_slot_missing_after_failed_write :
    daio_initialize InitOS.good [] 512 1 1 = (0, some world_1_1) ∧
    daio_submit_write world_1_1 (Kernel.failing (-5)) 3 100 512 0 = some (leaked_1_1, -1) ∧
    daio_read_slot leaked_1_1 (Kernel.good 512 9) 0 = some (stuck_1_1, 0, some (1, 512)) ∧
    Reachable world_1_1 stuck_1_1 ∧
    (∃ e1, acquire_slot stuck_1_1.engine 0 = some (e1, 0) ∧
      ∃ e2, acquire_slot
        { e1 with iocbs := [io_prep_pwrite 3 200 512 0, io_prep_fsync 3] } 1
          = some (e2, -1)) ∧
    upd stuck_1_1.engine.iocbs (-1) (io_prep_fsync 3) = none ∧
    daio_submit_write stuck_1_1 (Kernel.good 512 9) 3 200 512 0 = none := by
  refine ⟨rfl, rfl, rfl, ?_, ⟨_, rfl, _, rfl⟩, rfl, rfl⟩
  refine Reachable.step leaked_1_1 stuck_1_1 (Call.read_slot (Kernel.good 512 9) 0)
    (Reachable.step world_1_1 leaked_1_1
      (Call.submit_write (Kernel.failing (-5)) 3 100 512 0) Reachable.start trivial
        (run_submit_write _ _ _ _ _ _ _ (-1) rfl))
    ?_ rfl
  exact ⟨by decide, by decide⟩

/-- C15 (failing run). After `daio_initialize(512, 2, 1)`, a `daio_submit_write` whose
batch step fails, a `daio_read_slot` on slot 0 and a `daio_read_slot` on slot 1 lead to
`in_use = -1`, and `daio_get_available_slots` returns 3 with 2 channels. -/
theorem in_use_negative_after_failed_write :
    daio_initialize InitOS.good [] 512 2 1 = (0, some world_2_1) ∧
    daio_submit_write world_2_1 (Kernel.failing (-5)) 3 100 512 0
      = some (World.mk prepared_2_1 heap_2_1 File.empty [], -1) ∧
    daio_read_slot (World.mk prepared_2_1 heap_2_1 File.empty []) (Kernel.good 512 9) 0
      = some (miscounted_2_1, 0, some (1, 512)) ∧
    daio_read_slot miscounted_2_1 (Kernel.good 512 10) 1
      = some (negative_2_1, 0, some (2, 512)) ∧
    Reachable world_2_1 negative_2_1 ∧
    negative_2_1.engine.in_use = -1 ∧ negative_2_1.engine.channels = 2 ∧
    daio_get_available_slots negative_2_1 = 3 := by
  refine ⟨rfl, rfl, rfl, rfl, ?_, rfl, rfl, rfl⟩
  refine Reachable.step miscounted_2_1 negative_2_1 (Call.read_slot (Kernel.good 512 10) 1)
    (Reachable.step (World.mk prepared_2_1 heap_2_1 File.empty []) miscounted_2_1
      (Call.read_slot (Kernel.good 512 9) 0)
      (Reachable.step world_2_1 (World.mk prepared_2_1 heap_2_1 File.empty [])
        (Call.submit_write (Kernel.failing (-5)) 3 100 512 0) Reachable.start trivial
        (run_submit_write _ _ _ _ _ _ _ (-1) rfl))
      ?_ rfl) ?_ rfl
  · exact ⟨by decide, by decide⟩
  · exact ⟨by decide, by decide⟩

/-! ## A write on a table whose marked slots are `0 .. n - 1` -/

theorem prepare_on_queue (C L n : Nat) (e : io_engine) (fd : Int) (buffer : Ptr) (count : Nat)
    (page : Int) (ht : Slots C L (List.range n) e) (hn : n < C) :
    ∃ e1 ss, submit_write_prepare e fd buffer count page = some (e1, (n : Int), ss) ∧
      e1.slots = (if e.sync = 0 then e.slots.set n 1 else (e.slots.set n 1).set (n + 1) 1) ∧
      e1.iocbs = (if e.sync = 0
        then e.iocbs.set n (io_prep_pwrite fd buffer count (page_offset page e.block_size))
        else (e.iocbs.set n (io_prep_pwrite fd buffer count
          (page_offset page e.block_size))).set (n + 1)
            (if e.sync = 1 then io_prep_fsync fd else io_prep_fdsync fd)) ∧
      ss = (if e.sync = 0 then -1 else ((n + 1 : Nat) : Int)) := by
  have hscan := slots_scan C L _ e ht
  obtain ⟨bs, ch, sy, iu, sl, cb, ev, rd, da⟩ := e
  obtain ⟨hch, hls, hld, hle, hlc, hC1, hCL, hsy, hsyL, hin, -, -, hpt⟩ := ht
  simp only at hch hls hld hle hlc hsy hsyL hin hpt hscan
  have hnL : n < L := by omega
  have hloop : acquire_loop (to_int (ch + 0)).toNat 0 sl = some (sl.set n 1, (n : Int)) := by
    rw [hscan.1]
    apply acquire_loop_first C 0 n _ (Nat.zero_le n) (by omega)
    · rw [hpt n hnL]
      simp
    · intro j' _ hj
      refine ⟨1, one_ne_zero, ?_⟩
      rw [hpt j' (by omega)]
      simp [hj]
  have hacq := acquire_slot_eval (io_engine.mk bs ch sy iu sl cb ev rd da) n _ hloop
  simp only at hacq
  have hnn : ¬ ((n : Int) = -1) := by omega
  have hcbn : (n : Int).toNat < cb.length := by
    simp only [Int.toNat_ofNat]
    omega
  have hn0 : (0 : Int) ≤ (n : Int) := by omega
  by_cases hs0 : sy = 0
  · subst hs0
    refine ⟨io_engine.mk bs ch 0 (iu + 1) (sl.set n 1)
      (cb.set n (io_prep_pwrite fd buffer count (page_offset page bs))) ev rd da,
      -1, ?_, ?_, ?_, ?_⟩
    · have hcbn2 : n < cb.length := by omega
      simp [submit_write_prepare, hacq, upd, hnn, hcbn2]
    · simp
    · simp
    · simp
  · have hCL2 : C < L := hsyL hs0
    have hloop1 : acquire_loop (to_int (ch + 1)).toNat 0 (sl.set n 1)
        = some ((sl.set n 1).set (n + 1) 1, ((n + 1 : Nat) : Int)) := by
      rw [hscan.2.2.2 hs0]
      apply acquire_loop_first (C + 1) 0 (n + 1) _ (Nat.zero_le _) (by omega)
      · rw [List.getElem?_set_ne (by omega), hpt (n + 1) (by omega)]
        simp
      · intro j' _ hj
        refine ⟨1, one_ne_zero, ?_⟩
        by_cases hjn : j' = n
        · subst hjn
          simp [hls, hnL]
        · rw [List.getElem?_set_ne (fun h => hjn h.symm), hpt j' (by omega)]
          have : j' < n := by omega
          simp [this]
    have hacq1 := acquire_slot_extra_eval
      (io_engine.mk bs ch sy (iu + 1) (sl.set n 1)
        (cb.set n (io_prep_pwrite fd buffer count (page_offset page bs))) ev rd da)
      (n + 1) _ hloop1
    simp only at hacq1
    have hn1 : ¬ (((n + 1 : Nat) : Int) = -1) := by omega
    have hcbn1 : (((n + 1 : Nat) : Int)).toNat < (cb.set n
        (io_prep_pwrite fd buffer count (page_offset page bs))).length := by
      simp only [Int.toNat_ofNat, List.length_set]
      omega
    have hn10 : (0 : Int) ≤ ((n + 1 : Nat) : Int) := by omega
    rcases hsy with h | h | h
    · exact absurd h hs0
    · subst h
      refine ⟨io_engine.mk bs ch 1 (iu + 1) ((sl.set n 1).set (n + 1) 1)
        ((cb.set n (io_prep_pwrite fd buffer count (page_offset page bs))).set (n + 1)
          (io_prep_fsync fd)) ev rd da, ((n + 1 : Nat) : Int), ?_, ?_, ?_, ?_⟩
      · have hcbn2 : n < cb.length := by omega
        have hcbn3 : n + 1 < cb.length := by omega
        have hn2 : ¬ ((n : Int) + 1 = -1) := by omega
        have hn3 : (0 : Int) ≤ (n : Int) + 1 := by omega
        simp [submit_write_prepare, hacq, hacq1, upd, hnn, hcbn2, hcbn3, hn2, hn3]
      · simp
      · simp
      · simp
    · subst h
      refine ⟨io_engine.mk bs ch 2 (iu + 1) ((sl.set n 1).set (n + 1) 1)
        ((cb.set n (io_prep_pwrite fd buffer count (page_offset page bs))).set (n + 1)
          (io_prep_fdsync fd)) ev rd da, ((n + 1 : Nat) : Int), ?_, ?_, ?_, ?_⟩
      · have hcbn2 : n < cb.length := by omega
        have hcbn3 : n + 1 < cb.length := by omega
        have hn2 : ¬ ((n : Int) + 1 = -1) := by omega
        have hn3 : (0 : Int) ≤ (n : Int) + 1 := by omega
        simp [submit_write_prepare, hacq, hacq1, upd, hnn, hcbn2, hcbn3, hn2, hn3]
      · simp
      · simp
      · simp

theorem slots_range_le (C L n : Nat) (e : io_engine) (ht : Slots C L (List.range n) e) :
    n ≤ C := by
  obtain ⟨-, -, -, -, -, hC1, -, -, -, -, -, hmem, -⟩ := ht
  by_contra hc
  have := hmem (n - 1) (List.mem_range.mpr (by omega))
  omega

theorem prepare_full (C L : Nat) (e : io_engine) (fd : Int) (buffer : Ptr) (count : Nat)
    (page : Int) (ht : Slots C L (List.range C) e) :
    submit_write_prepare e fd buffer count page = some (e, -1, -1) := by
  have hscan := slots_scan C L _ e ht
  obtain ⟨bs, ch, sy, iu, sl, cb, ev, rd, da⟩ := e
  obtain ⟨hch, hls, -, -, -, -, hCL, -, -, -, -, -, hpt⟩ := ht
  simp only at hch hls hpt hscan
  have hloop : acquire_loop (to_int ch).toNat 0 sl = some (sl, -1) := by
    rw [hscan.2.1]
    apply acquire_loop_full
    intro j _ hj
    refine ⟨1, one_ne_zero, ?_⟩
    rw [hpt j (by omega)]
    have : j < C := by omega
    simp [this]
  simp [submit_write_prepare, acquire_slot, hloop]

theorem submit_write_finish_frame (e e' : io_engine) (ws ss : Int)
    (h : submit_write_finish e ws ss = some e') :
    e'.sync = e.sync ∧ e'.data = e.data ∧ e'.events = e.events ∧ e'.iocbs = e.iocbs ∧
    e'.block_size = e.block_size ∧ e'.slots.length = e.slots.length ∧
    idx e'.slots ws = some 0 ∧ (ss ≠ -1 → idx e'.slots ss = some 0) := by
  unfold submit_write_finish at h
  have key : ∀ e1 : io_engine, e1.sync = e.sync → e1.data = e.data → e1.events = e.events →
      e1.iocbs = e.iocbs → e1.block_size = e.block_size → e1.slots.length = e.slots.length →
      (ss ≠ -1 → idx e1.slots ss = some 0) →
      (match release_slot e1 ws 0 with
        | none => none
        | some (e2, n) => if n ≠ 0 then some { e2 with ready := 1 } else some e2) = some e' →
      e'.sync = e.sync ∧ e'.data = e.data ∧ e'.events = e.events ∧ e'.iocbs = e.iocbs ∧
        e'.block_size = e.block_size ∧ e'.slots.length = e.slots.length ∧
        idx e'.slots ws = some 0 ∧ (ss ≠ -1 → idx e'.slots ss = some 0) := by
    intro e1 h1 h2 h3 h4 h5 h6 h7 hm
    cases hr : release_slot e1 ws 0 with
    | none => simp [hr] at hm
    | some r =>
      obtain ⟨e2, n⟩ := r
      simp only [hr] at hm
      have hf := release_slot_fields e1 e2 ws 0 n hr
      obtain ⟨hsl, -, -, hbs, -, hsy, hcb, hev, -, hda⟩ := hf
      have hres : e2.sync = e.sync ∧ e2.data = e.data ∧ e2.events = e.events ∧
          e2.iocbs = e.iocbs ∧ e2.block_size = e.block_size ∧
          e2.slots.length = e.slots.length ∧ idx e2.slots ws = some 0 ∧
          (ss ≠ -1 → idx e2.slots ss = some 0) := by
        refine ⟨hsy.trans h1, hda.trans h2, hev.trans h3, hcb.trans h4, hbs.trans h5,
          (upd_length _ _ _ _ hsl).trans h6, idx_upd_same _ _ _ _ hsl, ?_⟩
        intro hss
        by_cases hsw : ss = ws
        · rw [hsw]
          exact idx_upd_same _ _ _ _ hsl
        · rw [idx_upd_other _ _ _ _ _ hsl hsw]
          exact h7 hss
      by_cases hz : n ≠ 0
      · simp only [hz, ne_eq, not_false_eq_true, if_true, Option.some.injEq] at hm
        subst hm
        exact hres
      · simp only [hz, if_false, Option.some.injEq] at hm
        subst hm
        exact hres
  by_cases hss : ss ≠ -1
  · simp only [hss, ne_eq, not_false_eq_true, if_true] at h
    cases hr : release_slot e ss 1 with
    | none => simp [hr] at h
    | some r =>
      obtain ⟨e1, n⟩ := r
      simp only [hr, Option.map_some'] at h
      have hf := release_slot_fields e e1 ss 1 n hr
      obtain ⟨hsl, -, -, hbs, -, hsy, hcb, hev, -, hda⟩ := hf
      exact key e1 hsy hda hev hcb hbs (upd_length _ _ _ _ hsl)
        (fun _ => idx_upd_same _ _ _ _ hsl) h
  · simp only [hss, if_false] at h
    exact key e rfl rfl rfl rfl rfl rfl (fun hc => absurd hc hss) h

theorem prepared_slots (L n : Nat) (sl : List Int) (sy : Int) (hls : sl.length = L)
    (hn : n < L) (hn1 : sy ≠ 0 → n + 1 < L)
    (hpt : ∀ j, j < L → sl[j]? = some (if j ∈ List.range n then 1 else 0)) (j : Nat)
    (hj : j < L) :
    (if sy = 0 then sl.set n 1 else (sl.set n 1).set (n + 1) 1)[j]?
      = some (if j < n + 1 ∨ (sy ≠ 0 ∧ j = n + 1) then 1 else 0) := by
  by_cases hs : sy = 0
  · simp only [hs, if_true, ne_eq, not_true_eq_false, false_and, or_false]
    by_cases hjn : j = n
    · subst hjn
      simp [hls, hj]
    · rw [List.getElem?_set_ne (fun h => hjn h.symm), hpt j hj]
      simp only [List.mem_range]
      by_cases h1 : j < n
      · have : j < n + 1 := by omega
        simp [h1, this]
      · have : ¬ j < n + 1 := by omega
        simp [h1, this]
  · simp only [hs, if_false, ne_eq, not_false_eq_true, true_and]
    by_cases hj1 : j = n + 1
    · subst hj1
      simp [hls, hj]
    · rw [List.getElem?_set_ne (fun h => hj1 h.symm)]
      by_cases hjn : j = n
      · subst hjn
        simp [hls, hj]
      · rw [List.getElem?_set_ne (fun h => hjn h.symm), hpt j hj]
        simp only [List.mem_range]
        by_cases h1 : j < n
        · have : j < n + 1 := by omega
          simp [h1, this]
        · have : ¬ j < n + 1 := by omega
          simp [h1, this, hj1]

theorem submit_write_on_queue (C L n : Nat) (w w' : World) (k : Kernel) (fd : Int)
    (buffer : Ptr) (count : Nat) (page r : Int) (ht : Slots C L (List.range n) w.engine)
    (hready : w.engine.ready = 0) (hn : n < C)
    (h : daio_submit_write w k fd buffer count page = some (w', r)) :
    ∃ e1 ss, submit_write_prepare w.engine fd buffer count page = some (e1, (n : Int), ss) ∧
      e1.in_use = (n : Int) + 1 ∧
      (∀ j, j < L → e1.slots[j]?
        = some (if j < n + 1 ∨ (w.engine.sync ≠ 0 ∧ j = n + 1) then 1 else 0)) ∧
      e1.iocbs = (if w.engine.sync = 0
        then w.engine.iocbs.set n
          (io_prep_pwrite fd buffer count (page_offset page w.engine.block_size))
        else (w.engine.iocbs.set n (io_prep_pwrite fd buffer count
          (page_offset page w.engine.block_size))).set (n + 1)
            (if w.engine.sync = 1 then io_prep_fsync fd else io_prep_fdsync fd)) ∧
      (((process { w with engine := e1 } k).2 < 0 ∧ r = -1) ∨
       (0 ≤ (process { w with engine := e1 } k).2 ∧ r = 0 ∧
        Slots C L (List.range n) w'.engine ∧
        w'.engine.ready = (if n = 0 then 0 else 1) ∧
        w'.heap = (process { w with engine := e1 } k).1.heap ∧
        w'.engine.data = w.engine.data ∧
        w'.engine.events = (process { w with engine := e1 } k).1.engine.events ∧
        w'.engine.iocbs = e1.iocbs ∧ w'.engine.block_size = w.engine.block_size ∧
        w'.file = (process { w with engine := e1 } k).1.file ∧
        w'.submitted = (process { w with engine := e1 } k).1.submitted)) := by
  obtain ⟨e1, ss, hp, hsl, hcb, hss⟩ := prepare_on_queue C L n w.engine fd buffer count page ht hn
  have hnn : (n : Int) ≠ -1 := by omega
  have hpf := submit_write_prepare_fields _ _ _ _ _ _ _ _ hp hnn
  obtain ⟨hch, hls, hld, hle, hlc, hC1, hCL, hsy, hsyL, hin, hnd, hmem, hpt⟩ := ht
  have hin1 : e1.in_use = (n : Int) + 1 := by
    rw [hpf.1, hin]
    simp
  have hslots : ∀ j, j < L → e1.slots[j]?
      = some (if j < n + 1 ∨ (w.engine.sync ≠ 0 ∧ j = n + 1) then 1 else 0) := by
    intro j hj
    rw [hsl]
    exact prepared_slots L n w.engine.slots w.engine.sync hls (by omega)
      (fun hs => by have := hsyL hs; omega) hpt j hj
  refine ⟨e1, ss, hp, hin1, hslots, hcb, ?_⟩
  have hnr : ¬ w.engine.ready = 1 := by rw [hready]; decide
  unfold daio_submit_write at h
  simp only [hnr, if_false, hp, ne_eq, hnn, not_false_eq_true, if_true] at h
  have hproc := process_fields { w with engine := e1 } k
  by_cases hres : (process { w with engine := e1 } k).2 ≥ 0
  · right
    simp only [hres, if_true] at h
    cases hfin : submit_write_finish (process { w with engine := e1 } k).1.engine (n : Int) ss with
    | none => simp [hfin] at h
    | some e3 =>
      simp only [hfin, Option.some.injEq, Prod.mk.injEq] at h
      obtain ⟨hw, hr⟩ := h
      subst hw
      have hff := submit_write_finish_fields _ _ _ _ hfin
      have hfr := submit_write_finish_frame _ _ _ _ hfin
      obtain ⟨h1, h2, h3, h4, h5, h6, h7, h8⟩ := hfr
      obtain ⟨p1, p2, p3, p4, p5, p6, p7, p8, p9⟩ := hproc
      simp only at p1 p2 p3 p4 p5 p6 p7 p8 p9
      have hin3 : e3.in_use = (n : Int) := by
        rw [hff.1, p1, hin1]
        ring
      refine ⟨hres, hr.symm, ?_, ?_, rfl, ?_, h3, ?_, ?_, rfl, rfl⟩
      · refine ⟨by simp only; rw [hff.2.1, p6, hpf.2.1, h1, p7, hpf.2.2.2.1]; exact hch,
          ?_, ?_, ?_, ?_, hC1, hCL, ?_, ?_, ?_, hnd, hmem, ?_⟩
        · rw [h6, p2]
          have := hslots 0 (by omega)
          have hlen := getElem?_some_lt _ _ _ this
          by_contra hc
          have hL := hslots (L - 1) (by omega)
          have hlen2 := getElem?_some_lt _ _ _ hL
          by_cases hlt : e1.slots.length < L
          · omega
          · have hgt : L < e1.slots.length := by omega
            rw [hsl] at hgt
            by_cases hs : w.engine.sync = 0
            · simp only [hs, if_true, List.length_set] at hgt
              omega
            · simp only [hs, if_false, List.length_set] at hgt
              omega
        · rw [h2, p4, hpf.2.2.2.2.1]
          exact hld
        · rw [h3, p9, hpf.2.2.2.2.2.1]
          exact hle
        · rw [h4, p5, hcb]
          by_cases hs : w.engine.sync = 0
          · simp only [hs, if_true, List.length_set]
            exact hlc
          · simp only [hs, if_false, List.length_set]
            exact hlc
        · rw [h1, p7, hpf.2.2.2.1]
          exact hsy
        · rw [h1, p7, hpf.2.2.2.1]
          exact hsyL
        · rw [hin3]
          simp
        · intro j hj
          by_cases hjn : j = n
          · subst hjn
            rw [← getElem?_idx, h7]
            simp
          · by_cases hjs : (j : Int) = ss
            · have hss1 : ss ≠ -1 := by omega
              rw [← getElem?_idx, hjs, h8 hss1]
              by_cases hs : w.engine.sync = 0
              · simp only [hs, if_true] at hss
                omega
              · simp only [hs, if_false] at hss
                have : j = n + 1 := by omega
                subst this
                simp
            · have hjn2 : (j : Int) ≠ (n : Int) := by omega
              rw [← getElem?_idx, submit_write_finish_slots _ _ _ _ hfin (j : Int) hjn2 hjs, p2,
                getElem?_idx, hslots j hj]
              simp only [List.mem_range]
              by_cases hs : w.engine.sync = 0
              · by_cases hlt : j < n
                · have : j < n + 1 := by omega
                  simp [hlt, this]
                · have : ¬ j < n + 1 := by omega
                  simp [hlt, this, hs]
              · simp only [hs, if_false] at hss
                have hj1 : j ≠ n + 1 := by omega
                by_cases hlt : j < n
                · have : j < n + 1 := by omega
                  simp [hlt, this]
                · have : ¬ j < n + 1 := by omega
                  simp [hlt, this, hj1]
      · rw [hff.2.2, p1, hin1, p3, hpf.2.2.1, hready]
        by_cases hz : n = 0
        · subst hz
          simp
        · have h2 : (n : Int) + 1 - 1 ≠ 0 := by omega
          simp [hz, h2]
      · rw [h2, p4, hpf.2.2.2.2.1]
      · rw [h4, p5]
      · rw [h5, p8, hpf.2.2.2.2.2.2]
  · left
    simp only [hres, if_false, Option.some.injEq, Prod.mk.injEq] at h
    exact ⟨by omega, h.2.symm⟩

/-! ## A read on any well-formed table -/

theorem is_empty_loop_free : ∀ (n i : Nat) (slots : List Int),
    (∀ j, i ≤ j → j < i + n → ∃ v, v ≠ 1 ∧ slots[j]? = some v) →
    is_empty_loop n i slots = some 1 := by
  intro n
  induction n with
  | zero =>
    intro i slots _
    rfl
  | succ n ih =>
    intro i slots h
    unfold is_empty_loop
    obtain ⟨v, hv, hs⟩ := h i (le_refl i) (by omega)
    simp only [hs, hv, if_false]
    exact ih (i + 1) slots (fun j a b => h j (by omega) (by omega))

theorem is_empty_loop_zero : ∀ (n i : Nat) (slots : List Int),
    (∀ (j : Nat) (v : Int), slots[j]? = some v → v ≠ 1) →
    is_empty_loop n i slots = some 1 ∨ is_empty_loop n i slots = none := by
  intro n
  induction n with
  | zero =>
    intro i slots _
    exact Or.inl rfl
  | succ n ih =>
    intro i slots h
    unfold is_empty_loop
    cases hv : slots[i]? with
    | none => exact Or.inr rfl
    | some v =>
      have hne := h i v hv
      simp only [hne, if_false]
      exact ih (i + 1) slots h

theorem slots_is_empty (C L : Nat) (S : List Nat) (e : io_engine) (ht : Slots C L S e) :
    (S ≠ [] → is_empty e = some 0) ∧ (S = [] → is_empty e = some 1 ∨ is_empty e = none) := by
  obtain ⟨hch, hls, -, -, -, hC1, hCL, -, -, -, -, hmem, hpt⟩ := ht
  unfold is_empty
  constructor
  · intro hS
    obtain ⟨s, hs⟩ := List.exists_mem_of_ne_nil S hS
    have hsC := hmem s hs
    exact is_empty_loop_occupied _ 0 s _ (Nat.zero_le s) (by have := hch.2.1; omega)
      (by rw [hpt s (by omega)]; simp [hs])
  · intro hS
    apply is_empty_loop_zero
    intro j v hv
    have hj := getElem?_some_lt _ _ _ hv
    rw [hpt j (by omega), hS] at hv
    simp only [List.not_mem_nil, if_false, Option.some.injEq] at hv
    omega

theorem read_slot_gate_ok (w : World) (k : Kernel)
    (hemp : w.engine.ready = 0 → is_empty w.engine = some 0)
    (hok : w.engine.ready = 0 → 0 ≤ (process w k).2) :
    ∃ w1, read_slot_gate w k = some (w1, none) ∧
      (w.engine.ready = 0 → w1.engine.ready = 1 ∧ w1.heap = (process w k).1.heap ∧
        w1.engine.events = (process w k).1.engine.events) ∧
      (w.engine.ready ≠ 0 → w1 = w) ∧
      w1.engine.slots = w.engine.slots ∧ w1.engine.in_use = w.engine.in_use ∧
      w1.engine.data = w.engine.data ∧ w1.engine.channels = w.engine.channels ∧
      w1.engine.sync = w.engine.sync ∧ w1.engine.iocbs = w.engine.iocbs ∧
      w1.engine.events.length = w.engine.events.length ∧
      w1.engine.block_size = w.engine.block_size := by
  unfold read_slot_gate
  by_cases hr : w.engine.ready = 0
  · simp only [hr, if_true, hemp hr]
    have hp := process_fields w k
    have hres : ¬ (process w k).2 < 0 := by
      have := hok hr
      omega
    refine ⟨{ (process w k).1 with engine := { (process w k).1.engine with ready := 1 } },
      by simp [hres], fun _ => ⟨rfl, rfl, rfl⟩, fun hc => absurd rfl hc, hp.2.1, hp.1,
      hp.2.2.2.1, hp.2.2.2.2.2.1, hp.2.2.2.2.2.2.1, hp.2.2.2.2.1, hp.2.2.2.2.2.2.2.2,
      hp.2.2.2.2.2.2.2.1⟩
  · refine ⟨w, by simp [hr], fun hc => absurd hc hr, fun _ => rfl, rfl, rfl, rfl, rfl, rfl,
      rfl, rfl, rfl⟩

theorem release_slots (C L : Nat) (S : List Nat) (e e2 : io_engine) (data : List Ptr)
    (s : Nat) (ht : Slots C L S e) (hready : e.ready = 1) (hs : s ∈ S)
    (hdata : data.length = L)
    (he2 : release_and_clear { e with data := data } (s : Int) = some e2) :
    Slots C L (S.erase s) e2 ∧ e2.ready = (if (S.erase s).length = 0 then 0 else 1) ∧
      e2.in_use = e.in_use - 1 ∧ e2.data = data ∧ e2.events = e.events ∧
      e2.iocbs = e.iocbs ∧ e2.block_size = e.block_size := by
  obtain ⟨hch, hls, hld, hle, hlc, hC1, hCL, hsy, hsyL, hin, hnd, hmem, hpt⟩ := ht
  have hsC : s < C := hmem s hs
  obtain ⟨hsl2, hin2, hrd2, hda2, hch2, hsy2, hcb2, hev2, hbs2⟩ :=
    release_and_clear_spec _ e2 s he2
  simp only at hsl2 hin2 hrd2 hda2 hch2 hsy2 hcb2 hev2 hbs2
  have hlen1 : (S.erase s).length = S.length - 1 := List.length_erase_of_mem hs
  have hpos : 1 ≤ S.length := List.length_pos_of_mem hs
  have hslots : e2.slots = e.slots.set s 0 := by
    unfold upd at hsl2
    have hlt : (s : Int).toNat < e.slots.length := by
      simp only [Int.toNat_ofNat]
      omega
    rw [if_pos ⟨by omega, hlt⟩] at hsl2
    simpa using hsl2.symm
  refine ⟨⟨by rw [hch2, hsy2]; exact hch, ?_, by rw [hda2, hdata], by rw [hev2, hle],
      by rw [hcb2, hlc],
      hC1, hCL, by rw [hsy2]; exact hsy, by rw [hsy2]; exact hsyL, ?_,
      hnd.erase s, fun j hj => hmem j (List.mem_of_mem_erase hj), ?_⟩, ?_, hin2, hda2, hev2,
      hcb2, hbs2⟩
  · rw [hslots, List.length_set]
    exact hls
  · rw [hin2, hin, hlen1]
    omega
  · intro j hj
    rw [hslots]
    by_cases hjs : j = s
    · subst hjs
      have : j ∉ S.erase j := fun hc => (hnd.mem_erase_iff.mp hc).1 rfl
      simp [hls, hj, this]
    · rw [List.getElem?_set_ne (Ne.symm hjs), hpt j hj]
      by_cases hjS : j ∈ S
      · have : j ∈ S.erase s := hnd.mem_erase_iff.mpr ⟨hjs, hjS⟩
        simp [hjS, this]
      · have : j ∉ S.erase s := fun hc => hjS (List.mem_of_mem_erase hc)
        simp [hjS, this]
  · rw [hrd2, hin, hready, hlen1]
    by_cases hz : S.length - 1 = 0
    · have : (S.length : Int) - 1 = 0 := by omega
      simp [hz, this]
    · have : ¬ (S.length : Int) - 1 = 0 := by omega
      simp [hz, this]

theorem slots_transfer (C L : Nat) (S : List Nat) (e e' : io_engine) (ht : Slots C L S e)
    (h1 : e'.channels = e.channels) (h2 : e'.slots = e.slots)
    (h3 : e'.data.length = e.data.length) (h4 : e'.events.length = e.events.length)
    (h5 : e'.iocbs.length = e.iocbs.length) (h6 : e'.sync = e.sync)
    (h7 : e'.in_use = e.in_use) : Slots C L S e' := by
  obtain ⟨hch, hls, hld, hle, hlc, hC1, hCL, hsy, hsyL, hin, hnd, hmem, hpt⟩ := ht
  exact ⟨by rw [h1, h6]; exact hch, by rw [h2, hls], by rw [h3, hld], by rw [h4, hle],
    by rw [h5, hlc],
    hC1, hCL, by rw [h6]; exact hsy, by rw [h6]; exact hsyL, by rw [h7, hin], hnd, hmem,
    by rw [h2]; exact hpt⟩

theorem read_slot_on_empty (w w' : World) (k : Kernel) (slot r : Int) (o : Option (Ptr × Nat))
    (hr0 : w.engine.ready = 0) (hemp : is_empty w.engine = some 1 ∨ is_empty w.engine = none)
    (h : daio_read_slot w k slot = some (w', r, o)) : w' = w ∧ r = -1 := by
  rcases hemp with he | he
  · have hg : read_slot_gate w k = some (w, none) := by
      simp [read_slot_gate, hr0, he]
    unfold daio_read_slot at h
    simp only [hg, hr0, ne_eq, zero_ne_one, not_false_eq_true, if_true, Option.some.injEq,
      Prod.mk.injEq] at h
    exact ⟨h.1.symm, h.2.1.symm⟩
  · have hg : read_slot_gate w k = none := by
      simp [read_slot_gate, hr0, he]
    unfold daio_read_slot at h
    simp [hg] at h

theorem read_slot_any (C L : Nat) (S : List Nat) (w w' : World) (k : Kernel) (s : Nat)
    (r : Int) (o : Option (Ptr × Nat)) (ht : Slots C L S w.engine)
    (hrd : w.engine.ready = 0 ∨ (w.engine.ready = 1 ∧ S ≠ [])) (hs : s < L)
    (hok : w.engine.ready = 0 → S ≠ [] → 0 ≤ (process w k).2)
    (h : daio_read_slot w k (s : Int) = some (w', r, o)) :
    (S = [] ∧ w' = w ∧ r = -1) ∨
    (S ≠ [] ∧ s ∉ S ∧ Slots C L S w'.engine ∧ w'.engine.ready = 1 ∧ r = -1) ∨
    (s ∈ S ∧ Slots C L (S.erase s) w'.engine ∧
      w'.engine.ready = (if (S.erase s).length = 0 then 0 else 1) ∧
      w'.engine.in_use = w.engine.in_use - 1) := by
  have hemp0 := slots_is_empty C L S w.engine ht
  by_cases hS : S = []
  · left
    have hr0 : w.engine.ready = 0 := by
      rcases hrd with h0 | ⟨-, h1⟩
      · exact h0
      · exact absurd hS h1
    have hres := read_slot_on_empty w w' k _ r o hr0 (hemp0.2 hS) h
    exact ⟨hS, hres.1, hres.2⟩
  · right
    replace hemp0 := hemp0.1 hS
    obtain ⟨w1, hg, hr1, hr2, hsl1, hin1, hda1, hch1, hsy1, hcb1, hev1, hbs1⟩ :=
      read_slot_gate_ok w k (fun _ => hemp0) (fun h0 => hok h0 hS)
    have hready1 : w1.engine.ready = 1 := by
      rcases hrd with h0 | ⟨h1, -⟩
      · exact (hr1 h0).1
      · have : w1 = w := hr2 (by rw [h1]; decide)
        rw [this]
        exact h1
    have hg1 : read_slot_gate w1 k = some (w1, none) := by
      simp [read_slot_gate, hready1]
    have hsame : daio_read_slot w k (s : Int) = daio_read_slot w1 k (s : Int) := by
      unfold daio_read_slot
      simp only [hg, hg1]
    rw [hsame] at h
    have ht1 : Slots C L S w1.engine :=
      slots_transfer C L S w.engine w1.engine ht hch1 hsl1 (by rw [hda1]) hev1 (by rw [hcb1])
        hsy1 hin1
    obtain ⟨-, hls, hld, hle, -, -, -, -, -, -, -, -, hpt⟩ := ht1
    by_cases hsS : s ∈ S
    · right
      have hocc : idx w1.engine.slots (s : Int) = some 1 := by
        rw [getElem?_idx, hpt s hs]
        simp [hsS]
      have hd := idx_of_lt w1.engine.data s (by omega)
      have hc := idx_of_lt w1.engine.events s (by omega)
      obtain ⟨data, e2, hdata, he2, hres⟩ :=
        read_slot_ready_eval w1 k s _ _ hg1 hready1 hocc hd hc
      have hw' : w'.engine = e2 := by
        rcases hres with ⟨hp, hx⟩ | ⟨hp, hx⟩
        · rw [hx] at h
          simp only [Option.some.injEq, Prod.mk.injEq] at h
          rw [← h.1]
        · rw [hx] at h
          simp only [Option.some.injEq, Prod.mk.injEq] at h
          rw [← h.1]
      have hrel := release_slots C L S w1.engine e2 data s
        (slots_transfer C L S w.engine w1.engine ht hch1 hsl1 (by rw [hda1]) hev1
          (by rw [hcb1]) hsy1 hin1) hready1 hsS
        (by rw [upd_length _ _ _ _ hdata]; exact hld) he2
      rw [hw']
      exact ⟨hsS, hrel.1, hrel.2.1, by rw [hrel.2.2.1, hin1]⟩
    · left
      have hfree : idx w1.engine.slots (s : Int) = some 0 := by
        rw [getElem?_idx, hpt s hs]
        simp [hsS]
      unfold daio_read_slot at h
      simp only [hg1, hready1, ne_eq, not_true_eq_false, if_false, hfree, zero_ne_one,
        Option.some.injEq, Prod.mk.injEq] at h
      rw [← h.1]
      exact ⟨hS, hsS,
        slots_transfer C L S w.engine w1.engine ht hch1 hsl1 (by rw [hda1]) hev1
          (by rw [hcb1]) hsy1 hin1, hready1, h.2.1.symm⟩

theorem good_step (C L : Nat) (w w' : World) (c : Call) (hg : Good C L w.engine)
    (hr : c.in_range w) (hok : ¬ c.batch_failed w) (hrun : c.run w = some w') :
    Good C L w'.engine := by
  obtain ⟨S, ht, hcase⟩ := hg
  cases c with
  | submit_read fd page =>
    simp only [Call.run, Option.map_eq_some', Prod.exists, exists_and_right, exists_eq_right]
      at hrun
    obtain ⟨r, o, hrun⟩ := hrun
    rcases hcase with ⟨hr0, hS⟩ | ⟨hr1, hS⟩
    · generalize hn : S.length = n at hS
      subst hS
      have hle := slots_range_le C L n w.engine ht
      by_cases hlt : n < C
      · obtain ⟨w2, h2, ht2, hr2, -⟩ := submit_read_step C L n w fd page ht hr0 hlt
        rw [hrun] at h2
        simp only [Option.some.injEq, Prod.mk.injEq] at h2
        rw [h2.1]
        exact ⟨List.range (n + 1), ht2, Or.inl ⟨hr2, by simp⟩⟩
      · have : n = C := by omega
        subst this
        rw [submit_read_full n L w fd page ht hr0] at hrun
        simp only [Option.some.injEq, Prod.mk.injEq] at hrun
        rw [← hrun.1]
        exact ⟨List.range n, ht, Or.inl ⟨hr0, by simp⟩⟩
    · have : daio_submit_read w fd page = some (w, -1, none) := by
        simp [daio_submit_read, hr1]
      rw [this] at hrun
      simp only [Option.some.injEq, Prod.mk.injEq] at hrun
      rw [← hrun.1]
      exact ⟨S, ht, Or.inr ⟨hr1, hS⟩⟩
  | read_slot k slot =>
    simp only [Call.run, Option.map_eq_some', Prod.exists, exists_and_right, exists_eq_right]
      at hrun
    obtain ⟨r, o, hrun⟩ := hrun
    simp only [Call.in_range] at hr
    have hls : w.engine.slots.length = L := ht.2.1
    have hslot : slot = ((slot.toNat : Nat) : Int) := by omega
    rw [hslot] at hrun
    have hemp := slots_is_empty C L S w.engine ht
    have hok2 : w.engine.ready = 0 → S ≠ [] → 0 ≤ (process w k).2 := by
      intro h0 hS
      replace hemp := hemp.1 hS
      unfold Call.batch_failed Call.process_state at hok
      simp only [h0, hemp, and_self, if_true, not_lt] at hok
      exact hok
    have hrd : w.engine.ready = 0 ∨ (w.engine.ready = 1 ∧ S ≠ []) := by
      rcases hcase with ⟨h0, -⟩ | h1
      · exact Or.inl h0
      · exact Or.inr h1
    rcases read_slot_any C L S w w' k slot.toNat r o ht hrd (by omega) hok2 hrun with
      ⟨-, hw, -⟩ | ⟨hS, -, ht2, hr2, -⟩ | ⟨-, ht2, hr2, -⟩
    · rw [hw]
      exact ⟨S, ht, hcase⟩
    · exact ⟨S, ht2, Or.inr ⟨hr2, hS⟩⟩
    · refine ⟨S.erase slot.toNat, ht2, ?_⟩
      by_cases hz : (S.erase slot.toNat).length = 0
      · left
        simp only [hz, if_true] at hr2
        have : S.erase slot.toNat = [] := List.length_eq_zero.mp hz
        exact ⟨hr2, by rw [this]; rfl⟩
      · right
        simp only [hz, if_false] at hr2
        exact ⟨hr2, fun hc => hz (by rw [hc]; rfl)⟩
  | submit_write k fd buffer count page =>
    simp only [Call.run, Option.map_eq_some', Prod.exists, exists_and_right, exists_eq_right]
      at hrun
    obtain ⟨r, hrun⟩ := hrun
    rcases hcase with ⟨hr0, hS⟩ | ⟨hr1, hS⟩
    · generalize hn : S.length = n at hS
      subst hS
      have hle := slots_range_le C L n w.engine ht
      by_cases hlt : n < C
      · obtain ⟨e1, ss, hp, -, -, -, hres⟩ :=
          submit_write_on_queue C L n w w' k fd buffer count page r ht hr0 hlt hrun
        have hnr : ¬ w.engine.ready = 1 := by rw [hr0]; decide
        have hnn : ¬ ((n : Int) = -1) := by omega
        unfold Call.batch_failed Call.process_state at hok
        simp only [hnr, if_false, hp, ne_eq, hnn, not_false_eq_true, if_true, not_lt] at hok
        rcases hres with ⟨hf, -⟩ | ⟨-, -, ht2, hr2, -⟩
        · omega
        · refine ⟨List.range n, ht2, ?_⟩
          by_cases hz : n = 0
          · left
            simp only [hz, if_true] at hr2
            exact ⟨hr2, by simp⟩
          · right
            simp only [hz, if_false] at hr2
            exact ⟨hr2, by simpa using hz⟩
      · have : n = C := by omega
        subst this
        have hp := prepare_full n L w.engine fd buffer count page ht
        have hnr : ¬ w.engine.ready = 1 := by rw [hr0]; decide
        unfold daio_submit_write at hrun
        simp only [hnr, if_false, hp, ne_eq, not_true_eq_false, Option.some.injEq,
          Prod.mk.injEq] at hrun
        rw [← hrun.1]
        exact ⟨List.range n, ht, Or.inl ⟨hr0, by simp⟩⟩
    · have : daio_submit_write w k fd buffer count page = some (w, -1) := by
        simp [daio_submit_write, hr1]
      rw [this] at hrun
      simp only [Option.some.injEq, Prod.mk.injEq] at hrun
      rw [← hrun.1]
      exact ⟨S, ht, Or.inr ⟨hr1, hS⟩⟩

theorem acquire_slot_idle (e e1 : io_engine) (sl : Int) (hi : Idle e)
    (h : acquire_slot e 0 = some (e1, sl)) : e1 = e ∧ sl = -1 := by
  obtain ⟨-, -, hscan⟩ := hi
  have hf := acquire_slot_fields e e1 0 sl h
  have hloop := hf.1
  have hres : e1.slots = e.slots ∧ sl = -1 := by
    rcases hscan with hz | hnil
    · have hn : (to_int (e.channels + 0)).toNat = 0 := by
        rw [add_zero]
        omega
      rw [hn] at hloop
      simp only [acquire_loop, Option.some.injEq, Prod.mk.injEq] at hloop
      exact ⟨hloop.1.symm, hloop.2.symm⟩
    · rw [hnil] at hloop
      cases hn : (to_int (e.channels + 0)).toNat with
      | zero =>
        rw [hn] at hloop
        simp only [acquire_loop, Option.some.injEq, Prod.mk.injEq] at hloop
        exact ⟨by rw [hnil]; exact hloop.1.symm, hloop.2.symm⟩
      | succ m =>
        rw [hn] at hloop
        simp [acquire_loop] at hloop
  obtain ⟨hsl, hm⟩ := hres
  subst hm
  simp only [ne_eq, not_true_eq_false, false_and, if_false] at hf
  obtain ⟨-, hin, hbs, hch, hsy, hcb, hev, hrd, hda⟩ := hf
  refine ⟨?_, rfl⟩
  obtain ⟨a1, a2, a3, a4, a5, a6, a7, a8, a9⟩ := e1
  obtain ⟨b1, b2, b3, b4, b5, b6, b7, b8, b9⟩ := e
  simp only at hsl hin hbs hch hsy hcb hev hrd hda
  subst hsl hin hbs hch hsy hcb hev hrd hda
  rfl

theorem idle_step (w w' : World) (c : Call) (hi : Idle w.engine) (hrun : c.run w = some w') :
    w'.engine = w.engine := by
  cases c with
  | submit_read fd page =>
    simp only [Call.run, Option.map_eq_some', Prod.exists, exists_and_right, exists_eq_right]
      at hrun
    obtain ⟨r, o, hrun⟩ := hrun
    unfold daio_submit_read at hrun
    simp only [hi.1, if_true] at hrun
    cases ha : acquire_slot w.engine 0 with
    | none => simp [ha] at hrun
    | some res =>
      obtain ⟨e1, sl⟩ := res
      obtain ⟨he, hsl⟩ := acquire_slot_idle w.engine e1 sl hi ha
      subst hsl
      simp only [ha, ne_eq, not_true_eq_false, if_false, Option.some.injEq, Prod.mk.injEq]
        at hrun
      rw [← hrun.1]
      exact he
  | read_slot k slot =>
    simp only [Call.run, Option.map_eq_some', Prod.exists, exists_and_right, exists_eq_right]
      at hrun
    obtain ⟨r, o, hrun⟩ := hrun
    have hemp : is_empty w.engine = some 1 ∨ is_empty w.engine = none := by
      unfold is_empty
      apply is_empty_loop_zero
      intro j v hv
      have := hi.2.1 j v hv
      omega
    rw [(read_slot_on_empty w w' k slot r o hi.1 hemp hrun).1]
  | submit_write k fd buffer count page =>
    simp only [Call.run, Option.map_eq_some', Prod.exists, exists_and_right, exists_eq_right]
      at hrun
    obtain ⟨r, hrun⟩ := hrun
    have hnr : ¬ w.engine.ready = 1 := by rw [hi.1]; decide
    unfold daio_submit_write at hrun
    simp only [hnr, if_false] at hrun
    cases hp : submit_write_prepare w.engine fd buffer count page with
    | none => simp [hp] at hrun
    | some res =>
      obtain ⟨e1, ws, ss⟩ := res
      obtain ⟨ea, ha⟩ := submit_write_prepare_acquire _ _ _ _ _ _ _ _ hp
      obtain ⟨he, hws⟩ := acquire_slot_idle w.engine ea ws hi ha
      subst hws
      have he1 : e1 = w.engine := by
        unfold submit_write_prepare at hp
        simp only [ha, ne_eq, not_true_eq_false, if_false, Option.some.injEq, Prod.mk.injEq]
          at hp
        rw [← hp.1]
        exact he
      simp only [hp, ne_eq, not_true_eq_false, if_false, Option.some.injEq, Prod.mk.injEq]
        at hrun
      rw [← hrun.1]
      exact he1

theorem reachable_good (C L : Nat) (w0 w : World) (h0 : Good C L w0.engine)
    (h : ReachableBatchOk w0 w) : Good C L w.engine := by
  induction h with
  | start => exact h0
  | step w1 w2 c _ hr hok hrun ih => exact good_step C L w1 w2 c ih hr hok hrun

theorem reachable_idle (w0 w : World) (h0 : Idle w0.engine) (h : ReachableBatchOk w0 w) :
    w.engine = w0.engine := by
  induction h with
  | start => rfl
  | step w1 w2 c _ _ _ hrun ih =>
    rw [← ih]
    exact idle_step w1 w2 c (by rw [ih]; exact h0) hrun

/-! ## Runs without a failed batch step -/

theorem take_after_set {α : Type} (cb : List α) (n m : Nat) (W : α) (h : n ≤ m) :
    (cb.set m W).take n = cb.take n := by
  apply List.ext_getElem?
  intro i
  rw [List.getElem?_take, List.getElem?_take]
  split
  · rw [List.getElem?_set_ne (by omega)]
  · rfl

theorem take_written {α : Type} (cb : List α) (n : Nat) (W : α) (h : n < cb.length) :
    (cb.set n W).take (n + 1) = cb.take n ++ [W] := by
  rw [List.take_succ, take_after_set cb n n W (le_refl n)]
  simp [h]

theorem initialize_good (os : InitOS) (heap : Heap) (bs : Nat) (chns sc : Int) (w0 : World)
    (h : daio_initialize os heap bs chns sc = (0, some w0)) :
    (∃ C L : Nat, Good C L w0.engine) ∨ Idle w0.engine := by
  rcases initialize_slots_or_idle os heap bs chns sc w0 h with ⟨C, L, ht, hr⟩ | hi
  · exact Or.inl ⟨C, L, [], ht, Or.inl ⟨hr, rfl⟩⟩
  · exact Or.inr hi

theorem good_ready_values (C L : Nat) (e : io_engine) (hg : Good C L e) :
    e.ready = 0 ∨ e.ready = 1 := by
  obtain ⟨S, -, h | h⟩ := hg
  · exact Or.inl h.1
  · exact Or.inr h.1

/-- C16. In a state reached from a successful `daio_initialize` by public calls with
in-range slot arguments, none of whose batch steps failed, a set ready flag comes with
`in_use ≥ 1` and a marked normal slot; a `daio_read_slot` on that slot, whatever the
operating system then does, returns and lowers `in_use` by one. -/
theorem ready_implies_occupied (os : InitOS) (heap : Heap) (bs : Nat) (chns sc : Int)
    (w0 w : World) (hinit : daio_initialize os heap bs chns sc = (0, some w0))
    (hreach : ReachableBatchOk w0 w) (hready : w.engine.ready ≠ 0) :
    1 ≤ w.engine.in_use ∧
    ∃ j : Nat, (j : Int) < w.engine.channels ∧ w.engine.slots[j]? = some 1 ∧
      ∀ k : Kernel, ∃ w' r o, daio_read_slot w k (j : Int) = some (w', r, o) ∧
        w'.engine.in_use = w.engine.in_use - 1 := by
  rcases initialize_good os heap bs chns sc w0 hinit with ⟨C, L, hg0⟩ | hi
  · obtain ⟨S, ht, hcase⟩ := reachable_good C L w0 w hg0 hreach
    rcases hcase with ⟨h0, -⟩ | ⟨hr1, hS⟩
    · exact absurd h0 hready
    · obtain ⟨s, hs⟩ := List.exists_mem_of_ne_nil S hS
      obtain ⟨hch, hls, hld, hle, hlc, hC1, hCL, hsy, hsyL, hin, hnd, hmem, hpt⟩ := ht
      have hsC : s < C := hmem s hs
      have hpos : 1 ≤ S.length := List.length_pos_of_mem hs
      have hocc : w.engine.slots[s]? = some 1 := by
        rw [hpt s (by omega)]
        simp [hs]
      refine ⟨by rw [hin]; omega, s, by have := hch.2.1; omega, hocc, ?_⟩
      intro k
      have hg : read_slot_gate w k = some (w, none) := by
        simp [read_slot_gate, hr1]
      have hd := idx_of_lt w.engine.data s (by omega)
      have hc := idx_of_lt w.engine.events s (by omega)
      obtain ⟨data, e2, -, he2, hres⟩ :=
        read_slot_ready_eval w k s _ _ hg hr1 (by rw [getElem?_idx]; exact hocc) hd hc
      have hin2 := (release_and_clear_spec _ e2 s he2).2.1
      simp only at hin2
      rcases hres with ⟨hp, hx⟩ | ⟨hp, hx⟩
      · exact ⟨_, _, _, hx, hin2⟩
      · exact ⟨_, _, _, hx, hin2⟩
  · have he := reachable_idle w0 w hi hreach
    rw [he] at hready
    exact absurd hi.1 hready

theorem write_batch_eq (e1 : io_engine) (cb : List iocb) (n : Nat) (sy : Int) (W Y : iocb)
    (hin1 : e1.in_use = (n : Int) + 1)
    (hcb : e1.iocbs = (if sy = 0 then cb.set n W else (cb.set n W).set (n + 1) Y))
    (hnl : n < cb.length) :
    io_batch e1.in_use e1.iocbs = cb.take n ++ [W] := by
  unfold io_batch
  rw [hin1, hcb]
  have : ((n : Int) + 1).toNat = n + 1 := by omega
  rw [this]
  by_cases hs : sy = 0
  · simp only [hs, if_true]
    exact take_written _ n _ hnl
  · simp only [hs, if_false]
    rw [take_after_set _ (n + 1) (n + 1) _ (le_refl _)]
    exact take_written _ n _ hnl

theorem heap_read_head (h : Heap) (p : Ptr) (x : List Nat) : Heap.read ((p, x) :: h) p = x := by
  simp [Heap.read, List.lookup]

theorem heap_read_other (h : Heap) (p q : Ptr) (x : List Nat) (hpq : p ≠ q) :
    Heap.read ((q, x) :: h) p = Heap.read h p := by
  have : (p == q) = false := by simpa using hpq
  simp [Heap.read, List.lookup, this]

theorem file_read_written (f : File) (off : Int) (V m : Nat) : ∀ (n i : Nat), i + n ≤ m →
    File.read (f.write off (List.replicate m V)) (off + (i : Int)) n = List.replicate n V := by
  intro n
  induction n with
  | zero =>
    intro i _
    rfl
  | succ n ih =>
    intro i hi
    unfold File.read
    have hin : off ≤ off + (i : Int) ∧
        off + (i : Int) < off + ((List.replicate m V).length : Int) := by
      simp only [List.length_replicate]
      omega
    have hget : (f.write off (List.replicate m V)) (off + (i : Int)) = some V := by
      unfold File.write
      simp only [hin, and_self, if_true]
      have : (off + (i : Int) - off).toNat = i := by omega
      rw [this, List.getElem?_eq_getElem (by simp only [List.length_replicate]; omega)]
      simp
    simp only [hget]
    have hnext : off + (i : Int) + 1 = off + ((i + 1 : Nat) : Int) := by
      push_cast
      ring
    rw [hnext, ih (i + 1) (by omega), List.replicate_succ]

theorem process_disk (w : World) (p : Ptr) (hin : 0 ≤ w.engine.in_use) :
    (process w (Kernel.disk p)).2 = 0 ∧
    (process w (Kernel.disk p)).1.heap
      = (run_batch w.file w.heap (io_batch w.engine.in_use w.engine.iocbs)).2.1 ∧
    (process w (Kernel.disk p)).1.engine.events
      = store_events (run_batch w.file w.heap (io_batch w.engine.in_use w.engine.iocbs)).2.2
          w.engine.events ∧
    (process w (Kernel.disk p)).1.file
      = (run_batch w.file w.heap (io_batch w.engine.in_use w.engine.iocbs)).1 := by
  have h1 : ¬ w.engine.in_use < 0 := by omega
  simp [process, Kernel.disk, h1]

theorem take_one_of_idx {α : Type} (xs : List α) (a : α) (h : idx xs 0 = some a) :
    xs.take 1 = [a] := by
  cases xs with
  | nil => simp [idx] at h
  | cons x rest =>
    simp only [idx, lt_self_iff_false, if_false, Int.toNat_zero, List.getElem?_cons_zero,
      Option.some.injEq] at h
    simp [h]

theorem submit_read_frame (w w' : World) (fd page r : Int) (o : Option Int)
    (h : daio_submit_read w fd page = some (w', r, o)) :
    w'.heap = w.heap ∧ w'.engine.data = w.engine.data ∧
    w'.engine.events = w.engine.events ∧ w'.engine.block_size = w.engine.block_size := by
  unfold daio_submit_read at h
  simp only at h
  cases ha : (if w.engine.ready = 0 then acquire_slot w.engine 0
      else some (w.engine, -1)) with
  | none => simp [ha] at h
  | some r1 =>
    obtain ⟨e1, x⟩ := r1
    simp only [ha] at h
    have hf : e1.data = w.engine.data ∧ e1.events = w.engine.events ∧
        e1.block_size = w.engine.block_size := by
      by_cases hr : w.engine.ready = 0
      · simp only [hr, if_true] at ha
        have := acquire_slot_fields _ _ _ _ ha
        exact ⟨this.2.2.2.2.2.2.2.2, this.2.2.2.2.2.2.1, this.2.2.1⟩
      · simp only [hr, if_false, Option.some.injEq, Prod.mk.injEq] at ha
        rw [← ha.1]
        exact ⟨rfl, rfl, rfl⟩
    by_cases hx : x ≠ -1
    · simp only [hx, ne_eq, not_false_eq_true, if_true] at h
      cases hd : idx e1.data x with
      | none => simp [hd] at h
      | some d =>
        simp only [hd] at h
        cases hu : upd e1.iocbs x
            (io_prep_pread fd d e1.block_size (page_offset page e1.block_size)) with
        | none => simp [hu] at h
        | some cbs =>
          simp only [hu, Option.some.injEq, Prod.mk.injEq] at h
          obtain ⟨hw, -, -⟩ := h
          subst hw
          exact ⟨rfl, hf.1, hf.2.1, hf.2.2⟩
    · simp only [hx, if_false, Option.some.injEq, Prod.mk.injEq] at h
      obtain ⟨hw, -, -⟩ := h
      subst hw
      exact ⟨rfl, hf.1, hf.2.1, hf.2.2⟩

theorem read_slot_ready_success (w : World) (k : Kernel) (slot : Int) (d : Ptr) (c : Nat)
    (hready : w.engine.ready = 1) (hocc : idx w.engine.slots slot = some 1)
    (hd : idx w.engine.data slot = some d) (hdn : d ≠ 0)
    (hc : idx w.engine.events slot = some c)
    (hres : (k.posix_memalign d w.engine.block_size).1 = 0)
    (hptr : (k.posix_memalign d w.engine.block_size).2 ≠ 0) :
    ∃ e2, daio_read_slot w k slot = some (World.mk e2
      (memset w.heap (k.posix_memalign d w.engine.block_size).2 0 w.engine.block_size)
      w.file w.submitted, 0, some (d, c)) := by
  obtain ⟨data, hdata⟩ := upd_of_idx w.engine.data slot d
    (k.posix_memalign d w.engine.block_size).2 hd
  obtain ⟨e2, he2⟩ := release_and_clear_total { w.engine with data := data } slot 1 hocc
  simp only [hready] at he2
  have hgate : read_slot_gate w k = some (w, none) := by
    simp [read_slot_gate, hready]
  have hcond : ¬ ((k.posix_memalign d w.engine.block_size).1 < 0 ∨
      (k.posix_memalign d w.engine.block_size).2 = 0) := by
    rw [hres]
    simp [hptr]
  refine ⟨e2, ?_⟩
  unfold daio_read_slot
  simp only [hgate, hready, ne_eq, not_true_eq_false, if_false, hocc, if_true, hd, hc, hdata,
    hcond, he2, hdn, not_false_eq_true]

theorem store_events_head (a : Nat) (rest old : List Nat) (h : 0 < old.length) :
    idx (store_events (a :: rest) old) 0 = some a := by
  cases old with
  | nil => simp at h
  | cons x xs => simp [store_events, idx]

/-- C13. With the target file a map from byte offsets to bytes and the kernel running each
submitted batch against it: on an engine with no slot marked and the ready flag clear,
`daio_submit_write` of a `block_size` buffer filled with the byte `V` to page `P` returns
0 and leaves the file holding those bytes at the offset of page `P`; the following
`daio_submit_read` of page `P` returns 0 with slot 0; and `daio_read_slot` on slot 0, its
batch run against the file the write left, returns 0, the count `block_size`, and the
slot's buffer, which then holds `block_size` bytes all equal to `V`. -/
theorem write_then_read_round_trip (C L : Nat) (w : World) (fd : Int)
    (buffer : Ptr) (V : Nat) (P : Int) (p1 p2 d0 : Ptr)
    (ht : Table C L [] w.engine) (hready : w.engine.ready = 0)
    (hbuf : Heap.read w.heap buffer = List.replicate w.engine.block_size V)
    (hd0 : idx w.engine.data 0 = some d0) (hdn : d0 ≠ 0)
    (hlen : (Heap.read w.heap d0).length = w.engine.block_size)
    (hp2 : p2 ≠ 0) (hfresh : p2 ≠ d0) :
    ∃ w1 w2 w3,
      daio_submit_write w (Kernel.disk p1) fd buffer w.engine.block_size P = some (w1, 0) ∧
      w1.file = w.file.write (page_offset P w.engine.block_size)
        (List.replicate w.engine.block_size V) ∧
      daio_submit_read w1 fd P = some (w2, 0, some 0) ∧
      daio_read_slot w2 (Kernel.disk p2) 0 = some (w3, 0, some (d0, w.engine.block_size)) ∧
      Heap.read w3.heap d0 = List.replicate w.engine.block_size V := by
  have ht0 : Slots C L (List.range 0) w.engine := table_slots C L [] w.engine ht
  obtain ⟨hch, hls, hld, hle, hlc, hC1, hCL, hsy, hsyL, hin, -, -, hpt⟩ :=
    table_slots C L [] w.engine ht
  -- the write
  obtain ⟨e1, ss, hp, -, hcb, -⟩ :=
    prepare_on_queue C L 0 w.engine fd buffer w.engine.block_size P ht0 (by omega)
  simp only [Nat.cast_zero] at hp
  have hnn : (0 : Int) ≠ -1 := by decide
  have hpf := submit_write_prepare_fields _ _ _ _ _ _ _ _ hp hnn
  have hin1 : e1.in_use = ((0 : Nat) : Int) + 1 := by
    rw [hpf.1, hin]
    simp
  have hbatch : io_batch e1.in_use e1.iocbs
      = [io_prep_pwrite fd buffer w.engine.block_size
          (page_offset P w.engine.block_size)] := by
    rw [write_batch_eq e1 w.engine.iocbs 0 w.engine.sync _ _ hin1 hcb (by omega)]
    simp
  have hrb : run_batch w.file w.heap (io_batch e1.in_use e1.iocbs)
      = (w.file.write (page_offset P w.engine.block_size)
          (List.replicate w.engine.block_size V), w.heap, [w.engine.block_size]) := by
    rw [hbatch]
    simp [run_batch, run_request, io_prep_pwrite, hbuf]
  have hpd := process_disk { w with engine := e1 } p1 (by simp only; rw [hin1]; simp)
  simp only at hpd
  obtain ⟨e1', ws', ss', hp', -, hacc⟩ := submit_write_accepted C L w (Kernel.disk p1) fd
    buffer w.engine.block_size P ht0 hready
  rw [hp] at hp'
  simp only [Option.some.injEq, Prod.mk.injEq] at hp'
  obtain ⟨he1, -, -⟩ := hp'
  subst he1
  obtain ⟨w1, hw1⟩ := hacc (by rw [hpd.1])
  obtain ⟨e1'', ss'', hp'', -, -, -, hres⟩ := submit_write_on_queue C L 0 w w1
    (Kernel.disk p1) fd buffer w.engine.block_size P 0 ht0 hready (by omega) hw1
  simp only [Nat.cast_zero] at hp''
  rw [hp] at hp''
  simp only [Option.some.injEq, Prod.mk.injEq] at hp''
  obtain ⟨he1, -⟩ := hp''
  subst he1
  rcases hres with ⟨hneg, -⟩ | ⟨-, -, ht1, hr1, hheap1, hdata1, -, -, hbs1, hfile1, -⟩
  · rw [hpd.1] at hneg
    exact absurd hneg (by decide)
  simp only [if_true] at hr1
  rw [hpd.2.1, hrb] at hheap1
  rw [hpd.2.2.2, hrb] at hfile1
  simp only at hheap1 hfile1
  -- the read request
  obtain ⟨w2, hw2, ht2, hr2, hheap2, hfile2, -, -⟩ :=
    submit_read_step C L 0 w1 fd P ht1 hr1 (by omega)
  simp only [Nat.cast_zero] at hw2
  obtain ⟨d, hd1, hd2, hcb2⟩ := submit_read_request w1 w2 fd P 0 hw2
  have hdd : d = d0 := by
    rw [hdata1, hd0] at hd1
    exact (Option.some.inj hd1).symm
  subst hdd
  obtain ⟨-, -, -, hbs2⟩ := submit_read_frame w1 w2 fd P 0 (some 0) hw2
  rw [hbs1] at hcb2
  -- the batch of the read
  have hempty : is_empty w2.engine = some 0 :=
    (slots_is_empty C L _ w2.engine ht2).1 (by simp)
  obtain ⟨hch2, hls2, hld2, hle2, hlc2, -, -, -, -, hin2, -, -, hpt2⟩ := ht2
  have hin2' : w2.engine.in_use = 1 := by
    rw [hin2]
    simp
  have hbatch2 : io_batch w2.engine.in_use w2.engine.iocbs
      = [io_prep_pread fd d w.engine.block_size (page_offset P w.engine.block_size)] := by
    unfold io_batch
    rw [hin2']
    exact take_one_of_idx _ _ hcb2
  have hfile : File.read
      (w.file.write (page_offset P w.engine.block_size)
        (List.replicate w.engine.block_size V))
      (page_offset P w.engine.block_size) w.engine.block_size
        = List.replicate w.engine.block_size V := by
    have := file_read_written w.file (page_offset P w.engine.block_size) V
      w.engine.block_size w.engine.block_size 0 (by omega)
    simpa using this
  have hold : (Heap.read w2.heap d).length = w.engine.block_size := by
    rw [hheap2, hheap1]
    exact hlen
  have hw2file : w2.file = w.file.write (page_offset P w.engine.block_size)
      (List.replicate w.engine.block_size V) := by
    rw [hfile2, hfile1]
  have hrb2 : run_batch w2.file w2.heap (io_batch w2.engine.in_use w2.engine.iocbs)
      = (w2.file, (d, List.replicate w.engine.block_size V) :: w2.heap,
          [w.engine.block_size]) := by
    rw [hbatch2]
    have hdrop : List.drop w.engine.block_size (Heap.read w2.heap d) = [] :=
      List.drop_eq_nil_of_le (by omega)
    have hfile' : File.read w2.file (page_offset P w.engine.block_size) w.engine.block_size
        = List.replicate w.engine.block_size V := by
      rw [hw2file]
      exact hfile
    simp [run_batch, run_request, io_prep_pread, hfile', hdrop]
  have hpd2 := process_disk w2 p2 (by rw [hin2']; decide)
  rw [hrb2] at hpd2
  simp only at hpd2
  obtain ⟨wg, hg, hrg, -, hslg, -, hdag, -, -, -, hevl, hbsg⟩ := read_slot_gate_ok w2
    (Kernel.disk p2) (fun _ => hempty) (fun _ => by rw [hpd2.1])
  obtain ⟨hreadyg, hheapg, hevg⟩ := hrg hr2
  have hg1 : read_slot_gate wg (Kernel.disk p2) = some (wg, none) := by
    simp [read_slot_gate, hreadyg]
  have hsame : daio_read_slot w2 (Kernel.disk p2) 0 = daio_read_slot wg (Kernel.disk p2) 0 := by
    unfold daio_read_slot
    simp only [hg, hg1]
  have hL : 0 < L := by omega
  have hocc : idx wg.engine.slots 0 = some 1 := by
    rw [hslg]
    have := hpt2 0 hL
    have h01 : (0 : Nat) ∈ List.range (0 + 1) := by simp
    rw [if_pos h01] at this
    have h0 := getElem?_idx w2.engine.slots 0
    simp only [Nat.cast_zero] at h0
    rw [h0]
    exact this
  have hdg : idx wg.engine.data 0 = some d := by
    rw [hdag]
    exact hd2
  have hcg : idx wg.engine.events 0 = some w.engine.block_size := by
    rw [hevg, hpd2.2.2.1]
    exact store_events_head _ _ _ (by omega)
  obtain ⟨e3, he3⟩ := read_slot_ready_success wg (Kernel.disk p2) 0 d w.engine.block_size
    hreadyg hocc hdg hdn hcg rfl hp2
  refine ⟨w1, w2, World.mk e3 (memset wg.heap p2 0 wg.engine.block_size) wg.file wg.submitted,
    hw1, hfile1, hw2, ?_, ?_⟩
  · rw [hsame]
    exact he3
  · simp only [memset]
    rw [heap_read_other _ _ _ _ (Ne.symm hfresh), hheapg, hpd2.2.1]
    exact heap_read_head _ _ _

/-! ## More concrete runs -/

theorem good_succeeds (bs : Nat) : InitOS.good.succeeds bs := by
  unfold InitOS.succeeds InitOS.good
  simp

theorem run_submit_read (w w' : World) (fd page r : Int) (o : Option Int)
    (h : daio_submit_read w fd page = some (w', r, o)) :
    Call.run w (Call.submit_read fd page) = some w' := by
  simp [Call.run, h]

theorem run_read_slot (w w' : World) (k : Kernel) (slot r : Int) (o : Option (Ptr × Nat))
    (h : daio_read_slot w k slot = some (w', r, o)) :
    Call.run w (Call.read_slot k slot) = some w' := by
  simp [Call.run, h]

theorem submit_read_never_fails (w : World) (fd page : Int) :
    ¬ Call.batch_failed w (Call.submit_read fd page) := by
  simp [Call.batch_failed, Call.process_state]

theorem read_slot_batch_ok (w : World) (k : Kernel) (slot : Int) (h : 0 ≤ (process w k).2) :
    ¬ Call.batch_failed w (Call.read_slot k slot) := by
  unfold Call.batch_failed Call.process_state
  by_cases hc : w.engine.ready = 0 ∧ is_empty w.engine = some 0
  · simp only [hc, and_self, if_true, not_lt]
    exact h
  · simp [hc]

theorem half_drained_reachable : ReachableBatchOk world_2_1 half_drained_2_1 :=
  ReachableBatchOk.step queued_2_1 half_drained_2_1 (Call.read_slot (Kernel.good 512 9) 1)
    (ReachableBatchOk.step one_read_2_1 queued_2_1 (Call.submit_read 3 1)
      (ReachableBatchOk.step world_2_1 one_read_2_1 (Call.submit_read 3 0)
        ReachableBatchOk.start trivial (submit_read_never_fails _ _ _)
        (run_submit_read _ _ _ _ 0 (some 0) rfl))
      trivial (submit_read_never_fails _ _ _) (run_submit_read _ _ _ _ 0 (some 1) rfl))
    ⟨by decide, by decide⟩ (read_slot_batch_ok _ _ _ (by decide))
    (run_read_slot _ _ _ _ 0 (some (2, 512)) rfl)

/-- The arguments `(100, 2, 1)` are rejected: 100 is below 512. -/
theorem initialize_fails_iff_invalid_witness :
    (( daio_initialize InitOS.good [] 100 2 1).1 ≠ 0 ↔ invalid_arguments 100 2 1) ∧
    (invalid_arguments 100 2 1 → daio_initialize InitOS.good [] 100 2 1 = (-1, none)) :=
  initialize_fails_iff_invalid InitOS.good [] 100 2 1 (good_succeeds 100)

/-- The arguments `(512, 2, 1)` build an engine with 2 available slots. -/
theorem initialize_builds_empty_engine_witness :
    ∃ w0, daio_initialize InitOS.good [] 512 2 1 = (0, some w0) ∧
      daio_get_available_slots w0 = 2 :=
  (initialize_builds_empty_engine InitOS.good [] 512 2 1 (good_succeeds 512) (by decide)
    (by decide) (by decide) (Or.inr (Or.inl rfl)) (by decide)).imp
    (fun _ h => ⟨h.1, h.2.2.2.2.2.2.2.2⟩)

theorem slot_buffer_length :
    (Heap.read world_with_buffer.heap 1).length = world_with_buffer.engine.block_size := by
  have h : world_with_buffer.heap = (100, List.replicate 512 7) ::
      (3, List.replicate 512 0) :: (2, List.replicate 512 0) ::
      (1, List.replicate 512 0) :: [] := rfl
  rw [h, heap_read_other _ _ _ _ (by decide), heap_read_other _ _ _ _ (by decide),
    heap_read_other _ _ _ _ (by decide), heap_read_head, List.length_replicate]
  rfl

/-- A page of bytes 7 written to page 3 of the empty file and read back. -/
theorem write_then_read_round_trip_witness :
    ∃ w1 w2 w3,
      daio_submit_write world_with_buffer (Kernel.disk 9) 3 100
        world_with_buffer.engine.block_size 3 = some (w1, 0) ∧
      w1.file = world_with_buffer.file.write
        (page_offset 3 world_with_buffer.engine.block_size)
        (List.replicate world_with_buffer.engine.block_size 7) ∧
      daio_submit_read w1 3 3 = some (w2, 0, some 0) ∧
      daio_read_slot w2 (Kernel.disk 10) 0
        = some (w3, 0, some (1, world_with_buffer.engine.block_size)) ∧
      Heap.read w3.heap 1 = List.replicate world_with_buffer.engine.block_size 7 :=
  write_then_read_round_trip 2 3 world_with_buffer 3 100 7 3 9 10 1
    (by unfold Table; decide) rfl rfl rfl (by decide)
    slot_buffer_length
    (by decide) (by decide)

/-- The ready flag of `half_drained_2_1` is set and slot 0 is still marked. -/
theorem ready_implies_occupied_witness :
    1 ≤ half_drained_2_1.engine.in_use ∧
    ∃ j : Nat, (j : Int) < half_drained_2_1.engine.channels ∧
      half_drained_2_1.engine.slots[j]? = some 1 ∧
      ∀ k : Kernel, ∃ w' r o, daio_read_slot half_drained_2_1 k (j : Int) = some (w', r, o) ∧
        w'.engine.in_use = half_drained_2_1.engine.in_use - 1 :=
  ready_implies_occupied InitOS.good [] 512 2 1 world_2_1 half_drained_2_1 rfl
    half_drained_reachable (by decide)

/-- C17 (failing run). After `daio_initialize(512, 2, 1)`, `daio_submit_write` invokes
`process` with `in_use = 1` while the normal slots 0 and 1 are both marked, slot 1 holding
the sync request; the call returns 0 and the one batch `io_submit` received is the write
request of slot 0 alone: the request prepared in the marked normal slot 1 was not
submitted. -/
theorem normal_slot_marked_beyond_in_use :
    daio_initialize InitOS.good [] 512 2 1 = (0, some world_2_1) ∧
    ReachableBatchOk world_2_1 world_2_1 ∧
    Call.process_state world_2_1 (Call.submit_write (Kernel.good 512 9) 3 100 512 0)
      = some (World.mk prepared_2_1 heap_2_1 File.empty [], Kernel.good 512 9) ∧
    prepared_2_1.in_use = 1 ∧ occupied_normal prepared_2_1 = 2 ∧
    (1 : Int) < prepared_2_1.channels ∧
    idx prepared_2_1.slots 1 = some 1 ∧ idx prepared_2_1.iocbs 1 = some (io_prep_fsync 3) ∧
    daio_submit_write world_2_1 (Kernel.good 512 9) 3 100 512 0 = some (written_2_1, 0) ∧
    written_2_1.submitted = [[io_prep_pwrite 3 100 512 0]] ∧
    io_prep_fsync 3 ∉ written_2_1.submitted.flatten :=
  ⟨rfl, ReachableBatchOk.start, rfl, rfl, rfl, by decide, rfl, rfl, rfl, rfl, by decide⟩

/-- The requests prepared on `world_2_1` for page 0. -/
theorem prepared_request_fields_witness :
    (∃ d, idx world_2_1.engine.data 0 = some d ∧
      idx one_read_2_1.engine.iocbs 0 = some (iocb.mk Cmd.pread 3 d
        world_2_1.engine.block_size (page_offset 0 world_2_1.engine.block_size))) ∧
    idx prepared_2_1.iocbs 0 = some (iocb.mk Cmd.pwrite 3 100 512
      (page_offset 0 world_2_1.engine.block_size)) ∧
    page_offset 0 world_2_1.engine.block_size = 0 * (world_2_1.engine.block_size : Int) :=
  have h := prepared_request_fields world_2_1 one_read_2_1 3 0 0 prepared_2_1 100 512 0 1
  ⟨h.1 rfl, h.2.1 rfl (by decide), h.2.2.2.2.2 (by decide) (by decide)⟩

/-! ## Channel counts beyond the `int` range -/

/-- C2 (counterexample). `daio_initialize(512, 2^32 + 4, 0)` succeeds and builds a table of
4 slots for its `2^32 + 4` channels: `daio_get_available_slots` returns 4, and of five
`daio_submit_read` calls in a row the first four return 0 and the fifth returns -1, with
`daio_get_available_slots` then 0. -/
theorem fifth_read_rejected :
    daio_initialize InitOS.good [] 512 4294967300 0 = (0, some world_wrapped) ∧
    world_wrapped.engine.channels = 4294967300 ∧
    daio_get_available_slots world_wrapped = 4 ∧
    submit_reads world_wrapped 3 [0, 1, 2, 3, 4]
      = some (world_wrapped_full,
          [(0, some 0), (0, some 1), (0, some 2), (0, some 3), (-1, none)]) ∧
    daio_get_available_slots world_wrapped_full = 0 :=
  ⟨rfl, rfl, rfl, rfl, rfl⟩

/-- C12 (counterexample). For the valid arguments `(512, 2^32 + 4, 1)` and an operating
system under which every step succeeds, `daio_initialize` returns 0 and builds a table of
5 slots, and `daio_get_available_slots` then returns 4, not the channel count. -/
theorem table_size_wraps :
    InitOS.good.succeeds 512 ∧ ¬ invalid_arguments 512 4294967300 1 ∧
    daio_initialize InitOS.good [] 512 4294967300 1 = (0, some world_wrapped_sync) ∧
    world_wrapped_sync.engine.channels = 4294967300 ∧
    world_wrapped_sync.engine.slots.length = 5 ∧
    daio_get_available_slots world_wrapped_sync = 4 ∧
    daio_get_available_slots world_wrapped_sync ≠ world_wrapped_sync.engine.channels :=
  ⟨good_succeeds 512, by unfold invalid_arguments; decide, rfl, rfl, rfl, rfl, by decide⟩

end Daio
